import Mathlib

/-!
# asyncpp `task<T>`: a shallow embedding of `include/asyncpp/task.h`

The file has three layers.

* The promise (`task_promise_base`, `task_promise<T>`, `task_promise<void>`), the two
  awaiters and the owning handle `task<T>`, each member function translated from the header.
* The part of the C++20 coroutine protocol that drives those members (frame allocation,
  `initial_suspend`, `co_await`, `co_return`, escaping exceptions, `final_suspend`, symmetric
  transfer, `destroy`), as a small-step machine over coroutine bodies.
* Theorems about both.

Conventions: a `coroutine_handle` is `none` for the null handle and `some a` for the frame at
address `a`; an `assert` of the header that does not hold, and every use of a handle that C++
leaves undefined, ends the computation in a `fault`.
-/

namespace asyncpp

/-! ## Handles, faults and the result variant -/

/-- A `coroutine_handle<>`: the null handle or the address of a coroutine frame. -/
abbrev coroutine_handle := Option Nat

/-- Ways a computation stops outside the language rules. -/
inductive fault where
  /-- An `assert(...)` of the header evaluated to false. -/
  | assertion_failed
  /-- A handle was dereferenced whose frame does not exist or was destroyed. -/
  | dangling
  /-- The null handle was resumed. -/
  | null_resume
  /-- A frame was resumed that is executing or is suspended at `final_suspend`. -/
  | bad_resume
  deriving DecidableEq, Repr

/-- What is left in an object of type `T` after it was the source of a move construction. -/
class Movable (T : Type) where
  /-- The moved-from residue of a value. -/
  moved_from : T → T

/-- Trivially copyable types: a move is a copy. -/
instance : Movable Nat := ⟨id⟩

/-- Trivially copyable types: a move is a copy. -/
instance : Movable Int := ⟨id⟩

/-- The `std::variant<std::monostate, TVal, std::exception_ptr>` of the promise. -/
inductive variant (TVal E : Type) where
  | monostate
  | value (v : TVal)
  | exception_ptr (e : E)
  deriving DecidableEq, Repr

/-- `std::holds_alternative<std::exception_ptr>(m_value)`. -/
def variant.holds_exception_ptr {TVal E : Type} : variant TVal E → Bool
  | .exception_ptr _ => true
  | _ => false

/-- `std::holds_alternative<TVal>(m_value)`. -/
def variant.holds_value {TVal E : Type} : variant TVal E → Bool
  | .value _ => true
  | _ => false

/-- `std::holds_alternative<std::monostate>(m_value)`. -/
def variant.holds_monostate {TVal E : Type} : variant TVal E → Bool
  | .monostate => true
  | _ => false

/-- How a call that may throw ends: with a value, with a stored exception rethrown, or with the
`std::bad_variant_access` that `std::get` throws on the wrong alternative. -/
inductive outcome (TVal E : Type) where
  | returned (v : TVal)
  | thrown (e : E)
  | bad_variant_access
  deriving DecidableEq, Repr

/-- `std::exchange(obj, new_value)`: the old value of `obj` (first component) and `obj` after
the call (second component). -/
def std.exchange {α : Type} (obj new_value : α) : α × α := (obj, new_value)

/-! ## The promise -/

/-- Data members of `detail::task_promise_base<TVal, TPromise>`. -/
structure task_promise_base (TVal E : Type) where
  m_continuation : coroutine_handle
  m_value : variant TVal E
  deriving DecidableEq, Repr

/-- `task_promise_base() noexcept {}`: both members default-initialised. -/
def task_promise_base.ctor {TVal E : Type} : task_promise_base TVal E :=
  { m_continuation := none, m_value := .monostate }

/-- `unhandled_exception()`: `m_value.emplace<std::exception_ptr>(std::current_exception())`. -/
def task_promise_base.unhandled_exception {TVal E : Type} (p : task_promise_base TVal E)
    (current_exception : E) : task_promise_base TVal E :=
  { p with m_value := .exception_ptr current_exception }

/-- `rethrow_if_exception()`: rethrows a stored exception (the variant is read through an
lvalue, so it is left as it was); otherwise `std::get<TVal>(std::move(m_value))`, which moves
the stored value out of the `TVal` alternative (the variant keeps that alternative, holding the
moved-from residue) or throws `std::bad_variant_access` when the variant is `monostate`. -/
def task_promise_base.rethrow_if_exception {TVal E : Type} [Movable TVal]
    (p : task_promise_base TVal E) : outcome TVal E × task_promise_base TVal E :=
  if p.m_value.holds_exception_ptr then
    match p.m_value with
    | .exception_ptr e => (.thrown e, p)
    | _ => (.bad_variant_access, p)
  else
    match p.m_value with
    | .value v => (.returned v, { p with m_value := .value (Movable.moved_from v) })
    | _ => (.bad_variant_access, p)

/-- `detail::task_promise<T>`: the base with `TVal = T`. -/
abbrev task_promise (T E : Type) := task_promise_base T E

/-- `task_promise<T>::return_value(U&& value)`: `m_value.emplace<T>(value)`. -/
def task_promise.return_value {T E : Type} (p : task_promise T E) (value : T) :
    task_promise T E :=
  { p with m_value := .value value }

/-- `task_promise<T>::get()`: `return this->rethrow_if_exception();`. -/
def task_promise.get {T E : Type} [Movable T] (p : task_promise T E) :
    outcome T E × task_promise T E :=
  task_promise_base.rethrow_if_exception p

/-- `struct returned {};`, the marker stored by a `task<void>` that returned. -/
inductive returned where
  | mk
  deriving DecidableEq, Repr

/-- An empty struct has nothing to move. -/
instance : Movable returned := ⟨id⟩

/-- `detail::task_promise<void>`: the base with `TVal = returned`. -/
abbrev task_promise_void (E : Type) := task_promise_base returned E

/-- `task_promise<void>::return_void()`: `m_value.emplace<returned>()`. -/
def task_promise_void.return_void {E : Type} (p : task_promise_void E) : task_promise_void E :=
  { p with m_value := .value returned.mk }

/-- `task_promise<void>::get()`: `this->rethrow_if_exception();`, the marker is discarded. -/
def task_promise_void.get {E : Type} (p : task_promise_void E) :
    outcome Unit E × task_promise_void E :=
  match task_promise_base.rethrow_if_exception p with
  | (.returned _, p') => (.returned (), p')
  | (.thrown e, p') => (.thrown e, p')
  | (.bad_variant_access, p') => (.bad_variant_access, p')

/-! ## The owning handle `task<T>` and coroutine frames -/

/-- Data member of `task<T>`: `handle_t m_coro`. -/
structure task where
  m_coro : coroutine_handle
  deriving DecidableEq, Repr

/-- Data member of the awaiter returned by `task::operator co_await`: a copy of the handle. -/
structure task.awaiter where
  m_coro : coroutine_handle
  deriving DecidableEq, Repr

/-- An exception in flight in a coroutine body: one raised by user code, or the
`std::bad_variant_access` raised by `std::get`. -/
inductive exception (E : Type) where
  | bad_variant_access
  | user (e : E)
  deriving DecidableEq, Repr

/-- Bodies of coroutines, in continuation-passing form.
`co_return v` and `throw e` end the body; `effect k` is a statement with an observable side
effect (it bumps the world's counter); `suspend k` is `co_await std::suspend_always{}`, which
hands control back to whoever resumed the chain; `co_await callee k handler` is
`co_await callee()` for a coroutine function `callee` returning `task<T>`: `k` receives the
value produced by `await_resume`, `handler` the exception it throws (`Body.throw` when the body
has no `try` around the await). -/
inductive Body (T E : Type) where
  | co_return (v : T)
  | throw (e : exception E)
  | effect (k : Body T E)
  | suspend (k : Body T E)
  | co_await (callee : Body T E) (k : T → Body T E) (handler : exception E → Body T E)

/-- Where a coroutine frame stands. -/
inductive coro_state (T E : Type) where
  /-- Suspended at `initial_suspend`; no statement of `body` has run. -/
  | initial (body : Body T E)
  /-- Executing; the rest of its code is in the machine's control register. -/
  | running
  /-- Suspended at a `suspend_always` inside the body. -/
  | suspended (k : Body T E)
  /-- Suspended in `co_await tmp`, the temporary `tmp` and its awaiter `a` alive in the frame. -/
  | awaiting (tmp : task) (a : task.awaiter) (k : T → Body T E)
      (handler : exception E → Body T E)
  /-- Suspended at `final_suspend`: `done()` is true. -/
  | final
  /-- Destroyed: the address is dangling. -/
  | destroyed

/-- The two coroutine types of the model: `task<T>` coroutines, and a driver coroutine that is
not a task (its `final_suspend` returns to its resumer); a driver is what awaits a root task. -/
inductive frame_kind where
  | task
  | driver
  deriving DecidableEq, Repr

/-- A coroutine frame: its promise and its suspension state. -/
structure frame (T E : Type) where
  kind : frame_kind
  promise : task_promise T (exception E)
  state : coro_state T E

/-- Observable events, oldest first in `World.log`. -/
inductive event where
  /-- Control entered the frame: it left a suspension point. -/
  | resumed (a : Nat)
  /-- A side-effecting body statement of the frame ran. -/
  | effect (a : Nat)
  /-- The frame was torn down by `destroy()`. -/
  | destroyed (a : Nat)
  /-- The final awaiter of frame `a` handed control to handle `target`. -/
  | final_transfer (a : Nat) (target : coroutine_handle)
  deriving DecidableEq, Repr

/-- The heap of coroutine frames (a frame's address is its index), the side-effect counter
and the event log. -/
structure World (T E : Type) where
  frames : List (frame T E)
  counter : Nat
  log : List event

/-- The world before any coroutine was called. -/
def World.empty {T E : Type} : World T E := { frames := [], counter := 0, log := [] }

/-- Whether the frame was destroyed. -/
def coro_state.is_destroyed {T E : Type} : coro_state T E → Bool
  | .destroyed => true
  | _ => false

/-- Whether the frame is suspended at its final suspend point. -/
def coro_state.is_final {T E : Type} : coro_state T E → Bool
  | .final => true
  | _ => false

/-- The frame stored at an address, destroyed or not. -/
def World.lookup {T E : Type} (w : World T E) (a : Nat) : Option (frame T E) := w.frames[a]?

/-- The live frame at an address, if any. -/
def World.frame_at {T E : Type} (w : World T E) (a : Nat) : Option (frame T E) :=
  match w.frames[a]? with
  | some f => if f.state.is_destroyed then none else some f
  | none => none

/-- `h.promise()` for a non-null handle to a live frame. -/
def World.promise {T E : Type} (w : World T E) (a : Nat) :
    Option (task_promise T (exception E)) :=
  (w.frame_at a).map (fun f => f.promise)

/-- `h.done()`: the frame is suspended at its final suspend point. -/
def World.done {T E : Type} (w : World T E) (a : Nat) : Bool :=
  match w.frames[a]? with
  | some f => f.state.is_final
  | none => false

/-- Overwrite the promise of the frame at an address. -/
def World.set_promise {T E : Type} (w : World T E) (a : Nat)
    (p : task_promise T (exception E)) : World T E :=
  match w.frames[a]? with
  | some f => { w with frames := w.frames.set a { f with promise := p } }
  | none => w

/-- Overwrite the suspension state of the frame at an address. -/
def World.set_state {T E : Type} (w : World T E) (a : Nat) (s : coro_state T E) : World T E :=
  match w.frames[a]? with
  | some f => { w with frames := w.frames.set a { f with state := s } }
  | none => w

/-- Append an event to the log. -/
def World.record {T E : Type} (w : World T E) (e : event) : World T E :=
  { w with log := w.log ++ [e] }

/-- A call of a coroutine function with body `body`: the frame is allocated, the promise is
constructed, `get_return_object()` yields the handle of the new frame, and the coroutine
suspends at `initial_suspend()` (a `suspend_always`) before any statement of the body. -/
def World.call {T E : Type} (w : World T E) (kind : frame_kind) (body : Body T E) :
    World T E × coroutine_handle :=
  ({ w with frames := w.frames ++
      [{ kind := kind, promise := task_promise_base.ctor, state := .initial body }] },
   some w.frames.length)

/-- `task(handle_t h)`: `m_coro(h)`, with `assert(m_coro)` and `assert(!m_coro.done())`. -/
def task.ctor {T E : Type} (w : World T E) (h : coroutine_handle) : Except fault task :=
  match h with
  | none => .error .assertion_failed
  | some a => if w.done a then .error .assertion_failed else .ok { m_coro := h }

/-- `task(std::nullptr_t)`: the invalid task. -/
def task.ctor_nullptr : task := { m_coro := none }

/-- `explicit operator bool()`: `m_coro != nullptr`. -/
def task.operator_bool (t : task) : Bool := t.m_coro != none

/-- `operator!()`: `m_coro == nullptr`. -/
def task.operator_not (t : task) : Bool := t.m_coro == none

/-- `h.destroy()` on the frame at address `a`, with `~task()` of the temporary that lives in a
frame suspended inside a `co_await`: the locals of the frame are unwound, which tears down the
awaited callee in turn. The recursion follows the ownership chain; `fuel` bounds its length
(`World.destroy` passes the number of frames, which no chain without repetition exceeds). -/
def World.destroy_aux {T E : Type} : Nat → World T E → Nat → World T E
  | 0, w, _ => w
  | fuel + 1, w, a =>
    match w.frames[a]? with
    | none => w.record (.destroyed a)
    | some f =>
      let w1 := (w.set_state a .destroyed).record (.destroyed a)
      match f.state with
      | .awaiting tmp _ _ _ =>
        match tmp.m_coro with
        | some c => World.destroy_aux fuel w1 c
        | none => w1
      | _ => w1

/-- `h.destroy()` for a non-null handle. -/
def World.destroy {T E : Type} (w : World T E) (a : Nat) : World T E :=
  World.destroy_aux (w.frames.length + 1) w a

/-- `~task()`: `if (m_coro) m_coro.destroy(); m_coro = nullptr;`. Returns the world and the
object as the destructor leaves it. -/
def task.dtor {T E : Type} (w : World T E) (t : task) : World T E × task :=
  match t.m_coro with
  | some a => (w.destroy a, { m_coro := none })
  | none => (w, { m_coro := none })

/-- `task(task&& other)`: `m_coro{std::exchange(other.m_coro, {})}`. Returns the constructed
object and `other` after the call. -/
def task.move_ctor (other : task) : task × task :=
  let r := std.exchange other.m_coro none
  ({ m_coro := r.1 }, { m_coro := r.2 })

/-- `release()`: `assert(m_coro); return std::exchange(m_coro, {});`. Returns the handle and
the task after the call. -/
def task.release (t : task) : Except fault (coroutine_handle × task) :=
  match t.m_coro with
  | none => .error .assertion_failed
  | some _ =>
    let r := std.exchange t.m_coro none
    .ok (r.1, { m_coro := r.2 })

/-- Task objects by address: the variables of the code that owns the handles. -/
abbrev task_store := Nat → task

/-- `task& operator=(task&& other)`, for the object at address `this` and the argument bound
to the object at address `other` (the same address for a self-assignment):
`m_coro = std::exchange(other.m_coro, m_coro);`. The second argument of `exchange` is read from
`*this`, `exchange` stores it into `other.m_coro`, and its result is stored into `m_coro`. -/
def task.move_assign (s : task_store) (this other : Nat) : task_store :=
  let r := std.exchange (s other).m_coro (s this).m_coro
  let s1 := Function.update s other { m_coro := r.2 }
  Function.update s1 this { m_coro := r.1 }

/-- `task::operator co_await()`: `assert(m_coro); return awaiter{m_coro};`. -/
def task.operator_co_await (t : task) : Except fault task.awaiter :=
  match t.m_coro with
  | none => .error .assertion_failed
  | some _ => .ok { m_coro := t.m_coro }

/-- The task awaiter's `await_ready()`: `return false;`. -/
def task.awaiter.await_ready (_ : task.awaiter) : Bool := false

/-- The task awaiter's `await_suspend(coroutine_handle<void> h)`: `assert(m_coro); assert(h);
m_coro.promise().m_continuation = h; return m_coro;`. -/
def task.awaiter.await_suspend {T E : Type} (a : task.awaiter) (w : World T E)
    (h : coroutine_handle) : Except fault (coroutine_handle × World T E) :=
  match a.m_coro with
  | none => .error .assertion_failed
  | some c =>
    match h with
    | none => .error .assertion_failed
    | some _ =>
      match w.promise c with
      | none => .error .dangling
      | some p => .ok (a.m_coro, w.set_promise c { p with m_continuation := h })

/-- The task awaiter's `await_resume()`: `assert(m_coro); return m_coro.promise().get();`. -/
def task.awaiter.await_resume {T E : Type} [Movable T] (a : task.awaiter) (w : World T E) :
    Except fault (outcome T (exception E) × World T E) :=
  match a.m_coro with
  | none => .error .assertion_failed
  | some c =>
    match w.promise c with
    | none => .error .dangling
    | some p =>
      let r := task_promise.get p
      .ok (r.1, w.set_promise c r.2)

/-- The final awaiter's `await_ready()`: `return false;`. -/
def final_suspend.awaiter.await_ready : Bool := false

/-- The final awaiter's `await_suspend(coroutine_handle<TPromise> h)`: `assert(h);
assert(h.promise().m_continuation); return h.promise().m_continuation;`. -/
def final_suspend.awaiter.await_suspend {T E : Type} (w : World T E) (h : coroutine_handle) :
    Except fault coroutine_handle :=
  match h with
  | none => .error .assertion_failed
  | some a =>
    match w.promise a with
    | none => .error .dangling
    | some p =>
      match p.m_continuation with
      | none => .error .assertion_failed
      | some c => .ok (some c)

/-! ## The coroutine protocol as a machine -/

/-- The control register: who runs next. -/
inductive control (T E : Type) where
  /-- No coroutine runs: control is with the code that called `resume()`. -/
  | idle
  /-- Handle `h` is about to be resumed (by `resume()` or by a symmetric transfer). -/
  | resuming (h : coroutine_handle)
  /-- The frame at address `a` executes `code`. -/
  | running (a : Nat) (code : Body T E)
  /-- The computation stopped in a fault. -/
  | aborted (f : fault)

/-- A world together with the control register. -/
structure Machine (T E : Type) where
  world : World T E
  ctl : control T E

/-- The fault a machine stopped in, if any. -/
def Machine.fault {T E : Type} (m : Machine T E) : Option fault :=
  match m.ctl with
  | .aborted f => some f
  | _ => none

/-- Whether control is back with the code that called `resume()`. -/
def Machine.is_idle {T E : Type} (m : Machine T E) : Bool :=
  match m.ctl with
  | .idle => true
  | _ => false

/-- `co_await promise.final_suspend()` in the frame at address `a`, reached after
`return_value`, `return_void` or `unhandled_exception`. For a `task` coroutine the final awaiter
is not ready, the frame is marked suspended at its final suspend point, and control goes to the
handle that `await_suspend` returns. A driver coroutine suspends and returns to its resumer. -/
def Machine.final_suspend {T E : Type} (w : World T E) (a : Nat) : Machine T E :=
  match w.frames[a]? with
  | none => { world := w, ctl := .aborted .dangling }
  | some f =>
    match f.kind with
    | .driver => { world := w.set_state a .final, ctl := .idle }
    | .task =>
      if final_suspend.awaiter.await_ready then
        { world := w.destroy a, ctl := .idle }
      else
        let w1 := w.set_state a .final
        match final_suspend.awaiter.await_suspend w1 (some a) with
        | .error e => { world := w1, ctl := .aborted e }
        | .ok next => { world := w1.record (.final_transfer a next), ctl := .resuming next }

/-- The second half of `co_await tmp` in the frame at address `a`: `await_resume()` is called,
the temporary task is destroyed at the end of the full-expression (also when `await_resume`
throws), and the body goes on with the value or with the exception. -/
def Machine.finish_await {T E : Type} [Movable T] (w : World T E) (a : Nat) (tmp : task)
    (aw : task.awaiter) (k : T → Body T E) (handler : exception E → Body T E) :
    Machine T E :=
  match aw.await_resume w with
  | .error e => { world := w, ctl := .aborted e }
  | .ok r =>
    let w2 := (task.dtor r.2 tmp).1
    match r.1 with
    | .returned v => { world := w2, ctl := .running a (k v) }
    | .thrown e => { world := w2, ctl := .running a (handler e) }
    | .bad_variant_access => { world := w2, ctl := .running a (handler .bad_variant_access) }

/-- Control enters the frame at address `a`, which must be suspended. -/
def Machine.enter {T E : Type} [Movable T] (w : World T E) (a : Nat) : Machine T E :=
  match w.frames[a]? with
  | none => { world := w, ctl := .aborted .dangling }
  | some f =>
    match f.state with
    | .initial body =>
      { world := (w.set_state a .running).record (.resumed a), ctl := .running a body }
    | .suspended k =>
      { world := (w.set_state a .running).record (.resumed a), ctl := .running a k }
    | .awaiting tmp aw k handler =>
      Machine.finish_await ((w.set_state a .running).record (.resumed a)) a tmp aw k handler
    | .running => { world := w, ctl := .aborted .bad_resume }
    | .final => { world := w, ctl := .aborted .bad_resume }
    | .destroyed => { world := w, ctl := .aborted .dangling }

/-- The frame at address `a` executes the next piece of its body. -/
def Machine.exec {T E : Type} [Movable T] (w : World T E) (a : Nat) :
    Body T E → Machine T E
  | .effect k =>
    { world := ({ w with counter := w.counter + 1 }).record (.effect a), ctl := .running a k }
  | .suspend k => { world := w.set_state a (.suspended k), ctl := .idle }
  | .co_return v =>
    match w.promise a with
    | none => { world := w, ctl := .aborted .dangling }
    | some p => Machine.final_suspend (w.set_promise a (task_promise.return_value p v)) a
  | .throw e =>
    match w.promise a with
    | none => { world := w, ctl := .aborted .dangling }
    | some p =>
      Machine.final_suspend (w.set_promise a (task_promise_base.unhandled_exception p e)) a
  | .co_await callee k handler =>
    let r := w.call .task callee
    match task.ctor r.1 r.2 with
    | .error e => { world := r.1, ctl := .aborted e }
    | .ok tmp =>
      match tmp.operator_co_await with
      | .error e => { world := r.1, ctl := .aborted e }
      | .ok aw =>
        if aw.await_ready then
          Machine.finish_await r.1 a tmp aw k handler
        else
          match aw.await_suspend (r.1.set_state a (.awaiting tmp aw k handler)) (some a) with
          | .error e => { world := r.1, ctl := .aborted e }
          | .ok n => { world := n.2, ctl := .resuming n.1 }

/-- One step of the machine. Idle and aborted machines do not move. -/
def Machine.step {T E : Type} [Movable T] (m : Machine T E) : Machine T E :=
  match m.ctl with
  | .idle => m
  | .aborted _ => m
  | .resuming none => { world := m.world, ctl := .aborted .null_resume }
  | .resuming (some a) => Machine.enter m.world a
  | .running a code => Machine.exec m.world a code

/-- At most `fuel` steps. -/
def Machine.run {T E : Type} [Movable T] : Nat → Machine T E → Machine T E
  | 0, m => m
  | fuel + 1, m => Machine.run fuel m.step

/-- `h.resume()` called from code outside any coroutine, followed for at most `fuel` steps. -/
def Machine.resume {T E : Type} [Movable T] (fuel : Nat) (w : World T E)
    (h : coroutine_handle) : Machine T E :=
  Machine.run fuel { world := w, ctl := .resuming h }

/-- The `m_value` of the promise of the frame at address `a`, destroyed or not. -/
def World.result {T E : Type} (w : World T E) (a : Nat) : Option (variant T (exception E)) :=
  (w.frames[a]?).map (fun f => f.promise.m_value)

/-- The `m_continuation` of the promise of the frame at address `a`, destroyed or not. -/
def World.continuation {T E : Type} (w : World T E) (a : Nat) : Option coroutine_handle :=
  (w.frames[a]?).map (fun f => f.promise.m_continuation)

/-- A driver coroutine whose whole body is `co_return co_await callee();`. -/
def Body.await_and_return {T E : Type} (callee : Body T E) : Body T E :=
  .co_await callee (fun v => .co_return v) (fun e => .throw e)

/-- Awaiting a task from a driver: the driver coroutine `co_return co_await callee();` is
called and resumed; the result is the machine after at most `fuel` steps. The driver frame is
at address `w.frames.length`, the awaited task at the next one. -/
def Machine.await {T E : Type} [Movable T] (fuel : Nat) (w : World T E) (callee : Body T E) :
    Machine T E :=
  let r := w.call .driver (Body.await_and_return callee)
  Machine.resume fuel r.1 r.2

/-- What the code outside the coroutines does next: let the machine take one step, or call
`resume()` on the handle of the frame at address `b`. -/
inductive action where
  | tick
  | resume (b : Nat)
  deriving DecidableEq, Repr

/-- One action. `resume()` is called only when control is with the code outside the
coroutines; otherwise the action is skipped. -/
def Machine.act {T E : Type} [Movable T] (m : Machine T E) : action → Machine T E
  | .tick => m.step
  | .resume b => if m.is_idle then { world := m.world, ctl := .resuming (some b) } else m

/-- A sequence of actions, first to last. -/
def Machine.play {T E : Type} [Movable T] (m : Machine T E) (acts : List action) :
    Machine T E :=
  acts.foldl Machine.act m

/-- The code `auto t = f(); auto h = t.release(); h.resume();` outside any coroutine: the
coroutine function with body `body` is called, the returned task is released, and the raw
handle is resumed; the machine then goes through `acts`. -/
def Machine.release_and_resume {T E : Type} [Movable T] (acts : List action) (w : World T E)
    (body : Body T E) : Except asyncpp.fault (Machine T E) :=
  let r := w.call .task body
  match task.ctor r.1 r.2 with
  | .error e => .error e
  | .ok t =>
    match t.release with
    | .error e => .error e
    | .ok h => .ok (Machine.play { world := r.1, ctl := .resuming h.1 } acts)

/-- The machine in which the frame at address `a` is about to execute `co_await body()`,
with `k` and `handler` the rest of its code. -/
def Machine.awaiting {T E : Type} (w : World T E) (a : Nat) (body : Body T E)
    (k : T → Body T E) (handler : exception E → Body T E) : Machine T E :=
  { world := w, ctl := .running a (.co_await body k handler) }

/-- A world with one suspended driver frame at address 0, used to instantiate theorems. -/
def demo_world : World Nat String :=
  (World.call World.empty .driver (.co_return 0)).1

/-- The frame of `demo_world`. -/
def demo_frame : frame Nat String :=
  { kind := .driver, promise := task_promise_base.ctor, state := .initial (.co_return 0) }

/-- Two task objects: the one at address 0 owns frame 5, the one at address 1 owns frame 7,
every other address holds an empty task. -/
def demo_store : task_store := fun n =>
  if n = 0 then { m_coro := some 5 } else if n = 1 then { m_coro := some 7 } else { m_coro := none }

/-- A world with a suspended driver at address 0, whose body awaits a task returning 5, and
at address 1 a task that was called and never awaited; its body would bump the counter. -/
def demo_lazy_world : World Nat String :=
  ((World.call World.empty .driver (Body.await_and_return (.co_return 5))).1.call .task
    (.effect (.co_return 1))).1

/-! ## Predicates used by the claims -/

/-- The frame at address `a` has not started: it is still suspended at `initial_suspend` with
its whole body `body` ahead of it, or it was destroyed in that state. -/
def World.unstarted {T E : Type} (w : World T E) (a : Nat) (body : Body T E) : Prop :=
  ∃ f, w.lookup a = some f ∧ (f.state = .initial body ∨ f.state = .destroyed)

/-- The frame at address `a` has not started and control is not inside it. -/
def Machine.unstarted {T E : Type} (m : Machine T E) (a : Nat) (body : Body T E) : Prop :=
  m.world.unstarted a body ∧ ∀ code, m.ctl ≠ .running a code

/-! ## Comparing a released-and-resumed task with an awaited one

The task frame sits at address `n` in both runs and the caller frame at address `a < n`. The
two worlds may differ in the state of the caller frame and in the continuation link of the
task frame: null in the released run, `some a` in the awaited one. -/

/-- Promises of the frame at address `i` in the two runs: same result, same continuation
except at the task frame itself. -/
def promise_sim {T E : Type} (n a i : Nat) (pR pA : task_promise T (exception E)) : Prop :=
  pR.m_value = pA.m_value ∧
  (i ≠ n → pR.m_continuation = pA.m_continuation) ∧
  (i = n → pR.m_continuation = none ∧ pA.m_continuation = some a)

/-- Frames at address `i` in the two runs. -/
def frame_sim {T E : Type} (n a i : Nat) (fR fA : frame T E) : Prop :=
  fR.kind = fA.kind ∧ fR.state = fA.state ∧ promise_sim n a i fR.promise fA.promise

/-- The suspension state holds no handle to an address below `n`. -/
def coro_state.closed {T E : Type} (n : Nat) (s : coro_state T E) : Prop :=
  ∀ tmp aw k h, s = .awaiting tmp aw k h →
    (∀ c, tmp.m_coro = some c → n ≤ c) ∧ (∀ c, aw.m_coro = some c → n ≤ c)

/-- The frame at address `i` holds no handle to an address below `n`, its continuation link
apart when it is the task frame itself. -/
def frame.closed {T E : Type} (n i : Nat) (f : frame T E) : Prop :=
  f.state.closed n ∧ (i ≠ n → ∀ c, f.promise.m_continuation = some c → n ≤ c)

/-- The worlds of the released run (`wR`) and of the awaited run (`wA`) agree from address `n`
on, up to the continuation link of the frame at `n`; the caller frame `a` of the awaited run
is suspended in its `co_await`. -/
structure World.sim {T E : Type} (n a : Nat) (k : T → Body T E)
    (handler : exception E → Body T E) (wR wA : World T E) : Prop where
  lt : a < n
  length : wR.frames.length = wA.frames.length
  counter : wR.counter = wA.counter
  log : wR.log = wA.log
  frames : ∀ i, n ≤ i → ∀ fR, wR.lookup i = some fR →
    ∃ fA, wA.lookup i = some fA ∧ frame_sim n a i fR fA
  closed : ∀ i, n ≤ i → ∀ fR, wR.lookup i = some fR → fR.closed n i
  root : n < wR.frames.length
  caller : ∃ fa, wA.lookup a = some fa ∧
    fa.state = .awaiting { m_coro := some n } { m_coro := some n } k handler

/-- Control is at an address from `n` on. -/
def control.above {T E : Type} (n : Nat) : control T E → Prop
  | .running b _ => n ≤ b
  | .resuming (some b) => n ≤ b
  | _ => True

/-- The two runs are in lockstep. -/
def Machine.sim {T E : Type} (n a : Nat) (k : T → Body T E)
    (handler : exception E → Body T E) (mR mA : Machine T E) : Prop :=
  mR.ctl = mA.ctl ∧ mR.ctl.above n ∧ World.sim n a k handler mR.world mA.world

/-- The released run has stopped at the failed assertion of the final awaiter, the awaited
run hands control back to the caller `a`, and the result channel of the released run holds
exactly what the next step of the awaited run delivers to the caller. -/
def Machine.diverged {T E : Type} [Movable T] (n a : Nat) (k : T → Body T E)
    (handler : exception E → Body T E) (mR mA : Machine T E) : Prop :=
  mR.ctl = .aborted .assertion_failed ∧ mA.ctl = .resuming (some a) ∧
  mR.world.counter = mA.world.counter ∧
  mA.world.log = mR.world.log ++ [.final_transfer n (some a)] ∧
  ((∃ v, mR.world.result n = some (.value v) ∧ mA.step.ctl = .running a (k v)) ∨
   (∃ e, mR.world.result n = some (.exception_ptr e) ∧ mA.step.ctl = .running a (handler e)))

/-- A world whose only frame, at address 0, has `42` stored in its result channel. -/
def demo_value_world : World Nat String :=
  demo_world.set_promise 0 { m_continuation := none, m_value := .value 42 }

/-! ## How frames change along a run -/

/-- `m_value.index()`: which alternative the variant holds. -/
def variant.index {TVal E : Type} : variant TVal E → Nat
  | .monostate => 0
  | .value _ => 1
  | .exception_ptr _ => 2

/-- The frame whose body is at its completion step, if control is there: it is about to
execute `co_return` or to let an exception escape. -/
def control.completing {T E : Type} : control T E → Option Nat
  | .running b (.co_return _) => some b
  | .running b (.throw _) => some b
  | _ => none

/-- Every frame of `w` is still a frame of `w2`, of the same kind and with the same
continuation link, and, unless it is the frame at the exempted address `x`, with the same
alternative in its result channel. -/
def World.evolves_off {T E : Type} (x : Option Nat) (w w2 : World T E) : Prop :=
  ∀ i f, w.lookup i = some f →
    ∃ f2, w2.lookup i = some f2 ∧ f2.kind = f.kind ∧
      f2.promise.m_continuation = f.promise.m_continuation ∧
      (x ≠ some i → f2.promise.m_value.index = f.promise.m_value.index)

/-- The machine right after frame 0 of `demo_world` has executed `co_await` on a task whose
body is `co_return 42`: the task frame is at address 1, its continuation link is `some 0`, and
it is about to be resumed. -/
def demo_awaited : Machine Nat String :=
  (Machine.awaiting demo_world 0 (.co_return 42) (fun r => .co_return r)
    (fun e => .throw e)).step

/-- The machine one step after `demo_awaited`: the task at address 1 is at its completion
step, the caller at address 0 is suspended in its `co_await`. -/
def demo_completing : Machine Nat String := demo_awaited.step

/-- Whether the frame is suspended before the end of its body. -/
def coro_state.is_pending {T E : Type} : coro_state T E → Bool
  | .initial _ => true
  | .suspended _ => true
  | .awaiting _ _ _ _ => true
  | _ => false

/-- No frame that is suspended before the end of its body has anything in its result channel,
nor has the frame at address `r` when `r` is given (the frame that is executing). -/
def World.unwritten {T E : Type} (r : Option Nat) (w : World T E) : Prop :=
  (∀ i f, w.lookup i = some f → f.state.is_pending = true → f.promise.m_value = .monostate) ∧
  (∀ b f, r = some b → w.lookup b = some f → f.promise.m_value = .monostate)

/-- The frame that is executing, if any. -/
def control.executing {T E : Type} : control T E → Option Nat
  | .running b _ => some b
  | _ => none

/-- The protocol has written no result channel before its time: the channels of the frames
that have not reached their completion step are empty. -/
def Machine.unwritten {T E : Type} (m : Machine T E) : Prop :=
  World.unwritten m.ctl.executing m.world

/-- The machine two steps after `demo_awaited`: the task at address 1 has returned `42` and
is at its final suspend point, the caller at address 0 is about to be resumed. -/
def demo_completed : Machine Nat String := Machine.play demo_awaited [.tick, .tick]

/-- Ownership points forward: the task temporary that lives in a frame suspended in a
`co_await` owns a frame that was created later, at a higher address. The machine keeps this
(`Machine.forward_play`): a `co_await` awaits the task it has just called. -/
def World.forward {T E : Type} (w : World T E) : Prop :=
  ∀ i f tmp aw k h, w.lookup i = some f → f.state = .awaiting tmp aw k h →
    ∀ d, tmp.m_coro = some d → i < d

/-- The world of `demo_awaited` with its event log emptied: frame 0 is suspended in a
`co_await` and its temporary owns frame 1. -/
def demo_owning_world : World Nat String :=
  { demo_awaited.world with log := [] }

/-! ## Handles held by variables -/

/-- The frame at address `i` is suspended in a `co_await` whose temporary task owns the frame
at address `d`. -/
def World.owns {T E : Type} (w : World T E) (i d : Nat) : Prop :=
  ∃ f tmp aw k h, w.lookup i = some f ∧ f.state = .awaiting tmp aw k h ∧ tmp.m_coro = some d

/-- Every frame of `w2` was a frame of `w` with the same state, unless it was destroyed. -/
def World.decays {T E : Type} (w w2 : World T E) : Prop :=
  ∀ i f2, w2.lookup i = some f2 →
    ∃ f, w.lookup i = some f ∧ (f2.state = f.state ∨ f2.state = .destroyed)

/-- The special member functions of `task` and `release()`, applied to task objects named by
their addresses. A move construction creates its object at the next unused address. -/
inductive handle_op where
  /-- `task(task&& other)` with `other` bound to the object at that address. -/
  | move_ctor (other : Nat)
  /-- `operator=(task&& other)` on the object at address `this`. -/
  | move_assign (this other : Nat)
  /-- `release()` on the object at address `this`. -/
  | release (this : Nat)
  /-- `~task()` on the object at address `this`. -/
  | dtor (this : Nat)
  deriving DecidableEq, Repr

/-- A set of task objects over a heap of frames: the objects at addresses below `size` have
been constructed; `released` collects the handles that `release()` returned. -/
structure handle_set (T E : Type) where
  world : World T E
  store : task_store
  size : Nat
  released : List Nat

/-- One operation on the set. An operation that names an address at which no object was
constructed is not a call of the program and leaves the set as it is; so does a `release()`
whose assertion fails. -/
def handle_set.apply {T E : Type} (o : handle_set T E) : handle_op → handle_set T E
  | .move_ctor other =>
    if other < o.size then
      let r := task.move_ctor (o.store other)
      { o with store := Function.update (Function.update o.store other r.2) o.size r.1,
               size := o.size + 1 }
    else o
  | .move_assign this other =>
    if this < o.size ∧ other < o.size then
      { o with store := task.move_assign o.store this other }
    else o
  | .release this =>
    if this < o.size then
      match task.release (o.store this) with
      | .ok r =>
        { o with store := Function.update o.store this r.2,
                 released := o.released ++ r.1.toList }
      | .error _ => o
    else o
  | .dtor this =>
    if this < o.size then
      let r := task.dtor o.world (o.store this)
      { o with world := r.1, store := Function.update o.store this r.2 }
    else o

/-- A sequence of operations, applied from left to right. -/
def handle_set.run {T E : Type} (o : handle_set T E) (ops : List handle_op) : handle_set T E :=
  ops.foldl handle_set.apply o

/-- Some task object of the set holds the frame at address `c`. -/
def handle_set.held {T E : Type} (o : handle_set T E) (c : Nat) : Prop :=
  ∃ x, (o.store x).m_coro = some c

/-- The frame at address `c` is held by a task object, or was destroyed, or was handed out by
`release()`. -/
def handle_set.accounted {T E : Type} (o : handle_set T E) (c : Nat) : Prop :=
  o.held c ∨ event.destroyed c ∈ o.world.log ∨ c ∈ o.released

/-- The state of a program that owns frames through task objects only: ownership inside the
heap points forward and no frame has two owners; no two task objects hold the same frame; a
frame held by a task object is not owned by a temporary inside another frame; a frame that was
destroyed or released is neither held nor owned; no frame was destroyed twice; a frame that was
released was not destroyed; and no object lives at an address from `size` on. -/
structure handle_set.wf {T E : Type} (o : handle_set T E) : Prop where
  forward : o.world.forward
  single_owner : ∀ i j d, o.world.owns i d → o.world.owns j d → i = j
  exclusive : ∀ x y c, (o.store x).m_coro = some c → (o.store y).m_coro = some c → x = y
  top_level : ∀ c, o.held c → ∀ i, ¬ o.world.owns i c
  destroyed_gone : ∀ c, event.destroyed c ∈ o.world.log →
    ¬ o.held c ∧ ∀ i, ¬ o.world.owns i c
  once : ∀ c, o.world.log.count (event.destroyed c) ≤ 1
  released_gone : ∀ c, c ∈ o.released →
    ¬ o.held c ∧ (∀ i, ¬ o.world.owns i c) ∧ event.destroyed c ∉ o.world.log
  fresh : ∀ x, o.size ≤ x → (o.store x).m_coro = none

/-- Two task objects over `demo_owning_world`: the one at address 0 holds the driver at frame
0 (whose temporary owns frame 1), the one at address 1 is empty. -/
def demo_handles : handle_set Nat String :=
  { world := demo_owning_world,
    store := fun n => if n = 0 then { m_coro := some 0 } else { m_coro := none },
    size := 2,
    released := [] }

/-! ## Lemmas on the heap -/

section lemmas

variable {T E : Type}

theorem World.lookup_lt {w : World T E} {a : Nat} {f : frame T E}
    (h : w.lookup a = some f) : a < w.frames.length :=
  (List.getElem?_eq_some.mp h).1

theorem World.lookup_of_le {w : World T E} {a : Nat} (h : w.frames.length ≤ a) :
    w.lookup a = none := by
  unfold World.lookup
  exact List.getElem?_eq_none h

theorem World.frame_at_eq_some {w : World T E} {a : Nat} {f : frame T E}
    (h : w.frame_at a = some f) : w.lookup a = some f ∧ f.state.is_destroyed = false := by
  unfold World.frame_at at h
  unfold World.lookup
  cases hf : w.frames[a]? with
  | none => simp [hf] at h
  | some g =>
    rw [hf] at h
    by_cases hd : g.state.is_destroyed <;> simp [hd] at h
    subst h
    simp [hd]

theorem World.frame_at_of_live {w : World T E} {a : Nat} {f : frame T E}
    (h : w.lookup a = some f) (hl : f.state.is_destroyed = false) :
    w.frame_at a = some f := by
  unfold World.lookup at h
  simp [World.frame_at, h, hl]

theorem World.promise_of_live {w : World T E} {a : Nat} {f : frame T E}
    (h : w.lookup a = some f) (hl : f.state.is_destroyed = false) :
    w.promise a = some f.promise := by
  simp [World.promise, World.frame_at_of_live h hl]

theorem World.promise_eq_some {w : World T E} {c : Nat} {p : task_promise T (exception E)}
    (hp : w.promise c = some p) :
    ∃ f, w.lookup c = some f ∧ f.promise = p ∧ f.state.is_destroyed = false := by
  unfold World.promise at hp
  cases hf : w.frame_at c with
  | none => simp [hf] at hp
  | some f =>
    obtain ⟨hget, hl⟩ := World.frame_at_eq_some hf
    refine ⟨f, hget, ?_, hl⟩
    simpa [hf] using hp

theorem World.lookup_set_state (w : World T E) (b : Nat) (s : coro_state T E) (i : Nat) :
    (w.set_state b s).lookup i =
      if i = b then (w.lookup b).map (fun f => { f with state := s }) else w.lookup i := by
  unfold World.set_state World.lookup
  cases hf : w.frames[b]? with
  | none => by_cases h : i = b <;> simp [h, hf]
  | some f =>
    by_cases h : i = b
    · subst h
      have hlt : i < w.frames.length := (List.getElem?_eq_some.mp hf).1
      simp [List.getElem?_set_self hlt]
    · simp [List.getElem?_set, h, Ne.symm h]

theorem World.lookup_set_promise (w : World T E) (b : Nat)
    (p : task_promise T (exception E)) (i : Nat) :
    (w.set_promise b p).lookup i =
      if i = b then (w.lookup b).map (fun f => { f with promise := p }) else w.lookup i := by
  unfold World.set_promise World.lookup
  cases hf : w.frames[b]? with
  | none => by_cases h : i = b <;> simp [h, hf]
  | some f =>
    by_cases h : i = b
    · subst h
      have hlt : i < w.frames.length := (List.getElem?_eq_some.mp hf).1
      simp [List.getElem?_set_self hlt]
    · simp [List.getElem?_set, h, Ne.symm h]

theorem World.length_set_state (w : World T E) (b : Nat) (s : coro_state T E) :
    (w.set_state b s).frames.length = w.frames.length := by
  unfold World.set_state; split <;> simp

theorem World.length_set_promise (w : World T E) (b : Nat)
    (p : task_promise T (exception E)) :
    (w.set_promise b p).frames.length = w.frames.length := by
  unfold World.set_promise; split <;> simp

theorem World.counter_set_state (w : World T E) (b : Nat) (s : coro_state T E) :
    (w.set_state b s).counter = w.counter := by
  unfold World.set_state; split <;> rfl

theorem World.counter_set_promise (w : World T E) (b : Nat)
    (p : task_promise T (exception E)) : (w.set_promise b p).counter = w.counter := by
  unfold World.set_promise; split <;> rfl

theorem World.log_set_state (w : World T E) (b : Nat) (s : coro_state T E) :
    (w.set_state b s).log = w.log := by
  unfold World.set_state; split <;> rfl

theorem World.log_set_promise (w : World T E) (b : Nat)
    (p : task_promise T (exception E)) : (w.set_promise b p).log = w.log := by
  unfold World.set_promise; split <;> rfl

theorem World.lookup_record (w : World T E) (e : event) (i : Nat) :
    (w.record e).lookup i = w.lookup i := rfl

theorem World.length_record (w : World T E) (e : event) :
    (w.record e).frames.length = w.frames.length := rfl

theorem World.counter_record (w : World T E) (e : event) :
    (w.record e).counter = w.counter := rfl

theorem World.log_record (w : World T E) (e : event) :
    (w.record e).log = w.log ++ [e] := rfl

theorem World.lookup_call (w : World T E) (kind : frame_kind) (body : Body T E) (i : Nat) :
    (w.call kind body).1.lookup i =
      if i < w.frames.length then w.lookup i
      else if i = w.frames.length then
        some { kind := kind, promise := task_promise_base.ctor, state := .initial body }
      else none := by
  unfold World.call World.lookup
  simp only [List.getElem?_append]
  by_cases h : i < w.frames.length
  · simp [h]
  · by_cases h2 : i = w.frames.length
    · subst h2; simp
    · have : i - w.frames.length ≠ 0 := by omega
      simp [h, h2]
      omega

theorem World.length_call (w : World T E) (kind : frame_kind) (body : Body T E) :
    (w.call kind body).1.frames.length = w.frames.length + 1 := by
  simp [World.call]

theorem World.call_snd (w : World T E) (kind : frame_kind) (body : Body T E) :
    (w.call kind body).2 = some w.frames.length := rfl

theorem World.counter_call (w : World T E) (kind : frame_kind) (body : Body T E) :
    (w.call kind body).1.counter = w.counter := rfl

theorem World.log_call (w : World T E) (kind : frame_kind) (body : Body T E) :
    (w.call kind body).1.log = w.log := rfl

theorem World.promise_set_promise {w : World T E} {c : Nat} {p : task_promise T (exception E)}
    (hp : w.promise c = some p) (q : task_promise T (exception E)) :
    (w.set_promise c q).promise c = some q := by
  obtain ⟨f, hget, _, hl⟩ := World.promise_eq_some hp
  have h : (w.set_promise c q).lookup c = some { f with promise := q } := by
    rw [World.lookup_set_promise, if_pos rfl, hget]; rfl
  exact World.promise_of_live h hl

theorem World.lookup_set_promise_of_ne (w : World T E) {b c : Nat} (hbc : b ≠ c)
    (q : task_promise T (exception E)) :
    (w.set_promise c q).lookup b = w.lookup b := by
  rw [World.lookup_set_promise, if_neg hbc]

theorem World.destroy_aux_of_not_awaiting (fuel : Nat) (w : World T E) (c : Nat)
    (f : frame T E) (h : w.lookup c = some f)
    (hs : ∀ tmp aw k handler, f.state ≠ .awaiting tmp aw k handler) :
    World.destroy_aux (fuel + 1) w c = (w.set_state c .destroyed).record (.destroyed c) := by
  unfold World.lookup at h
  cases hst : f.state with
  | awaiting tmp aw k handler => exact absurd hst (hs tmp aw k handler)
  | _ => simp only [World.destroy_aux, h, hst]

theorem World.destroy_of_not_awaiting (w : World T E) (c : Nat)
    (f : frame T E) (h : w.lookup c = some f)
    (hs : ∀ tmp aw k handler, f.state ≠ .awaiting tmp aw k handler) :
    w.destroy c = (w.set_state c .destroyed).record (.destroyed c) :=
  World.destroy_aux_of_not_awaiting _ w c f h hs

theorem Machine.run_add [Movable T] (i j : Nat) (m : Machine T E) :
    Machine.run (i + j) m = Machine.run j (Machine.run i m) := by
  induction i generalizing m with
  | zero => simp [Machine.run]
  | succ i ih =>
    have : i + 1 + j = (i + j) + 1 := by omega
    rw [this]
    simp only [Machine.run]
    exact ih _

/-! ## Single machine steps -/

/-- The first half of `co_await callee()`, one machine step. -/
theorem Machine.step_co_await [Movable T] (w : World T E) (a : Nat) (fr : frame T E)
    (callee : Body T E) (k : T → Body T E) (handler : exception E → Body T E)
    (ha : w.lookup a = some fr) :
    Machine.step { world := w, ctl := .running a (.co_await callee k handler) } =
      { world := ((w.call .task callee).1.set_state a
            (.awaiting { m_coro := some w.frames.length } { m_coro := some w.frames.length }
              k handler)).set_promise w.frames.length
            { m_continuation := some a, m_value := .monostate }
        ctl := .resuming (some w.frames.length) } := by
  have hlt : a < w.frames.length := World.lookup_lt ha
  have hne : w.frames.length ≠ a := Nat.ne_of_gt hlt
  have hnew : ((w.call .task callee).1.set_state a
      (.awaiting { m_coro := some w.frames.length } { m_coro := some w.frames.length }
        k handler)).lookup w.frames.length =
      some { kind := .task, promise := task_promise_base.ctor, state := .initial callee } := by
    rw [World.lookup_set_state, if_neg hne, World.lookup_call, if_neg (Nat.lt_irrefl _),
      if_pos rfl]
  have hp := World.promise_of_live hnew rfl
  have hdone : (w.call .task callee).1.done w.frames.length = false := by
    have := World.lookup_call w .task callee w.frames.length
    rw [if_neg (Nat.lt_irrefl _), if_pos rfl] at this
    unfold World.lookup at this
    unfold World.done
    rw [this]
    rfl
  simp only [Machine.step, Machine.exec, World.call_snd, task.ctor, hdone,
    task.operator_co_await, task.awaiter.await_ready, task.awaiter.await_suspend]
  simp only [Bool.false_eq_true, if_false, hp]
  rfl

/-- Resuming a frame suspended at `initial_suspend`, one machine step. -/
theorem Machine.step_enter_initial [Movable T] (w : World T E) (b : Nat) (f : frame T E)
    (body : Body T E) (hb : w.lookup b = some f) (hs : f.state = .initial body) :
    Machine.step { world := w, ctl := .resuming (some b) } =
      { world := (w.set_state b .running).record (.resumed b), ctl := .running b body } := by
  unfold World.lookup at hb
  simp [Machine.step, Machine.enter, hb, hs]

/-- The machine step of `co_return v` in a task frame. -/
theorem Machine.step_co_return [Movable T] (w : World T E) (b : Nat) (f : frame T E) (v : T)
    (hb : w.lookup b = some f) (hk : f.kind = .task)
    (hl : f.state.is_destroyed = false) :
    Machine.step { world := w, ctl := .running b (.co_return v) } =
      match f.promise.m_continuation with
      | some a =>
        { world := (((w.set_promise b (task_promise.return_value f.promise v)).set_state b
            .final).record (.final_transfer b (some a)))
          ctl := .resuming (some a) }
      | none =>
        { world := (w.set_promise b (task_promise.return_value f.promise v)).set_state b .final
          ctl := .aborted .assertion_failed } := by
  have hp := World.promise_of_live hb hl
  have h1 : (w.set_promise b (task_promise.return_value f.promise v)).lookup b =
      some { f with promise := task_promise.return_value f.promise v } := by
    rw [World.lookup_set_promise, if_pos rfl, hb]; rfl
  have h2 : ((w.set_promise b (task_promise.return_value f.promise v)).set_state b
      .final).lookup b =
      some { kind := f.kind, promise := task_promise.return_value f.promise v,
             state := .final } := by
    rw [World.lookup_set_state, if_pos rfl, h1]; rfl
  have hp2 := World.promise_of_live h2 rfl
  unfold World.lookup at h1
  simp only [Machine.step, Machine.exec, hp, Machine.final_suspend, h1, hk,
    final_suspend.awaiter.await_ready, final_suspend.awaiter.await_suspend, hp2]
  cases hc : f.promise.m_continuation <;> simp [task_promise.return_value, hc]

/-- The machine step of an exception escaping the body of a task frame. -/
theorem Machine.step_throw [Movable T] (w : World T E) (b : Nat) (f : frame T E)
    (e : exception E)
    (hb : w.lookup b = some f) (hk : f.kind = .task)
    (hl : f.state.is_destroyed = false) :
    Machine.step { world := w, ctl := .running b (.throw e) } =
      match f.promise.m_continuation with
      | some a =>
        { world := (((w.set_promise b
            (task_promise_base.unhandled_exception f.promise e)).set_state b
            .final).record (.final_transfer b (some a)))
          ctl := .resuming (some a) }
      | none =>
        { world := (w.set_promise b
            (task_promise_base.unhandled_exception f.promise e)).set_state b .final
          ctl := .aborted .assertion_failed } := by
  have hp := World.promise_of_live hb hl
  have h1 : (w.set_promise b (task_promise_base.unhandled_exception f.promise e)).lookup b =
      some { f with promise := task_promise_base.unhandled_exception f.promise e } := by
    rw [World.lookup_set_promise, if_pos rfl, hb]; rfl
  have h2 : ((w.set_promise b (task_promise_base.unhandled_exception f.promise e)).set_state b
      .final).lookup b =
      some { kind := f.kind, promise := task_promise_base.unhandled_exception f.promise e,
             state := .final } := by
    rw [World.lookup_set_state, if_pos rfl, h1]; rfl
  have hp2 := World.promise_of_live h2 rfl
  unfold World.lookup at h1
  simp only [Machine.step, Machine.exec, hp, Machine.final_suspend, h1, hk,
    final_suspend.awaiter.await_ready, final_suspend.awaiter.await_suspend, hp2]
  cases hc : f.promise.m_continuation <;> simp [task_promise_base.unhandled_exception, hc]

/-- Resuming a frame suspended in `co_await` on a live callee, one machine step. -/
theorem Machine.step_enter_awaiting [Movable T] (w : World T E) (a c : Nat)
    (fa fc : frame T E) (tmp : task) (k : T → Body T E) (handler : exception E → Body T E)
    (ha : w.lookup a = some fa)
    (hs : fa.state = .awaiting tmp { m_coro := some c } k handler)
    (hc : w.lookup c = some fc) (hl : fc.state.is_destroyed = false) (hac : a ≠ c) :
    Machine.step { world := w, ctl := .resuming (some a) } =
      { world := (task.dtor
          (((w.set_state a .running).record (.resumed a)).set_promise c
            (task_promise.get fc.promise).2) tmp).1
        ctl := .running a
          (match (task_promise.get fc.promise).1 with
           | .returned v => k v
           | .thrown e => handler e
           | .bad_variant_access => handler .bad_variant_access) } := by
  have h1 : ((w.set_state a .running).record (.resumed a)).lookup c = some fc := by
    rw [World.lookup_record, World.lookup_set_state, if_neg (Ne.symm hac), hc]
  have hp := World.promise_of_live h1 hl
  unfold World.lookup at ha
  simp only [Machine.step, Machine.enter, ha, hs, Machine.finish_await,
    task.awaiter.await_resume, hp]
  cases hr : (task_promise.get fc.promise).1 <;> simp [hr]

/-! ## Awaiting a task that completes at once -/

/-- A caller that awaits a task whose body is `co_return v`: after three steps the callee is
at its final suspend point with `v` stored and control is handed back to the caller; after
four the caller continues with `v`, its own frame is running and no other older frame
changed. -/
theorem Machine.run_await_co_return [Movable T] (w : World T E) (a : Nat) (fr : frame T E)
    (v : T) (k : T → Body T E) (handler : exception E → Body T E)
    (ha : w.lookup a = some fr) :
    (Machine.run 3 { world := w, ctl := .running a (.co_await (.co_return v) k handler) }).ctl
      = .resuming (some a) ∧
    ∃ w', Machine.run 4 { world := w, ctl := .running a (.co_await (.co_return v) k handler) }
        = { world := w', ctl := .running a (k v) } ∧
      w'.lookup a = some { fr with state := .running } ∧
      (∀ i, i ≠ a → i ≠ w.frames.length → w'.lookup i = w.lookup i) ∧
      w'.frames.length = w.frames.length + 1 := by
  have hlt : a < w.frames.length := World.lookup_lt ha
  have e1 : w.frames.length ≠ a := by omega
  have e3 : a ≠ w.frames.length := by omega
  simp only [Machine.run]
  rw [Machine.step_co_await w a fr _ k handler ha]
  rw [Machine.step_enter_initial _ w.frames.length ⟨.task, ⟨some a, .monostate⟩,
    .initial (.co_return v)⟩ (.co_return v)
    (by simp [World.lookup_set_state, World.lookup_set_promise, World.lookup_call, e1,
          task_promise_base.ctor]) rfl]
  rw [Machine.step_co_return _ w.frames.length ⟨.task, ⟨some a, .monostate⟩, .running⟩ v
    (by simp [World.lookup_set_state, World.lookup_set_promise, World.lookup_call,
          World.lookup_record, e1, task_promise_base.ctor]) rfl rfl]
  simp only []
  refine ⟨trivial, ?_⟩
  rw [Machine.step_enter_awaiting _ a w.frames.length
    ⟨fr.kind, fr.promise, .awaiting ⟨some w.frames.length⟩ ⟨some w.frames.length⟩ k handler⟩
    ⟨.task, ⟨some a, .value v⟩, .final⟩ ⟨some w.frames.length⟩ k handler
    (by simp [World.lookup_set_state, World.lookup_set_promise, World.lookup_call,
          World.lookup_record, e1, e3, hlt, ha]) rfl
    (by simp [World.lookup_set_state, World.lookup_set_promise, World.lookup_call,
          World.lookup_record, e1, e3, hlt, ha, task_promise.return_value,
          task_promise_base.ctor]) rfl e3]
  simp only [task.dtor]
  rw [World.destroy_of_not_awaiting _ w.frames.length
    ⟨.task, (task_promise.get (⟨some a, .value v⟩ : task_promise T (exception E))).2, .final⟩
    (by simp [World.lookup_set_state, World.lookup_set_promise, World.lookup_call,
          World.lookup_record, e1, e3, hlt, ha, task_promise.return_value,
          task_promise_base.ctor])
    (by intro _ _ _ _ h; cases h)]
  refine ⟨_, rfl, ?_, ?_, ?_⟩
  · simp [World.lookup_set_state, World.lookup_set_promise, World.lookup_call,
      World.lookup_record, e1, e3, hlt, ha]
  · intro i hia hin
    simp [World.lookup_set_state, World.lookup_set_promise, World.lookup_call,
      World.lookup_record, hia, hin]
    intro h1
    exact (World.lookup_of_le h1).symm
  · simp [World.length_set_state, World.length_set_promise, World.length_call,
      World.length_record]

/-- A caller that awaits a task whose body throws `e`: after three steps control is handed
back to the caller, after four the caller continues in the code that handles `e`. -/
theorem Machine.run_await_throw [Movable T] (w : World T E) (a : Nat) (fr : frame T E)
    (e : exception E) (k : T → Body T E) (handler : exception E → Body T E)
    (ha : w.lookup a = some fr) :
    (Machine.run 3 { world := w, ctl := .running a (.co_await (.throw e) k handler) }).ctl
      = .resuming (some a) ∧
    ∃ w', Machine.run 4 { world := w, ctl := .running a (.co_await (.throw e) k handler) }
        = { world := w', ctl := .running a (handler e) } ∧
      w'.lookup a = some { fr with state := .running } ∧
      (∀ i, i ≠ a → i ≠ w.frames.length → w'.lookup i = w.lookup i) ∧
      w'.frames.length = w.frames.length + 1 := by
  have hlt : a < w.frames.length := World.lookup_lt ha
  have e1 : w.frames.length ≠ a := by omega
  have e3 : a ≠ w.frames.length := by omega
  simp only [Machine.run]
  rw [Machine.step_co_await w a fr _ k handler ha]
  rw [Machine.step_enter_initial _ w.frames.length ⟨.task, ⟨some a, .monostate⟩,
    .initial (.throw e)⟩ (.throw e)
    (by simp [World.lookup_set_state, World.lookup_set_promise, World.lookup_call, e1,
          task_promise_base.ctor]) rfl]
  rw [Machine.step_throw _ w.frames.length ⟨.task, ⟨some a, .monostate⟩, .running⟩ e
    (by simp [World.lookup_set_state, World.lookup_set_promise, World.lookup_call,
          World.lookup_record, e1, task_promise_base.ctor]) rfl rfl]
  simp only []
  refine ⟨trivial, ?_⟩
  rw [Machine.step_enter_awaiting _ a w.frames.length
    ⟨fr.kind, fr.promise, .awaiting ⟨some w.frames.length⟩ ⟨some w.frames.length⟩ k handler⟩
    ⟨.task, ⟨some a, .exception_ptr e⟩, .final⟩ ⟨some w.frames.length⟩ k handler
    (by simp [World.lookup_set_state, World.lookup_set_promise, World.lookup_call,
          World.lookup_record, e1, e3, hlt, ha]) rfl
    (by simp [World.lookup_set_state, World.lookup_set_promise, World.lookup_call,
          World.lookup_record, e1, e3, hlt, ha, task_promise_base.unhandled_exception,
          task_promise_base.ctor]) rfl e3]
  simp only [task.dtor]
  rw [World.destroy_of_not_awaiting _ w.frames.length
    ⟨.task, (task_promise.get (⟨some a, .exception_ptr e⟩ : task_promise T (exception E))).2,
      .final⟩
    (by simp [World.lookup_set_state, World.lookup_set_promise, World.lookup_call,
          World.lookup_record, e1, e3, hlt, ha, task_promise_base.unhandled_exception,
          task_promise_base.ctor])
    (by intro _ _ _ _ h; cases h)]
  refine ⟨_, rfl, ?_, ?_, ?_⟩
  · simp [World.lookup_set_state, World.lookup_set_promise, World.lookup_call,
      World.lookup_record, e1, e3, hlt, ha]
  · intro i hia hin
    simp [World.lookup_set_state, World.lookup_set_promise, World.lookup_call,
      World.lookup_record, hia, hin]
    intro h1
    exact (World.lookup_of_le h1).symm
  · simp [World.length_set_state, World.length_set_promise, World.length_call,
      World.length_record]

/-! ## A frame that was not resumed has not started -/

theorem World.unstarted_set_state {w : World T E} {a : Nat} {body : Body T E}
    (h : w.unstarted a body) {b : Nat} (hb : b ≠ a) (s : coro_state T E) :
    (w.set_state b s).unstarted a body := by
  obtain ⟨f, hf, hs⟩ := h
  exact ⟨f, by rw [World.lookup_set_state, if_neg (Ne.symm hb), hf], hs⟩

theorem World.unstarted_set_promise {w : World T E} {a : Nat} {body : Body T E}
    (h : w.unstarted a body) (b : Nat) (p : task_promise T (exception E)) :
    (w.set_promise b p).unstarted a body := by
  obtain ⟨f, hf, hs⟩ := h
  by_cases hb : a = b
  · subst hb
    exact ⟨{ f with promise := p }, by rw [World.lookup_set_promise, if_pos rfl, hf]; rfl, hs⟩
  · exact ⟨f, by rw [World.lookup_set_promise, if_neg hb, hf], hs⟩

theorem World.unstarted_record {w : World T E} {a : Nat} {body : Body T E}
    (h : w.unstarted a body) (e : event) : (w.record e).unstarted a body := h

theorem World.unstarted_call {w : World T E} {a : Nat} {body : Body T E}
    (h : w.unstarted a body) (kind : frame_kind) (callee : Body T E) :
    (w.call kind callee).1.unstarted a body := by
  obtain ⟨f, hf, hs⟩ := h
  exact ⟨f, by rw [World.lookup_call, if_pos (World.lookup_lt hf), hf], hs⟩

theorem World.unstarted_destroy_aux (fuel : Nat) {w : World T E} {a : Nat} {body : Body T E}
    (h : w.unstarted a body) (c : Nat) : (World.destroy_aux fuel w c).unstarted a body := by
  induction fuel generalizing w c with
  | zero => exact h
  | succ fuel ih =>
    have key : ((w.set_state c .destroyed).record (.destroyed c)).unstarted a body := by
      obtain ⟨f, hf, hs⟩ := h
      by_cases hc : a = c
      · subst hc
        exact ⟨{ f with state := .destroyed },
          by rw [World.lookup_record, World.lookup_set_state, if_pos rfl, hf]; rfl, Or.inr rfl⟩
      · exact ⟨f, by rw [World.lookup_record, World.lookup_set_state, if_neg hc, hf], hs⟩
    unfold World.destroy_aux
    cases hf : w.frames[c]? with
    | none => exact World.unstarted_record h _
    | some f =>
      simp only []
      cases hst : f.state with
      | awaiting tmp aw k handler =>
        simp only []
        cases hm : tmp.m_coro with
        | none => exact key
        | some d => exact ih key d
      | _ => exact key

theorem World.unstarted_dtor {w : World T E} {a : Nat} {body : Body T E}
    (h : w.unstarted a body) (t : task) : (task.dtor w t).1.unstarted a body := by
  unfold task.dtor
  cases t.m_coro with
  | none => exact h
  | some c => exact World.unstarted_destroy_aux _ h c

theorem Machine.unstarted_final_suspend {w : World T E} {a : Nat} {body : Body T E}
    (h : w.unstarted a body) {b : Nat} (hb : b ≠ a) :
    (Machine.final_suspend w b).unstarted a body := by
  unfold Machine.final_suspend
  cases hf : w.frames[b]? with
  | none => exact ⟨h, fun _ hc => by cases hc⟩
  | some f =>
    simp only []
    cases f.kind with
    | driver => exact ⟨World.unstarted_set_state h hb _, fun _ hc => by cases hc⟩
    | task =>
      simp only [final_suspend.awaiter.await_ready, Bool.false_eq_true, if_false]
      cases final_suspend.awaiter.await_suspend (w.set_state b .final) (some b) with
      | error e => exact ⟨World.unstarted_set_state h hb _, fun _ hc => by cases hc⟩
      | ok next =>
        exact ⟨World.unstarted_record (World.unstarted_set_state h hb _) _,
          fun _ hc => by cases hc⟩

theorem Machine.unstarted_finish_await [Movable T] {w : World T E} {a : Nat}
    {body : Body T E} (h : w.unstarted a body) {b : Nat} (hb : b ≠ a) (tmp : task)
    (aw : task.awaiter) (k : T → Body T E) (handler : exception E → Body T E) :
    (Machine.finish_await w b tmp aw k handler).unstarted a body := by
  unfold Machine.finish_await
  cases hr : aw.await_resume w with
  | error e => exact ⟨h, fun _ hc => by cases hc⟩
  | ok r =>
    have h2 : r.2.unstarted a body := by
      unfold task.awaiter.await_resume at hr
      cases hm : aw.m_coro with
      | none => simp [hm] at hr
      | some c =>
        cases hp : w.promise c with
        | none => simp [hm, hp] at hr
        | some p =>
          simp only [hm, hp, Except.ok.injEq] at hr
          rw [← hr]
          exact World.unstarted_set_promise h _ _
    have h3 := World.unstarted_dtor h2 tmp
    simp only []
    cases r.1 with
    | returned v => exact ⟨h3, fun _ hc => hb (by cases hc; rfl)⟩
    | thrown e => exact ⟨h3, fun _ hc => hb (by cases hc; rfl)⟩
    | bad_variant_access => exact ⟨h3, fun _ hc => hb (by cases hc; rfl)⟩

theorem Machine.unstarted_enter [Movable T] {w : World T E} {a : Nat}
    {body : Body T E} (h : w.unstarted a body) {b : Nat} (hb : b ≠ a) :
    (Machine.enter w b).unstarted a body := by
  unfold Machine.enter
  cases hf : w.frames[b]? with
  | none => exact ⟨h, fun _ hc => by cases hc⟩
  | some f =>
    simp only []
    have hw := World.unstarted_record (World.unstarted_set_state h hb .running) (.resumed b)
    cases f.state with
    | initial body' => exact ⟨hw, fun _ hc => hb (by cases hc; rfl)⟩
    | suspended k => exact ⟨hw, fun _ hc => hb (by cases hc; rfl)⟩
    | awaiting tmp aw k handler => exact Machine.unstarted_finish_await hw hb _ _ _ _
    | running => exact ⟨h, fun _ hc => by cases hc⟩
    | final => exact ⟨h, fun _ hc => by cases hc⟩
    | destroyed => exact ⟨h, fun _ hc => by cases hc⟩

theorem Machine.unstarted_exec [Movable T] {w : World T E} {a : Nat}
    {body : Body T E} (h : w.unstarted a body) {b : Nat} (hb : b ≠ a) (code : Body T E) :
    (Machine.exec w b code).unstarted a body := by
  cases code with
  | effect k =>
    exact ⟨h, fun _ hc => hb (by cases hc; rfl)⟩
  | suspend k =>
    exact ⟨World.unstarted_set_state h hb _, fun _ hc => by cases hc⟩
  | co_return v =>
    unfold Machine.exec
    cases w.promise b with
    | none => exact ⟨h, fun _ hc => by cases hc⟩
    | some p => exact Machine.unstarted_final_suspend (World.unstarted_set_promise h _ _) hb
  | throw e =>
    unfold Machine.exec
    cases w.promise b with
    | none => exact ⟨h, fun _ hc => by cases hc⟩
    | some p => exact Machine.unstarted_final_suspend (World.unstarted_set_promise h _ _) hb
  | co_await callee k handler =>
    unfold Machine.exec
    have h1 := World.unstarted_call h .task callee
    simp only []
    cases task.ctor (w.call .task callee).1 (w.call .task callee).2 with
    | error e => exact ⟨h1, fun _ hc => by cases hc⟩
    | ok tmp =>
      simp only []
      cases tmp.operator_co_await with
      | error e => exact ⟨h1, fun _ hc => by cases hc⟩
      | ok aw =>
        simp only [task.awaiter.await_ready, Bool.false_eq_true, if_false]
        cases hr : aw.await_suspend
            ((w.call .task callee).1.set_state b (.awaiting tmp aw k handler)) (some b) with
        | error e => exact ⟨h1, fun _ hc => by cases hc⟩
        | ok r =>
          refine ⟨?_, fun _ hc => by cases hc⟩
          unfold task.awaiter.await_suspend at hr
          cases hm : aw.m_coro with
          | none => simp [hm] at hr
          | some c =>
            cases hp : ((w.call .task callee).1.set_state b
                (.awaiting tmp aw k handler)).promise c with
            | none => simp [hm, hp] at hr
            | some p =>
              simp only [hm, hp, Except.ok.injEq] at hr
              rw [← hr]
              exact World.unstarted_set_promise (World.unstarted_set_state h1 hb _) _ _

theorem Machine.unstarted_step [Movable T] {m : Machine T E} {a : Nat} {body : Body T E}
    (h : m.unstarted a body) (hc : m.ctl ≠ .resuming (some a)) :
    m.step.unstarted a body := by
  obtain ⟨w, ctl⟩ := m
  obtain ⟨hw, hr⟩ := h
  cases ctl with
  | idle => exact ⟨hw, hr⟩
  | aborted f => exact ⟨hw, hr⟩
  | resuming h' =>
    cases h' with
    | none => exact ⟨hw, fun _ hc => by cases hc⟩
    | some b =>
      have hb : b ≠ a := fun e => hc (by rw [e])
      exact Machine.unstarted_enter hw hb
  | running b code =>
    have hb : b ≠ a := fun e => hr code (by rw [e])
    exact Machine.unstarted_exec hw hb code

theorem Machine.unstarted_run [Movable T] (n : Nat) {m : Machine T E} {a : Nat}
    {body : Body T E} (h : m.unstarted a body)
    (hc : ∀ i, i < n → (Machine.run i m).ctl ≠ .resuming (some a)) :
    (Machine.run n m).unstarted a body := by
  induction n generalizing m with
  | zero => exact h
  | succ n ih =>
    have h0 : m.ctl ≠ .resuming (some a) := hc 0 (Nat.succ_pos n)
    exact ih (Machine.unstarted_step h h0) (fun i hi => hc (i + 1) (Nat.succ_lt_succ hi))

end lemmas

/-! ## A released task runs in lockstep with an awaited one -/

section simulation

variable {T E : Type} {n a : Nat} {k : T → Body T E} {handler : exception E → Body T E}

theorem World.lookup_eq_none_iff {w : World T E} {i : Nat} :
    w.lookup i = none ↔ w.frames.length ≤ i := by
  unfold World.lookup
  exact List.getElem?_eq_none_iff

theorem World.lookup_set_state_self (w : World T E) (b : Nat) (s : coro_state T E) :
    (w.set_state b s).lookup b = (w.lookup b).map (fun f => { f with state := s }) := by
  rw [World.lookup_set_state, if_pos rfl]

theorem World.lookup_set_state_of_ne (w : World T E) {i b : Nat} (h : i ≠ b)
    (s : coro_state T E) : (w.set_state b s).lookup i = w.lookup i := by
  rw [World.lookup_set_state, if_neg h]

theorem World.lookup_set_promise_self (w : World T E) (b : Nat)
    (p : task_promise T (exception E)) :
    (w.set_promise b p).lookup b = (w.lookup b).map (fun f => { f with promise := p }) := by
  rw [World.lookup_set_promise, if_pos rfl]

theorem World.sim.lookup_none {wR wA : World T E} (h : World.sim n a k handler wR wA)
    {i : Nat} (hi : wR.lookup i = none) : wA.lookup i = none := by
  rw [World.lookup_eq_none_iff] at hi ⊢
  rw [← h.length]
  exact hi

theorem coro_state.closed_of_not_awaiting {s : coro_state T E}
    (hs : ∀ tmp aw k h, s ≠ .awaiting tmp aw k h) : s.closed n :=
  fun tmp aw k h e => absurd e (hs tmp aw k h)

theorem World.sim.set_state {wR wA : World T E} (h : World.sim n a k handler wR wA)
    {b : Nat} (hb : n ≤ b) (s : coro_state T E) (hs : s.closed n) :
    World.sim n a k handler (wR.set_state b s) (wA.set_state b s) := by
  have hab : a ≠ b := by have := h.lt; omega
  refine ⟨h.lt, ?_, ?_, ?_, ?_, ?_, ?_, ?_⟩
  · rw [World.length_set_state, World.length_set_state]; exact h.length
  · rw [World.counter_set_state, World.counter_set_state]; exact h.counter
  · rw [World.log_set_state, World.log_set_state]; exact h.log
  · intro i hi fR hf
    by_cases hib : i = b
    · subst hib
      rw [World.lookup_set_state_self] at hf ⊢
      cases hR : wR.lookup i with
      | none => rw [hR] at hf; cases hf
      | some gR =>
        obtain ⟨gA, hA, hk, _, hp⟩ := h.frames i hi gR hR
        rw [hR] at hf
        simp only [Option.map_some', Option.some.injEq] at hf
        subst hf
        exact ⟨{ gA with state := s }, by rw [hA]; rfl, hk, rfl, hp⟩
    · rw [World.lookup_set_state_of_ne _ hib] at hf ⊢
      exact h.frames i hi fR hf
  · intro i hi fR hf
    by_cases hib : i = b
    · subst hib
      rw [World.lookup_set_state_self] at hf
      cases hR : wR.lookup i with
      | none => rw [hR] at hf; cases hf
      | some gR =>
        rw [hR] at hf
        simp only [Option.map_some', Option.some.injEq] at hf
        subst hf
        exact ⟨hs, (h.closed i hi gR hR).2⟩
    · rw [World.lookup_set_state_of_ne _ hib] at hf
      exact h.closed i hi fR hf
  · rw [World.length_set_state]; exact h.root
  · obtain ⟨fa, hfa, hst⟩ := h.caller
    exact ⟨fa, by rw [World.lookup_set_state_of_ne _ hab]; exact hfa, hst⟩

theorem World.sim.set_promise {wR wA : World T E} (h : World.sim n a k handler wR wA)
    {b : Nat} (hb : n ≤ b) (pR pA : task_promise T (exception E))
    (hp : promise_sim n a b pR pA)
    (hc : b ≠ n → ∀ c, pR.m_continuation = some c → n ≤ c) :
    World.sim n a k handler (wR.set_promise b pR) (wA.set_promise b pA) := by
  have hab : a ≠ b := by have := h.lt; omega
  refine ⟨h.lt, ?_, ?_, ?_, ?_, ?_, ?_, ?_⟩
  · rw [World.length_set_promise, World.length_set_promise]; exact h.length
  · rw [World.counter_set_promise, World.counter_set_promise]; exact h.counter
  · rw [World.log_set_promise, World.log_set_promise]; exact h.log
  · intro i hi fR hf
    by_cases hib : i = b
    · subst hib
      rw [World.lookup_set_promise_self] at hf ⊢
      cases hR : wR.lookup i with
      | none => rw [hR] at hf; cases hf
      | some gR =>
        obtain ⟨gA, hA, hk, hst, _⟩ := h.frames i hi gR hR
        rw [hR] at hf
        simp only [Option.map_some', Option.some.injEq] at hf
        subst hf
        exact ⟨{ gA with promise := pA }, by rw [hA]; rfl, hk, hst, hp⟩
    · rw [World.lookup_set_promise_of_ne _ hib] at hf ⊢
      exact h.frames i hi fR hf
  · intro i hi fR hf
    by_cases hib : i = b
    · subst hib
      rw [World.lookup_set_promise_self] at hf
      cases hR : wR.lookup i with
      | none => rw [hR] at hf; cases hf
      | some gR =>
        rw [hR] at hf
        simp only [Option.map_some', Option.some.injEq] at hf
        subst hf
        exact ⟨(h.closed i hi gR hR).1, hc⟩
    · rw [World.lookup_set_promise_of_ne _ hib] at hf
      exact h.closed i hi fR hf
  · rw [World.length_set_promise]; exact h.root
  · obtain ⟨fa, hfa, hst⟩ := h.caller
    exact ⟨fa, by rw [World.lookup_set_promise_of_ne _ hab]; exact hfa, hst⟩

theorem World.sim.record {wR wA : World T E} (h : World.sim n a k handler wR wA)
    (e : event) : World.sim n a k handler (wR.record e) (wA.record e) :=
  ⟨h.lt, h.length, h.counter, by rw [World.log_record, World.log_record, h.log],
    h.frames, h.closed, h.root, h.caller⟩

theorem World.sim.bump {wR wA : World T E} (h : World.sim n a k handler wR wA) :
    World.sim n a k handler { wR with counter := wR.counter + 1 }
      { wA with counter := wA.counter + 1 } :=
  ⟨h.lt, h.length, by show wR.counter + 1 = wA.counter + 1; rw [h.counter], h.log,
    h.frames, h.closed, h.root, h.caller⟩

theorem World.sim.call {wR wA : World T E} (h : World.sim n a k handler wR wA)
    (kind : frame_kind) (body : Body T E) :
    World.sim n a k handler (wR.call kind body).1 (wA.call kind body).1 := by
  have hlen := h.length
  refine ⟨h.lt, ?_, h.counter, h.log, ?_, ?_, ?_, ?_⟩
  · rw [World.length_call, World.length_call, hlen]
  · intro i hi fR hf
    rw [World.lookup_call] at hf
    rw [World.lookup_call, ← hlen]
    by_cases h1 : i < wR.frames.length
    · simp only [if_pos h1] at hf ⊢
      exact h.frames i hi fR hf
    · simp only [if_neg h1] at hf ⊢
      by_cases h2 : i = wR.frames.length
      · simp only [if_pos h2, Option.some.injEq] at hf ⊢
        subst hf
        have hne : i ≠ n := by have := h.root; omega
        exact ⟨_, rfl, rfl, rfl, rfl, fun _ => rfl, fun e => absurd e hne⟩
      · simp only [if_neg h2] at hf
        cases hf
  · intro i hi fR hf
    rw [World.lookup_call] at hf
    by_cases h1 : i < wR.frames.length
    · simp only [if_pos h1] at hf
      exact h.closed i hi fR hf
    · simp only [if_neg h1] at hf
      by_cases h2 : i = wR.frames.length
      · simp only [if_pos h2, Option.some.injEq] at hf
        subst hf
        refine And.intro (fun _ _ _ _ e => ?_) (fun _ c e => ?_)
        · cases e
        · cases e
      · simp only [if_neg h2] at hf
        cases hf
  · rw [World.length_call]; have := h.root; omega
  · obtain ⟨fa, hfa, hst⟩ := h.caller
    have hlt := World.lookup_lt hfa
    exact ⟨fa, by rw [World.lookup_call, if_pos hlt]; exact hfa, hst⟩

theorem World.sim.destroy_aux (fuel : Nat) {wR wA : World T E}
    (h : World.sim n a k handler wR wA) {c : Nat} (hc : n ≤ c) :
    World.sim n a k handler (World.destroy_aux fuel wR c) (World.destroy_aux fuel wA c) := by
  induction fuel generalizing wR wA c with
  | zero => exact h
  | succ fuel ih =>
    unfold World.destroy_aux
    cases hR : wR.lookup c with
    | none =>
      have hA := h.lookup_none hR
      unfold World.lookup at hR hA
      rw [hR, hA]
      exact h.record _
    | some fR =>
      obtain ⟨fA, hA, _, hst, _⟩ := h.frames c hc fR hR
      have hcl := (h.closed c hc fR hR).1
      have h1 := (h.set_state hc .destroyed
        (coro_state.closed_of_not_awaiting (fun _ _ _ _ e => by cases e))).record
        (.destroyed c)
      unfold World.lookup at hR hA
      rw [hR, hA]
      simp only []
      rw [← hst]
      cases hs : fR.state with
      | awaiting tmp aw k' h' =>
        simp only []
        cases hm : tmp.m_coro with
        | none => exact h1
        | some d => exact ih h1 ((hcl tmp aw k' h' hs).1 d hm)
      | _ => exact h1

theorem World.sim.dtor {wR wA : World T E} (h : World.sim n a k handler wR wA)
    (t : task) (ht : ∀ c, t.m_coro = some c → n ≤ c) :
    World.sim n a k handler (task.dtor wR t).1 (task.dtor wA t).1 := by
  unfold task.dtor
  cases hm : t.m_coro with
  | none => exact h
  | some c =>
    simp only [World.destroy]
    rw [← h.length]
    exact h.destroy_aux _ (ht c hm)

theorem World.promise_eq (w : World T E) (b : Nat) :
    w.promise b =
      (w.lookup b).bind (fun f => if f.state.is_destroyed then none else some f.promise) := by
  unfold World.promise World.frame_at World.lookup
  cases w.frames[b]? with
  | none => rfl
  | some f => by_cases hd : f.state.is_destroyed <;> simp [hd]

theorem World.sim.promise_none {wR wA : World T E} (h : World.sim n a k handler wR wA)
    {b : Nat} (hb : n ≤ b) (hp : wR.promise b = none) : wA.promise b = none := by
  rw [World.promise_eq] at hp ⊢
  cases hR : wR.lookup b with
  | none => rw [h.lookup_none hR]; rfl
  | some fR =>
    obtain ⟨fA, hA, _, hst, _⟩ := h.frames b hb fR hR
    rw [hR] at hp
    rw [hA]
    simp only [Option.some_bind] at hp ⊢
    rw [← hst]
    by_cases hd : fR.state.is_destroyed <;> simp [hd] at hp ⊢

theorem World.sim.promise_some {wR wA : World T E} (h : World.sim n a k handler wR wA)
    {b : Nat} (hb : n ≤ b) {pR : task_promise T (exception E)}
    (hp : wR.promise b = some pR) :
    ∃ pA, wA.promise b = some pA ∧ promise_sim n a b pR pA ∧
      (b ≠ n → ∀ c, pR.m_continuation = some c → n ≤ c) := by
  obtain ⟨fR, hR, hpe, hl⟩ := World.promise_eq_some hp
  obtain ⟨fA, hA, _, hst, hps⟩ := h.frames b hb fR hR
  refine ⟨fA.promise, World.promise_of_live hA (by rw [← hst]; exact hl), ?_, ?_⟩
  · rw [← hpe]; exact hps
  · rw [← hpe]; exact (h.closed b hb fR hR).2

theorem promise_sim.get [Movable T] {i : Nat} {pR pA : task_promise T (exception E)}
    (h : promise_sim n a i pR pA) :
    (task_promise.get pR).1 = (task_promise.get pA).1 ∧
    promise_sim n a i (task_promise.get pR).2 (task_promise.get pA).2 ∧
    (task_promise.get pR).2.m_continuation = pR.m_continuation := by
  obtain ⟨hv, hc1, hc2⟩ := h
  obtain ⟨cR, vR⟩ := pR
  obtain ⟨cA, vA⟩ := pA
  simp only at hv hc1 hc2
  subst hv
  cases vR <;>
    simp [task_promise.get, task_promise_base.rethrow_if_exception,
      variant.holds_exception_ptr, promise_sim] <;>
    exact ⟨hc1, hc2⟩

theorem promise_sim.return_value {i : Nat} {pR pA : task_promise T (exception E)}
    (h : promise_sim n a i pR pA) (v : T) :
    promise_sim n a i (task_promise.return_value pR v) (task_promise.return_value pA v) :=
  ⟨rfl, h.2.1, h.2.2⟩

theorem promise_sim.unhandled_exception {i : Nat} {pR pA : task_promise T (exception E)}
    (h : promise_sim n a i pR pA) (e : exception E) :
    promise_sim n a i (task_promise_base.unhandled_exception pR e)
      (task_promise_base.unhandled_exception pA e) :=
  ⟨rfl, h.2.1, h.2.2⟩

/-- The first half of `co_await callee()` as one equation, whatever the running frame is. -/
theorem Machine.exec_co_await [Movable T] (w : World T E) (b : Nat)
    (callee : Body T E) (k' : T → Body T E) (h' : exception E → Body T E) :
    Machine.exec w b (.co_await callee k' h') =
      { world := ((w.call .task callee).1.set_state b
            (.awaiting { m_coro := some w.frames.length } { m_coro := some w.frames.length }
              k' h')).set_promise w.frames.length
            { m_continuation := some b, m_value := .monostate }
        ctl := .resuming (some w.frames.length) } := by
  have hcall : (w.call .task callee).1.lookup w.frames.length =
      some { kind := .task, promise := task_promise_base.ctor, state := .initial callee } := by
    rw [World.lookup_call, if_neg (Nat.lt_irrefl _), if_pos rfl]
  have hp : ((w.call .task callee).1.set_state b
      (.awaiting { m_coro := some w.frames.length } { m_coro := some w.frames.length }
        k' h')).promise w.frames.length = some task_promise_base.ctor := by
    by_cases hb : w.frames.length = b
    · have : ((w.call .task callee).1.set_state b
          (.awaiting { m_coro := some w.frames.length } { m_coro := some w.frames.length }
            k' h')).lookup w.frames.length =
          some { kind := .task, promise := task_promise_base.ctor,
                 state := .awaiting { m_coro := some w.frames.length }
                   { m_coro := some w.frames.length } k' h' } := by
        rw [World.lookup_set_state, if_pos hb, ← hb, hcall]; rfl
      exact World.promise_of_live this rfl
    · have : ((w.call .task callee).1.set_state b
          (.awaiting { m_coro := some w.frames.length } { m_coro := some w.frames.length }
            k' h')).lookup w.frames.length =
          some { kind := .task, promise := task_promise_base.ctor,
                 state := .initial callee } := by
        rw [World.lookup_set_state, if_neg hb, hcall]
      exact World.promise_of_live this rfl
  have hdone : (w.call .task callee).1.done w.frames.length = false := by
    unfold World.lookup at hcall
    unfold World.done
    rw [hcall]
    rfl
  simp only [Machine.exec, World.call_snd, task.ctor, hdone,
    task.operator_co_await, task.awaiter.await_ready, task.awaiter.await_suspend]
  simp only [Bool.false_eq_true, if_false, hp]
  rfl

theorem Machine.final_suspend_of_none {w : World T E} {b : Nat} (h : w.lookup b = none) :
    Machine.final_suspend w b = { world := w, ctl := .aborted .dangling } := by
  unfold World.lookup at h
  simp [Machine.final_suspend, h]

theorem Machine.final_suspend_of_driver {w : World T E} {b : Nat} {f : frame T E}
    (h : w.lookup b = some f) (hk : f.kind = .driver) :
    Machine.final_suspend w b = { world := w.set_state b .final, ctl := .idle } := by
  unfold World.lookup at h
  simp [Machine.final_suspend, h, hk]

theorem Machine.final_suspend_of_task {w : World T E} {b : Nat} {f : frame T E}
    (h : w.lookup b = some f) (hk : f.kind = .task) :
    Machine.final_suspend w b =
      match f.promise.m_continuation with
      | some c =>
        { world := (w.set_state b .final).record (.final_transfer b (some c))
          ctl := .resuming (some c) }
      | none => { world := w.set_state b .final, ctl := .aborted .assertion_failed } := by
  have h2 : (w.set_state b .final).lookup b =
      some { kind := f.kind, promise := f.promise, state := .final } := by
    rw [World.lookup_set_state_self, h]; rfl
  have hp2 := World.promise_of_live h2 rfl
  unfold World.lookup at h
  simp only [Machine.final_suspend, h, hk, final_suspend.awaiter.await_ready,
    final_suspend.awaiter.await_suspend, hp2]
  cases hc : f.promise.m_continuation <;> simp [hc]

theorem Machine.sim_final_suspend {wR wA : World T E} (h : World.sim n a k handler wR wA)
    {b : Nat} (hb : n ≤ b) :
    Machine.sim n a k handler (Machine.final_suspend wR b) (Machine.final_suspend wA b) ∨
    (b = n ∧
      Machine.final_suspend wR b =
        { world := wR.set_state n .final, ctl := .aborted .assertion_failed } ∧
      Machine.final_suspend wA b =
        { world := (wA.set_state n .final).record (.final_transfer n (some a))
          ctl := .resuming (some a) }) := by
  have hfin : (coro_state.final : coro_state T E).closed n :=
    coro_state.closed_of_not_awaiting (fun _ _ _ _ e => by cases e)
  cases hR : wR.lookup b with
  | none =>
    rw [Machine.final_suspend_of_none hR, Machine.final_suspend_of_none (h.lookup_none hR)]
    exact Or.inl ⟨rfl, trivial, h⟩
  | some fR =>
    obtain ⟨fA, hA, hk, _, hps⟩ := h.frames b hb fR hR
    cases hkR : fR.kind with
    | driver =>
      rw [Machine.final_suspend_of_driver hR hkR,
        Machine.final_suspend_of_driver hA (by rw [← hk]; exact hkR)]
      exact Or.inl ⟨rfl, trivial, h.set_state hb _ hfin⟩
    | task =>
      rw [Machine.final_suspend_of_task hR hkR,
        Machine.final_suspend_of_task hA (by rw [← hk]; exact hkR)]
      by_cases hbn : b = n
      · subst hbn
        obtain ⟨hcR, hcA⟩ := hps.2.2 rfl
        rw [hcR, hcA]
        exact Or.inr ⟨rfl, rfl, rfl⟩
      · have hc := hps.2.1 hbn
        rw [← hc]
        cases hcR : fR.promise.m_continuation with
        | none => exact Or.inl ⟨rfl, trivial, h.set_state hb _ hfin⟩
        | some c =>
          exact Or.inl ⟨rfl, (h.closed b hb fR hR).2 hbn c hcR,
            (h.set_state hb _ hfin).record _⟩

theorem Machine.sim_finish_await [Movable T] {wR wA : World T E}
    (h : World.sim n a k handler wR wA) {b : Nat} (hb : n ≤ b) (tmp : task)
    (aw : task.awaiter) (k' : T → Body T E) (h' : exception E → Body T E)
    (htmp : ∀ c, tmp.m_coro = some c → n ≤ c) (haw : ∀ c, aw.m_coro = some c → n ≤ c) :
    Machine.sim n a k handler (Machine.finish_await wR b tmp aw k' h')
      (Machine.finish_await wA b tmp aw k' h') := by
  unfold Machine.finish_await task.awaiter.await_resume
  cases hm : aw.m_coro with
  | none => exact ⟨rfl, trivial, h⟩
  | some c =>
    have hc := haw c hm
    simp only []
    cases hpR : wR.promise c with
    | none =>
      rw [h.promise_none hc hpR]
      exact ⟨rfl, trivial, h⟩
    | some pR =>
      obtain ⟨pA, hpA, hps, hcl⟩ := h.promise_some hc hpR
      rw [hpA]
      obtain ⟨h1, h2, h3⟩ := hps.get
      have hw := (h.set_promise hc _ _ h2 (by rw [h3]; exact hcl)).dtor tmp htmp
      simp only []
      rw [← h1]
      cases (task_promise.get pR).1 with
      | returned v => exact ⟨rfl, hb, hw⟩
      | thrown e => exact ⟨rfl, hb, hw⟩
      | bad_variant_access => exact ⟨rfl, hb, hw⟩

theorem Machine.sim_enter [Movable T] {wR wA : World T E}
    (h : World.sim n a k handler wR wA) {b : Nat} (hb : n ≤ b) :
    Machine.sim n a k handler (Machine.enter wR b) (Machine.enter wA b) := by
  have hrun : (coro_state.running : coro_state T E).closed n :=
    coro_state.closed_of_not_awaiting (fun _ _ _ _ e => by cases e)
  unfold Machine.enter
  cases hR : wR.lookup b with
  | none =>
    have hA := h.lookup_none hR
    unfold World.lookup at hR hA
    rw [hR, hA]
    exact ⟨rfl, trivial, h⟩
  | some fR =>
    obtain ⟨fA, hA, _, hst, _⟩ := h.frames b hb fR hR
    have hcl := (h.closed b hb fR hR).1
    have hw := (h.set_state hb .running hrun).record (.resumed b)
    unfold World.lookup at hR hA
    rw [hR, hA]
    simp only []
    rw [← hst]
    cases hs : fR.state with
    | initial body => exact ⟨rfl, hb, hw⟩
    | suspended k' => exact ⟨rfl, hb, hw⟩
    | awaiting tmp aw k' h' =>
      exact Machine.sim_finish_await hw hb tmp aw k' h' (hcl tmp aw k' h' hs).1
        (hcl tmp aw k' h' hs).2
    | running => exact ⟨rfl, trivial, h⟩
    | final => exact ⟨rfl, trivial, h⟩
    | destroyed => exact ⟨rfl, trivial, h⟩

theorem World.lookup_of_lt {w : World T E} {i : Nat} (h : i < w.frames.length) :
    ∃ f, w.lookup i = some f := by
  unfold World.lookup
  exact ⟨w.frames[i], List.getElem?_eq_getElem h⟩

theorem World.result_of_lookup {w : World T E} {i : Nat} {f : frame T E}
    (h : w.lookup i = some f) : w.result i = some f.promise.m_value := by
  unfold World.lookup at h
  simp [World.result, h]

theorem Machine.diverged_of_completion [Movable T] {wR wA : World T E}
    (h : World.sim n a k handler wR wA) (pR pA : task_promise T (exception E))
    (hv : pR.m_value = pA.m_value) (hne : pA.m_value ≠ .monostate) :
    Machine.diverged n a k handler
      { world := (wR.set_promise n pR).set_state n .final, ctl := .aborted .assertion_failed }
      { world := ((wA.set_promise n pA).set_state n .final).record
          (.final_transfer n (some a))
        ctl := .resuming (some a) } := by
  obtain ⟨fR, hR⟩ := World.lookup_of_lt h.root
  obtain ⟨fA, hA⟩ := World.lookup_of_lt (by rw [← h.length]; exact h.root : n < wA.frames.length)
  obtain ⟨fa, hfa, hst⟩ := h.caller
  have han : a ≠ n := Nat.ne_of_lt h.lt
  have hRn : ((wR.set_promise n pR).set_state n .final).lookup n =
      some { kind := fR.kind, promise := pR, state := .final } := by
    rw [World.lookup_set_state_self, World.lookup_set_promise_self, hR]; rfl
  have hAn : (((wA.set_promise n pA).set_state n .final).record
      (.final_transfer n (some a))).lookup n =
      some { kind := fA.kind, promise := pA, state := .final } := by
    rw [World.lookup_record, World.lookup_set_state_self, World.lookup_set_promise_self, hA]
    rfl
  have hAa : (((wA.set_promise n pA).set_state n .final).record
      (.final_transfer n (some a))).lookup a = some fa := by
    rw [World.lookup_record, World.lookup_set_state_of_ne _ han,
      World.lookup_set_promise_of_ne _ han, hfa]
  have hstep := Machine.step_enter_awaiting _ a n fa _ _ k handler hAa hst hAn rfl han
  refine ⟨rfl, rfl, ?_, ?_, ?_⟩
  · show ((wR.set_promise n pR).set_state n .final).counter =
      (((wA.set_promise n pA).set_state n .final).record _).counter
    rw [World.counter_record, World.counter_set_state, World.counter_set_state,
      World.counter_set_promise, World.counter_set_promise, h.counter]
  · show (((wA.set_promise n pA).set_state n .final).record _).log =
      ((wR.set_promise n pR).set_state n .final).log ++ _
    rw [World.log_record, World.log_set_state, World.log_set_state,
      World.log_set_promise, World.log_set_promise, h.log]
  · rw [hstep]
    simp only [World.result_of_lookup hRn, hv]
    obtain ⟨cA, vA⟩ := pA
    cases vA with
    | monostate => exact absurd rfl hne
    | value v => exact Or.inl ⟨v, rfl, rfl⟩
    | exception_ptr e => exact Or.inr ⟨e, rfl, rfl⟩

theorem Machine.sim_exec [Movable T] {wR wA : World T E}
    (h : World.sim n a k handler wR wA) {b : Nat} (hb : n ≤ b) (code : Body T E) :
    Machine.sim n a k handler (Machine.exec wR b code) (Machine.exec wA b code) ∨
    Machine.diverged n a k handler (Machine.exec wR b code) (Machine.exec wA b code) := by
  cases code with
  | effect k' =>
    exact Or.inl ⟨rfl, hb, h.bump.record _⟩
  | suspend k' =>
    exact Or.inl ⟨rfl, trivial,
      h.set_state hb _ (coro_state.closed_of_not_awaiting (fun _ _ _ _ e => by cases e))⟩
  | co_return v =>
    unfold Machine.exec
    cases hpR : wR.promise b with
    | none =>
      rw [h.promise_none hb hpR]
      exact Or.inl ⟨rfl, trivial, h⟩
    | some pR =>
      obtain ⟨pA, hpA, hps, hcl⟩ := h.promise_some hb hpR
      rw [hpA]
      simp only []
      have hw := h.set_promise hb _ _ (hps.return_value v) hcl
      rcases Machine.sim_final_suspend hw hb with hs | ⟨hbn, hRe, hAe⟩
      · exact Or.inl hs
      · subst hbn
        rw [hRe, hAe]
        have hd := Machine.diverged_of_completion h (task_promise.return_value pR v)
          (task_promise.return_value pA v) rfl (fun e => by cases e)
        exact Or.inr hd
  | throw e =>
    unfold Machine.exec
    cases hpR : wR.promise b with
    | none =>
      rw [h.promise_none hb hpR]
      exact Or.inl ⟨rfl, trivial, h⟩
    | some pR =>
      obtain ⟨pA, hpA, hps, hcl⟩ := h.promise_some hb hpR
      rw [hpA]
      simp only []
      have hw := h.set_promise hb _ _ (hps.unhandled_exception e) hcl
      rcases Machine.sim_final_suspend hw hb with hs | ⟨hbn, hRe, hAe⟩
      · exact Or.inl hs
      · subst hbn
        rw [hRe, hAe]
        exact Or.inr (Machine.diverged_of_completion h
          (task_promise_base.unhandled_exception pR e)
          (task_promise_base.unhandled_exception pA e) rfl (fun e => by cases e))
  | co_await callee k' h' =>
    rw [Machine.exec_co_await, Machine.exec_co_await, ← h.length]
    have hlen : n ≤ wR.frames.length := Nat.le_of_lt h.root
    have hw := ((h.call .task callee).set_state hb
      (.awaiting { m_coro := some wR.frames.length } { m_coro := some wR.frames.length } k' h')
      (by
        intro tmp aw k'' h'' e
        cases e
        exact ⟨fun c hc => by cases hc; exact hlen, fun c hc => by cases hc; exact hlen⟩)).set_promise
      hlen { m_continuation := some b, m_value := .monostate }
      { m_continuation := some b, m_value := .monostate }
      ⟨rfl, fun _ => rfl, fun e => absurd e (Nat.ne_of_gt h.root)⟩
      (fun _ c hc => by cases hc; exact hb)
    exact Or.inl ⟨rfl, hlen, hw⟩

theorem Machine.sim_step [Movable T] {mR mA : Machine T E}
    (h : Machine.sim n a k handler mR mA) :
    Machine.sim n a k handler mR.step mA.step ∨
    Machine.diverged n a k handler mR.step mA.step := by
  obtain ⟨wR, cR⟩ := mR
  obtain ⟨wA, cA⟩ := mA
  obtain ⟨hc, hab, hw⟩ := h
  simp only at hc hab hw
  subst hc
  cases cR with
  | idle => exact Or.inl ⟨rfl, trivial, hw⟩
  | aborted f => exact Or.inl ⟨rfl, trivial, hw⟩
  | resuming h' =>
    cases h' with
    | none => exact Or.inl ⟨rfl, trivial, hw⟩
    | some b => exact Or.inl (Machine.sim_enter hw hab)
  | running b code => exact Machine.sim_exec hw hab code

theorem Machine.step_of_aborted [Movable T] {m : Machine T E} {f : asyncpp.fault}
    (h : m.ctl = .aborted f) : m.step = m := by
  obtain ⟨w, c⟩ := m
  simp only at h
  subst h
  rfl

theorem Machine.run_succ [Movable T] (i : Nat) (m : Machine T E) :
    Machine.run (i + 1) m = (Machine.run i m).step := by
  rw [Machine.run_add]
  rfl

theorem Machine.play_append [Movable T] (m : Machine T E) (l : List action) (x : action) :
    Machine.play m (l ++ [x]) = (Machine.play m l).act x := by
  simp [Machine.play, List.foldl_append]

theorem Machine.sim_act [Movable T] {mR mA : Machine T E}
    (h : Machine.sim n a k handler mR mA) (x : action)
    (hx : ∀ b, x = .resume b → n ≤ b) :
    Machine.sim n a k handler (mR.act x) (mA.act x) ∨
    Machine.diverged n a k handler (mR.act x) (mA.act x) := by
  cases x with
  | tick => exact Machine.sim_step h
  | resume b =>
    obtain ⟨wR, cR⟩ := mR
    obtain ⟨wA, cA⟩ := mA
    obtain ⟨hc, hab, hw⟩ := h
    simp only at hc hab hw
    subst hc
    cases cR with
    | idle => exact Or.inl ⟨rfl, hx b rfl, hw⟩
    | aborted f => exact Or.inl ⟨rfl, trivial, hw⟩
    | resuming h' => exact Or.inl ⟨rfl, hab, hw⟩
    | running c code => exact Or.inl ⟨rfl, hab, hw⟩

theorem Machine.act_of_aborted [Movable T] {m : Machine T E} {f : asyncpp.fault}
    (h : m.ctl = .aborted f) (x : action) : m.act x = m := by
  obtain ⟨w, c⟩ := m
  simp only at h
  subst h
  cases x <;> rfl

/-- From a lockstep start and under the same actions, the two runs stay in lockstep, or the
released run has stopped at the failed assertion at the moment the awaited run handed
control back. -/
theorem Machine.sim_play [Movable T] {mR mA : Machine T E}
    (h : Machine.sim n a k handler mR mA) (acts : List action)
    (hacts : ∀ b, action.resume b ∈ acts → n ≤ b) :
    Machine.sim n a k handler (Machine.play mR acts) (Machine.play mA acts) ∨
    ∃ j, j ≤ acts.length ∧
      Machine.diverged n a k handler (Machine.play mR acts) (Machine.play mA (acts.take j)) := by
  induction acts using List.reverseRecOn with
  | nil => exact Or.inl h
  | append_singleton l x ih =>
    have hl : ∀ b, action.resume b ∈ l → n ≤ b :=
      fun b hb => hacts b (List.mem_append_left _ hb)
    have hx : ∀ b, x = .resume b → n ≤ b :=
      fun b hb => hacts b (by rw [hb]; exact List.mem_append_right _ (List.mem_singleton_self _))
    rw [Machine.play_append mR]
    rcases ih hl with hs | ⟨j, hj, hd⟩
    · rcases Machine.sim_act hs x hx with hs' | hd'
      · rw [Machine.play_append mA]
        exact Or.inl hs'
      · refine Or.inr ⟨(l ++ [x]).length, Nat.le_refl _, ?_⟩
        rw [List.take_length, Machine.play_append mA]
        exact hd'
    · rw [Machine.act_of_aborted hd.1]
      refine Or.inr ⟨j, ?_, ?_⟩
      · rw [List.length_append]; exact Nat.le_add_right_of_le hj
      · rw [List.take_append_of_le_length hj]
        exact hd

theorem Machine.sim_start [Movable T] (w : World T E) (a : Nat) (fr : frame T E)
    (body : Body T E) (k : T → Body T E) (handler : exception E → Body T E)
    (ha : w.lookup a = some fr) :
    Machine.sim w.frames.length a k handler
      { world := (w.call .task body).1, ctl := .resuming (some w.frames.length) }
      (Machine.awaiting w a body k handler).step := by
  have hlt : a < w.frames.length := World.lookup_lt ha
  have hne : w.frames.length ≠ a := Nat.ne_of_gt hlt
  have hR : ∀ i, w.frames.length ≤ i → ∀ fR, (w.call .task body).1.lookup i = some fR →
      i = w.frames.length ∧
      fR = { kind := .task, promise := task_promise_base.ctor, state := .initial body } := by
    intro i hi fR hf
    rw [World.lookup_call, if_neg (Nat.not_lt.mpr hi)] at hf
    by_cases h2 : i = w.frames.length
    · rw [if_pos h2] at hf
      exact ⟨h2, (Option.some.inj hf).symm⟩
    · rw [if_neg h2] at hf
      cases hf
  show Machine.sim _ _ _ _ _ (Machine.exec w a (.co_await body k handler))
  rw [Machine.exec_co_await]
  refine ⟨rfl, Nat.le_refl _, hlt, ?_, ?_, ?_, ?_, ?_, ?_, ?_⟩
  · rw [World.length_set_promise, World.length_set_state]
  · rw [World.counter_set_promise, World.counter_set_state]
  · rw [World.log_set_promise, World.log_set_state]
  · intro i hi fR hf
    obtain ⟨hi', hfR⟩ := hR i hi fR hf
    subst hi' hfR
    refine ⟨{ kind := .task, promise := { m_continuation := some a, m_value := .monostate },
              state := .initial body }, ?_, rfl, rfl, rfl, fun e => absurd rfl e,
            fun _ => ⟨rfl, rfl⟩⟩
    rw [World.lookup_set_promise_self, World.lookup_set_state_of_ne _ hne, World.lookup_call,
      if_neg (Nat.lt_irrefl _), if_pos rfl]
    rfl
  · intro i hi fR hf
    obtain ⟨hi', hfR⟩ := hR i hi fR hf
    subst hi' hfR
    exact ⟨fun _ _ _ _ e => (by cases e), fun e => absurd rfl e⟩
  · rw [World.length_call]; exact Nat.lt_succ_self _
  · refine ⟨⟨fr.kind, fr.promise,
      .awaiting ⟨some w.frames.length⟩ ⟨some w.frames.length⟩ k handler⟩, ?_, rfl⟩
    rw [World.lookup_set_promise_of_ne _ (Ne.symm hne), World.lookup_set_state_self,
      World.lookup_call, if_pos hlt, ha]
    rfl

theorem World.sim.result_eq {n a : Nat} {k : T → Body T E} {handler : exception E → Body T E}
    {wR wA : World T E} (h : World.sim n a k handler wR wA) :
    wR.result n = wA.result n := by
  obtain ⟨fR, hR⟩ := World.lookup_of_lt h.root
  obtain ⟨fA, hA, _, _, hv, _⟩ := h.frames n (Nat.le_refl _) fR hR
  rw [World.result_of_lookup hR, World.result_of_lookup hA, hv]

end simulation

/-! ## Lemmas for the invariants of the protocol -/

section protocol

variable {T E : Type}

theorem World.evolves_off.refl (x : Option Nat) (w : World T E) : World.evolves_off x w w :=
  fun _ f h => ⟨f, h, rfl, rfl, fun _ => rfl⟩

theorem World.evolves_off.trans {x : Option Nat} {w1 w2 w3 : World T E}
    (h12 : World.evolves_off x w1 w2) (h23 : World.evolves_off x w2 w3) :
    World.evolves_off x w1 w3 := by
  intro i f hf
  obtain ⟨f2, h2, hk2, hc2, hv2⟩ := h12 i f hf
  obtain ⟨f3, h3, hk3, hc3, hv3⟩ := h23 i f2 h2
  exact ⟨f3, h3, hk3.trans hk2, hc3.trans hc2, fun hx => (hv3 hx).trans (hv2 hx)⟩

theorem World.evolves_off.weaken {x : Option Nat} {w1 w2 : World T E}
    (h : World.evolves_off none w1 w2) : World.evolves_off x w1 w2 := by
  intro i f hf
  obtain ⟨f2, h2, hk2, hc2, hv2⟩ := h i f hf
  exact ⟨f2, h2, hk2, hc2, fun _ => hv2 (fun e => by cases e)⟩

theorem World.evolves_set_state (w : World T E) (b : Nat) (s : coro_state T E) :
    World.evolves_off none w (w.set_state b s) := by
  intro i f hf
  by_cases hib : i = b
  · subst hib
    exact ⟨{ f with state := s }, by rw [World.lookup_set_state_self, hf]; rfl, rfl, rfl,
      fun _ => rfl⟩
  · exact ⟨f, by rw [World.lookup_set_state_of_ne _ hib, hf], rfl, rfl, fun _ => rfl⟩

theorem World.evolves_set_promise (x : Option Nat) (w : World T E) (b : Nat)
    (p : task_promise T (exception E))
    (hp : ∀ f, w.lookup b = some f →
      p.m_continuation = f.promise.m_continuation ∧
      (x ≠ some b → p.m_value.index = f.promise.m_value.index)) :
    World.evolves_off x w (w.set_promise b p) := by
  intro i f hf
  by_cases hib : i = b
  · subst hib
    exact ⟨{ f with promise := p }, by rw [World.lookup_set_promise_self, hf]; rfl, rfl,
      (hp f hf).1, (hp f hf).2⟩
  · exact ⟨f, by rw [World.lookup_set_promise_of_ne _ hib, hf], rfl, rfl, fun _ => rfl⟩

theorem World.evolves_record (w : World T E) (e : event) :
    World.evolves_off none w (w.record e) :=
  fun _ f h => ⟨f, h, rfl, rfl, fun _ => rfl⟩

theorem World.evolves_call (w : World T E) (kind : frame_kind) (body : Body T E) :
    World.evolves_off none w (w.call kind body).1 := by
  intro i f hf
  exact ⟨f, by rw [World.lookup_call, if_pos (World.lookup_lt hf), hf], rfl, rfl,
    fun _ => rfl⟩

theorem World.evolves_destroy_aux (fuel : Nat) (w : World T E) (c : Nat) :
    World.evolves_off none w (World.destroy_aux fuel w c) := by
  induction fuel generalizing w c with
  | zero => exact World.evolves_off.refl _ _
  | succ fuel ih =>
    have key : World.evolves_off none w ((w.set_state c .destroyed).record (.destroyed c)) :=
      (World.evolves_set_state w c .destroyed).trans (World.evolves_record _ _)
    unfold World.destroy_aux
    cases hf : w.frames[c]? with
    | none => exact World.evolves_record _ _
    | some f =>
      simp only []
      cases hst : f.state with
      | awaiting tmp aw k handler =>
        simp only []
        cases hm : tmp.m_coro with
        | none => exact key
        | some d => exact key.trans (ih _ d)
      | _ => exact key

theorem World.evolves_dtor (w : World T E) (t : task) :
    World.evolves_off none w (task.dtor w t).1 := by
  unfold task.dtor
  cases t.m_coro with
  | none => exact World.evolves_off.refl _ _
  | some c => exact World.evolves_destroy_aux _ w c

theorem variant.index_get [Movable T] (p : task_promise T (exception E)) :
    (task_promise.get p).2.m_continuation = p.m_continuation ∧
    (task_promise.get p).2.m_value.index = p.m_value.index := by
  obtain ⟨c, m⟩ := p
  cases m <;>
    simp [task_promise.get, task_promise_base.rethrow_if_exception,
      variant.holds_exception_ptr, variant.index]

theorem World.lookup_promise {w : World T E} {b : Nat} {p : task_promise T (exception E)}
    (hp : w.promise b = some p) {f : frame T E} (hf : w.lookup b = some f) :
    f.promise = p := by
  obtain ⟨g, hg, hgp, _⟩ := World.promise_eq_some hp
  rw [hf] at hg
  cases hg
  exact hgp

theorem Machine.evolves_final_suspend (w : World T E) (b : Nat) :
    World.evolves_off none w (Machine.final_suspend w b).world := by
  unfold Machine.final_suspend
  cases hf : w.frames[b]? with
  | none => exact World.evolves_off.refl _ _
  | some f =>
    simp only []
    cases f.kind with
    | driver => exact World.evolves_set_state _ _ _
    | task =>
      simp only [final_suspend.awaiter.await_ready, Bool.false_eq_true, if_false]
      cases final_suspend.awaiter.await_suspend (w.set_state b .final) (some b) with
      | error e => exact World.evolves_set_state _ _ _
      | ok next => exact (World.evolves_set_state _ _ _).trans (World.evolves_record _ _)

theorem Machine.evolves_finish_await [Movable T] (w : World T E) (b : Nat) (tmp : task)
    (aw : task.awaiter) (k : T → Body T E) (handler : exception E → Body T E) :
    World.evolves_off none w (Machine.finish_await w b tmp aw k handler).world := by
  unfold Machine.finish_await
  cases hr : aw.await_resume w with
  | error e => exact World.evolves_off.refl _ _
  | ok r =>
    have h2 : World.evolves_off none w r.2 := by
      unfold task.awaiter.await_resume at hr
      cases hm : aw.m_coro with
      | none => simp [hm] at hr
      | some c =>
        cases hp : w.promise c with
        | none => simp [hm, hp] at hr
        | some p =>
          simp only [hm, hp, Except.ok.injEq] at hr
          rw [← hr]
          refine World.evolves_set_promise none w c _ (fun f hf => ?_)
          rw [World.lookup_promise hp hf]
          exact ⟨(variant.index_get p).1, fun _ => (variant.index_get p).2⟩
    have h3 := h2.trans (World.evolves_dtor r.2 tmp)
    simp only []
    cases r.1 with
    | returned v => exact h3
    | thrown e => exact h3
    | bad_variant_access => exact h3

theorem Machine.evolves_enter [Movable T] (w : World T E) (b : Nat) :
    World.evolves_off none w (Machine.enter w b).world := by
  unfold Machine.enter
  cases hf : w.frames[b]? with
  | none => exact World.evolves_off.refl _ _
  | some f =>
    simp only []
    have hw : World.evolves_off none w ((w.set_state b .running).record (.resumed b)) :=
      (World.evolves_set_state _ _ _).trans (World.evolves_record _ _)
    cases f.state with
    | initial body => exact hw
    | suspended k => exact hw
    | awaiting tmp aw k handler => exact hw.trans (Machine.evolves_finish_await _ _ _ _ _ _)
    | running => exact World.evolves_off.refl _ _
    | final => exact World.evolves_off.refl _ _
    | destroyed => exact World.evolves_off.refl _ _

theorem Machine.evolves_exec [Movable T] (w : World T E) (b : Nat) (code : Body T E) :
    World.evolves_off (control.completing (.running b code)) w
      (Machine.exec w b code).world := by
  cases code with
  | effect k => exact fun _ f h => ⟨f, h, rfl, rfl, fun _ => rfl⟩
  | suspend k => exact World.evolves_set_state _ _ _
  | co_return v =>
    unfold Machine.exec
    cases hp : w.promise b with
    | none => exact World.evolves_off.refl _ _
    | some p =>
      refine (World.evolves_set_promise _ w b _ (fun f hf => ?_)).trans
        (Machine.evolves_final_suspend _ b).weaken
      rw [World.lookup_promise hp hf]
      exact ⟨rfl, fun hx => absurd rfl hx⟩
  | throw e =>
    unfold Machine.exec
    cases hp : w.promise b with
    | none => exact World.evolves_off.refl _ _
    | some p =>
      refine (World.evolves_set_promise _ w b _ (fun f hf => ?_)).trans
        (Machine.evolves_final_suspend _ b).weaken
      rw [World.lookup_promise hp hf]
      exact ⟨rfl, fun hx => absurd rfl hx⟩
  | co_await callee k handler =>
    rw [Machine.exec_co_await]
    intro i f hf
    have hlt := World.lookup_lt hf
    obtain ⟨f2, h2, hk2, hc2, hv2⟩ := ((World.evolves_call w .task callee).trans
      (World.evolves_set_state _ b (.awaiting { m_coro := some w.frames.length }
        { m_coro := some w.frames.length } k handler))) i f hf
    exact ⟨f2, by rw [World.lookup_set_promise_of_ne _ (Nat.ne_of_lt hlt)]; exact h2,
      hk2, hc2, fun _ => hv2 (fun e => by cases e)⟩

theorem Machine.evolves_step [Movable T] (m : Machine T E) :
    World.evolves_off m.ctl.completing m.world m.step.world := by
  obtain ⟨w, ctl⟩ := m
  cases ctl with
  | idle => exact World.evolves_off.refl _ _
  | aborted f => exact World.evolves_off.refl _ _
  | resuming h =>
    cases h with
    | none => exact World.evolves_off.refl _ _
    | some b => exact (Machine.evolves_enter w b).weaken
  | running b code => exact Machine.evolves_exec w b code

theorem Machine.evolves_act [Movable T] (m : Machine T E) (x : action) :
    World.evolves_off m.ctl.completing m.world (m.act x).world := by
  cases x with
  | tick => exact Machine.evolves_step m
  | resume b =>
    unfold Machine.act
    by_cases hi : m.is_idle <;> simp only [hi] <;> exact World.evolves_off.refl _ _

/-- Kind and continuation link of a frame survive every sequence of actions. -/
theorem Machine.link_play [Movable T] (m : Machine T E) (acts : List action) (i : Nat)
    (f : frame T E) (hf : m.world.lookup i = some f) :
    ∃ f2, (Machine.play m acts).world.lookup i = some f2 ∧ f2.kind = f.kind ∧
      f2.promise.m_continuation = f.promise.m_continuation := by
  induction acts using List.reverseRecOn with
  | nil => exact ⟨f, hf, rfl, rfl⟩
  | append_singleton l x ih =>
    obtain ⟨f2, h2, hk2, hc2⟩ := ih
    rw [Machine.play_append]
    obtain ⟨f3, h3, hk3, hc3, _⟩ := Machine.evolves_act (Machine.play m l) x i f2 h2
    exact ⟨f3, h3, hk3.trans hk2, hc3.trans hc2⟩

theorem World.unwritten.drop {r : Option Nat} {w : World T E} (h : World.unwritten r w) :
    World.unwritten none w :=
  ⟨h.1, fun _ _ e => by cases e⟩

theorem World.unwritten.after_set_state {r : Option Nat} {w : World T E}
    (h : World.unwritten r w) (c : Nat) (s : coro_state T E)
    (hs : s.is_pending = true → ∀ f, w.lookup c = some f → f.promise.m_value = .monostate) :
    World.unwritten r (w.set_state c s) := by
  constructor
  · intro i f hf hp
    by_cases hic : i = c
    · subst hic
      rw [World.lookup_set_state_self] at hf
      cases hg : w.lookup i with
      | none => rw [hg] at hf; cases hf
      | some g =>
        rw [hg] at hf
        simp only [Option.map_some', Option.some.injEq] at hf
        subst hf
        exact hs hp g hg
    · rw [World.lookup_set_state_of_ne _ hic] at hf
      exact h.1 i f hf hp
  · intro b f hr hf
    by_cases hbc : b = c
    · subst hbc
      rw [World.lookup_set_state_self] at hf
      cases hg : w.lookup b with
      | none => rw [hg] at hf; cases hf
      | some g =>
        rw [hg] at hf
        simp only [Option.map_some', Option.some.injEq] at hf
        subst hf
        exact h.2 b g hr hg
    · rw [World.lookup_set_state_of_ne _ hbc] at hf
      exact h.2 b f hr hf

theorem World.unwritten.after_set_promise {r : Option Nat} {w : World T E}
    (h : World.unwritten r w) (c : Nat) (p : task_promise T (exception E))
    (hp : ∀ f, w.lookup c = some f → f.promise.m_value = .monostate →
      p.m_value = .monostate) :
    World.unwritten r (w.set_promise c p) := by
  constructor
  · intro i f hf hpend
    by_cases hic : i = c
    · subst hic
      rw [World.lookup_set_promise_self] at hf
      cases hg : w.lookup i with
      | none => rw [hg] at hf; cases hf
      | some g =>
        rw [hg] at hf
        simp only [Option.map_some', Option.some.injEq] at hf
        subst hf
        exact hp g hg (h.1 i g hg hpend)
    · rw [World.lookup_set_promise_of_ne _ hic] at hf
      exact h.1 i f hf hpend
  · intro b f hr hf
    by_cases hbc : b = c
    · subst hbc
      rw [World.lookup_set_promise_self] at hf
      cases hg : w.lookup b with
      | none => rw [hg] at hf; cases hf
      | some g =>
        rw [hg] at hf
        simp only [Option.map_some', Option.some.injEq] at hf
        subst hf
        exact hp g hg (h.2 b g hr hg)
    · rw [World.lookup_set_promise_of_ne _ hbc] at hf
      exact h.2 b f hr hf

theorem World.unwritten.after_record {r : Option Nat} {w : World T E}
    (h : World.unwritten r w) (e : event) : World.unwritten r (w.record e) := h

theorem World.unwritten.after_call {r : Option Nat} {w : World T E}
    (h : World.unwritten r w) (kind : frame_kind) (body : Body T E) :
    World.unwritten r (w.call kind body).1 := by
  have key : ∀ i f, (w.call kind body).1.lookup i = some f →
      w.lookup i = some f ∨ f.promise.m_value = .monostate := by
    intro i f hf
    rw [World.lookup_call] at hf
    by_cases h1 : i < w.frames.length
    · rw [if_pos h1] at hf
      exact Or.inl hf
    · rw [if_neg h1] at hf
      by_cases h2 : i = w.frames.length
      · rw [if_pos h2] at hf
        cases hf
        exact Or.inr rfl
      · rw [if_neg h2] at hf
        cases hf
  constructor
  · intro i f hf hp
    rcases key i f hf with h1 | h1
    · exact h.1 i f h1 hp
    · exact h1
  · intro b f hr hf
    rcases key b f hf with h1 | h1
    · exact h.2 b f hr h1
    · exact h1

theorem World.unwritten.after_destroy_aux (fuel : Nat) {r : Option Nat} {w : World T E}
    (h : World.unwritten r w) (c : Nat) : World.unwritten r (World.destroy_aux fuel w c) := by
  induction fuel generalizing w c with
  | zero => exact h
  | succ fuel ih =>
    have key : World.unwritten r ((w.set_state c .destroyed).record (.destroyed c)) :=
      (h.after_set_state c .destroyed (fun e => by cases e)).after_record _
    unfold World.destroy_aux
    cases hf : w.frames[c]? with
    | none => exact h.after_record _
    | some f =>
      simp only []
      cases hst : f.state with
      | awaiting tmp aw k handler =>
        simp only []
        cases hm : tmp.m_coro with
        | none => exact key
        | some d => exact ih key d
      | _ => exact key

theorem World.unwritten.after_dtor {r : Option Nat} {w : World T E}
    (h : World.unwritten r w) (t : task) : World.unwritten r (task.dtor w t).1 := by
  unfold task.dtor
  cases t.m_coro with
  | none => exact h
  | some c => exact h.after_destroy_aux _ c

theorem variant.get_of_monostate [Movable T] (p : task_promise T (exception E))
    (h : p.m_value = .monostate) : (task_promise.get p).2.m_value = .monostate := by
  obtain ⟨c, m⟩ := p
  simp only at h
  subst h
  rfl

/-- After the completion of frame `b` the channels of the unfinished frames are still
empty: `b` itself is at its final suspend point. -/
theorem World.unwritten.complete {r : Option Nat} {w : World T E}
    (h : World.unwritten r w) (b : Nat) (p : task_promise T (exception E)) :
    World.unwritten none ((w.set_promise b p).set_state b .final) := by
  refine ⟨fun i f hf hp => ?_, fun _ _ e => by cases e⟩
  by_cases hib : i = b
  · subst hib
    rw [World.lookup_set_state_self] at hf
    cases hg : (w.set_promise i p).lookup i with
    | none => rw [hg] at hf; cases hf
    | some g =>
      rw [hg] at hf
      simp only [Option.map_some', Option.some.injEq] at hf
      subst hf
      cases hp
  · rw [World.lookup_set_state_of_ne _ hib, World.lookup_set_promise_of_ne _ hib] at hf
    exact h.1 i f hf hp

theorem Machine.unwritten_final_suspend {r : Option Nat} {w : World T E}
    (h : World.unwritten r w) (b : Nat) (p : task_promise T (exception E)) :
    (Machine.final_suspend (w.set_promise b p) b).unwritten := by
  unfold Machine.final_suspend
  cases hf : (w.set_promise b p).frames[b]? with
  | none =>
    have hn : w.lookup b = none := by
      have h1 : (w.set_promise b p).lookup b = none := hf
      rw [World.lookup_set_promise_self] at h1
      cases hg : w.lookup b with
      | none => rfl
      | some g => rw [hg] at h1; cases h1
    have : w.set_promise b p = w := by
      unfold World.lookup at hn
      simp [World.set_promise, hn]
    rw [this]
    exact h.drop
  | some f =>
    simp only []
    cases f.kind with
    | driver => exact h.complete b p
    | task =>
      simp only [final_suspend.awaiter.await_ready, Bool.false_eq_true, if_false]
      cases final_suspend.awaiter.await_suspend ((w.set_promise b p).set_state b .final)
          (some b) with
      | error e => exact h.complete b p
      | ok next => exact (h.complete b p).after_record _

theorem Machine.unwritten_finish_await [Movable T] {w : World T E} (b : Nat)
    (h : World.unwritten (some b) w) (tmp : task)
    (aw : task.awaiter) (k : T → Body T E) (handler : exception E → Body T E) :
    (Machine.finish_await w b tmp aw k handler).unwritten := by
  unfold Machine.finish_await
  cases hr : aw.await_resume w with
  | error e => exact h.drop
  | ok r =>
    have h2 : World.unwritten (some b) r.2 := by
      unfold task.awaiter.await_resume at hr
      cases hm : aw.m_coro with
      | none => simp [hm] at hr
      | some c =>
        cases hp : w.promise c with
        | none => simp [hm, hp] at hr
        | some p =>
          simp only [hm, hp, Except.ok.injEq] at hr
          rw [← hr]
          refine h.after_set_promise c _ (fun f hf hv => ?_)
          rw [World.lookup_promise hp hf] at hv
          exact variant.get_of_monostate p hv
    have h3 := h2.after_dtor tmp
    simp only []
    cases r.1 with
    | returned v => exact h3
    | thrown e => exact h3
    | bad_variant_access => exact h3

theorem Machine.unwritten_enter [Movable T] {r : Option Nat} {w : World T E}
    (h : World.unwritten r w) (b : Nat) : (Machine.enter w b).unwritten := by
  unfold Machine.enter
  cases hf : w.frames[b]? with
  | none => exact h.drop
  | some f =>
    simp only []
    have hw : f.state.is_pending = true →
        World.unwritten (some b) ((w.set_state b .running).record (.resumed b)) := by
      intro hp
      have h1 := (h.drop.after_set_state b .running (fun e => by cases e)).after_record (.resumed b)
      refine ⟨h1.1, fun b2 g hb hg => ?_⟩
      cases hb
      rw [World.lookup_record, World.lookup_set_state_self, show w.lookup b = some f from hf]
        at hg
      simp only [Option.map_some', Option.some.injEq] at hg
      subst hg
      exact h.1 b f hf hp
    cases hst : f.state with
    | initial body => exact hw (by rw [hst]; rfl)
    | suspended k => exact hw (by rw [hst]; rfl)
    | awaiting tmp aw k handler =>
      exact Machine.unwritten_finish_await b (hw (by rw [hst]; rfl)) _ _ _ _
    | running => exact h.drop
    | final => exact h.drop
    | destroyed => exact h.drop

theorem Machine.unwritten_exec [Movable T] {w : World T E} (b : Nat)
    (h : World.unwritten (some b) w) (code : Body T E) :
    (Machine.exec w b code).unwritten := by
  cases code with
  | effect k => exact h
  | suspend k => exact (h.after_set_state b _ (fun _ f hf => h.2 b f rfl hf)).drop
  | co_return v =>
    unfold Machine.exec
    cases hp : w.promise b with
    | none => exact h.drop
    | some p => exact Machine.unwritten_final_suspend h b _
  | throw e =>
    unfold Machine.exec
    cases hp : w.promise b with
    | none => exact h.drop
    | some p => exact Machine.unwritten_final_suspend h b _
  | co_await callee k handler =>
    rw [Machine.exec_co_await]
    have h1 := h.after_call .task callee
    have h2 := h1.after_set_state b (.awaiting { m_coro := some w.frames.length }
      { m_coro := some w.frames.length } k handler) (fun _ f hf => h1.2 b f rfl hf)
    exact (h2.after_set_promise w.frames.length _ (fun _ _ _ => rfl)).drop

theorem Machine.unwritten_step [Movable T] {m : Machine T E} (h : m.unwritten) :
    m.step.unwritten := by
  obtain ⟨w, ctl⟩ := m
  cases ctl with
  | idle => exact h
  | aborted f => exact h
  | resuming h2 =>
    cases h2 with
    | none => exact h
    | some b => exact Machine.unwritten_enter h b
  | running b code => exact Machine.unwritten_exec b h code

theorem Machine.unwritten_act [Movable T] {m : Machine T E} (h : m.unwritten) (x : action) :
    (m.act x).unwritten := by
  cases x with
  | tick => exact Machine.unwritten_step h
  | resume b =>
    unfold Machine.act
    by_cases hi : m.is_idle
    · simp only [hi, if_true]
      exact World.unwritten.drop h
    · simp only [hi]
      exact h

theorem Machine.unwritten_play [Movable T] {m : Machine T E} (h : m.unwritten)
    (acts : List action) : (Machine.play m acts).unwritten := by
  induction acts using List.reverseRecOn with
  | nil => exact h
  | append_singleton l x ih =>
    rw [Machine.play_append]
    exact Machine.unwritten_act ih x

/-- A channel that holds a value or an error holds the same alternative one action later. -/
theorem Machine.written_act [Movable T] {m : Machine T E} (h : m.unwritten) (x : action)
    (i : Nat) (f : frame T E) (hf : m.world.lookup i = some f)
    (hw : f.promise.m_value.index ≠ 0) :
    ∃ f2, (m.act x).world.lookup i = some f2 ∧
      f2.promise.m_value.index = f.promise.m_value.index := by
  obtain ⟨f2, h2, _, _, hv⟩ := Machine.evolves_act m x i f hf
  refine ⟨f2, h2, hv (fun hc => hw ?_)⟩
  obtain ⟨w, ctl⟩ := m
  have hex : ctl.executing = some i := by
    cases ctl with
    | running b code =>
      cases code <;> first | (cases hc; rfl) | cases hc
    | _ => cases hc
  rw [h.2 i f hex hf]
  rfl

theorem Machine.written_play [Movable T] {m : Machine T E} (h : m.unwritten)
    (acts : List action) (i : Nat) (f : frame T E) (hf : m.world.lookup i = some f)
    (hw : f.promise.m_value.index ≠ 0) :
    ∃ f2, (Machine.play m acts).world.lookup i = some f2 ∧
      f2.promise.m_value.index = f.promise.m_value.index := by
  induction acts using List.reverseRecOn with
  | nil => exact ⟨f, hf, rfl⟩
  | append_singleton l x ih =>
    obtain ⟨f2, h2, hv2⟩ := ih
    rw [Machine.play_append]
    obtain ⟨f3, h3, hv3⟩ := Machine.written_act (Machine.unwritten_play h l) x i f2 h2
      (by rw [hv2]; exact hw)
    exact ⟨f3, h3, hv3.trans hv2⟩

theorem World.forward.set_destroyed {w : World T E} (h : w.forward) (c : Nat) :
    ((w.set_state c .destroyed).record (.destroyed c)).forward := by
  intro i f tmp aw k h2 hf hs d hd
  rw [World.lookup_record] at hf
  by_cases hic : i = c
  · subst hic
    rw [World.lookup_set_state_self] at hf
    cases hg : w.lookup i with
    | none => rw [hg] at hf; cases hf
    | some g =>
      rw [hg] at hf
      simp only [Option.map_some', Option.some.injEq] at hf
      subst hf
      cases hs
  · rw [World.lookup_set_state_of_ne _ hic] at hf
    exact h i f tmp aw k h2 hf hs d hd

/-- What `destroy` adds to the log are destructions of frames from address `c` on; the
counter does not move. -/
theorem World.destroy_aux_log (fuel : Nat) (w : World T E) (c : Nat) (h : w.forward) :
    ∃ l, (World.destroy_aux fuel w c).log = w.log ++ l ∧
      (∀ e, e ∈ l → ∃ d, e = .destroyed d ∧ c ≤ d) ∧
      (World.destroy_aux fuel w c).counter = w.counter := by
  induction fuel generalizing w c with
  | zero => exact ⟨[], by simp [World.destroy_aux], (fun _ he => (by cases he)), rfl⟩
  | succ fuel ih =>
    have key : ∃ l, ((w.set_state c .destroyed).record (.destroyed c)).log = w.log ++ l ∧
        (∀ e, e ∈ l → ∃ d, e = .destroyed d ∧ c ≤ d) ∧
        ((w.set_state c .destroyed).record (.destroyed c)).counter = w.counter := by
      refine ⟨[.destroyed c], ?_, ?_, ?_⟩
      · rw [World.log_record, World.log_set_state]
      · intro e he
        rw [List.mem_singleton] at he
        exact ⟨c, he, Nat.le_refl _⟩
      · rw [World.counter_record, World.counter_set_state]
    unfold World.destroy_aux
    cases hf : w.frames[c]? with
    | none =>
      refine ⟨[.destroyed c], rfl, ?_, rfl⟩
      intro e he
      rw [List.mem_singleton] at he
      exact ⟨c, he, Nat.le_refl _⟩
    | some f =>
      simp only []
      cases hst : f.state with
      | awaiting tmp aw k h2 =>
        simp only []
        cases hm : tmp.m_coro with
        | none => exact key
        | some d =>
          have hcd : c < d := h c f tmp aw k h2 hf hst d hm
          obtain ⟨l, hl, hall, hcnt⟩ := ih _ d (h.set_destroyed c)
          refine ⟨.destroyed c :: l, ?_, ?_, ?_⟩
          · rw [hl, World.log_record, World.log_set_state]
            simp
          · intro e he
            rcases List.mem_cons.mp he with he | he
            · exact ⟨c, he, Nat.le_refl _⟩
            · obtain ⟨d2, hd2, hle⟩ := hall e he
              exact ⟨d2, hd2, Nat.le_trans (Nat.le_of_lt hcd) hle⟩
          · rw [hcnt, World.counter_record, World.counter_set_state]
      | _ => exact key

/-- With fuel left, `destroy` logs the destruction of `c` first and then only destructions of
frames at higher addresses. -/
theorem World.destroy_aux_log_once (fuel : Nat) (w : World T E) (c : Nat) (h : w.forward) :
    ∃ l, (World.destroy_aux (fuel + 1) w c).log = w.log ++ .destroyed c :: l ∧
      (∀ e, e ∈ l → ∃ d, e = .destroyed d ∧ c < d) ∧
      (World.destroy_aux (fuel + 1) w c).counter = w.counter := by
  have key : ∃ l, ((w.set_state c .destroyed).record (.destroyed c)).log
        = w.log ++ .destroyed c :: l ∧
      (∀ e, e ∈ l → ∃ d, e = .destroyed d ∧ c < d) ∧
      ((w.set_state c .destroyed).record (.destroyed c)).counter = w.counter := by
    refine ⟨[], ?_, (fun _ he => (by cases he)), ?_⟩
    · rw [World.log_record, World.log_set_state]
    · rw [World.counter_record, World.counter_set_state]
  unfold World.destroy_aux
  cases hf : w.frames[c]? with
  | none => exact ⟨[], rfl, (fun _ he => (by cases he)), rfl⟩
  | some f =>
    simp only []
    cases hst : f.state with
    | awaiting tmp aw k h2 =>
      simp only []
      cases hm : tmp.m_coro with
      | none => exact key
      | some d =>
        have hcd : c < d := h c f tmp aw k h2 hf hst d hm
        obtain ⟨l, hl, hall, hcnt⟩ := World.destroy_aux_log fuel _ d (h.set_destroyed c)
        refine ⟨l, ?_, ?_, ?_⟩
        · rw [hl, World.log_record, World.log_set_state]
          simp
        · intro e he
          obtain ⟨d2, hd2, hle⟩ := hall e he
          exact ⟨d2, hd2, Nat.lt_of_lt_of_le hcd hle⟩
        · rw [hcnt, World.counter_record, World.counter_set_state]
    | _ => exact key

/-- A frame keeps its kind and promise through `destroy`; its state is kept or becomes
`destroyed`. -/
theorem World.destroy_aux_lookup (fuel : Nat) (w : World T E) (c i : Nat) (f : frame T E)
    (hf : w.lookup i = some f) :
    ∃ f2, (World.destroy_aux fuel w c).lookup i = some f2 ∧ f2.kind = f.kind ∧
      f2.promise = f.promise ∧ (f2.state = f.state ∨ f2.state = .destroyed) := by
  induction fuel generalizing w c f with
  | zero => exact ⟨f, hf, rfl, rfl, Or.inl rfl⟩
  | succ fuel ih =>
    have key : ∃ f2, ((w.set_state c .destroyed).record (.destroyed c)).lookup i = some f2 ∧
        f2.kind = f.kind ∧ f2.promise = f.promise ∧
        (f2.state = f.state ∨ f2.state = .destroyed) := by
      rw [World.lookup_record]
      by_cases hic : i = c
      · subst hic
        exact ⟨{ f with state := .destroyed }, by rw [World.lookup_set_state_self, hf]; rfl,
          rfl, rfl, Or.inr rfl⟩
      · exact ⟨f, by rw [World.lookup_set_state_of_ne _ hic, hf], rfl, rfl, Or.inl rfl⟩
    unfold World.destroy_aux
    cases hg : w.frames[c]? with
    | none => exact ⟨f, hf, rfl, rfl, Or.inl rfl⟩
    | some g =>
      simp only []
      cases hst : g.state with
      | awaiting tmp aw k h2 =>
        simp only []
        cases hm : tmp.m_coro with
        | none => exact key
        | some d =>
          obtain ⟨f2, h2f, hk2, hp2, hs2⟩ := key
          obtain ⟨f3, h3f, hk3, hp3, hs3⟩ := ih _ d f2 h2f
          refine ⟨f3, h3f, hk3.trans hk2, hp3.trans hp2, ?_⟩
          rcases hs3 with hs3 | hs3
          · rcases hs2 with hs2 | hs2
            · exact Or.inl (hs3.trans hs2)
            · exact Or.inr (hs3.trans hs2)
          · exact Or.inr hs3
      | _ => exact key

/-- The frame that `destroy` is called on ends destroyed. -/
theorem World.destroy_aux_self (fuel : Nat) (w : World T E) (c : Nat) (f : frame T E)
    (hf : w.lookup c = some f) :
    (World.destroy_aux (fuel + 1) w c).lookup c = some { f with state := .destroyed } := by
  have h1 : ((w.set_state c .destroyed).record (.destroyed c)).lookup c =
      some { f with state := .destroyed } := by
    rw [World.lookup_record, World.lookup_set_state_self, hf]; rfl
  unfold World.destroy_aux
  have hf2 : w.frames[c]? = some f := hf
  rw [hf2]
  simp only []
  cases hst : f.state with
  | awaiting tmp aw k h2 =>
    simp only []
    cases hm : tmp.m_coro with
    | none => exact h1
    | some d =>
      obtain ⟨f3, h3f, hk3, hp3, hs3⟩ := World.destroy_aux_lookup fuel _ d c _ h1
      rw [h3f]
      obtain ⟨k3, p3, s3⟩ := f3
      simp only at hk3 hp3 hs3
      subst hk3 hp3
      rcases hs3 with hs3 | hs3 <;> rw [hs3]
  | _ => exact h1

theorem World.decays.same (w : World T E) : World.decays w w :=
  fun _ f2 h => ⟨f2, h, Or.inl rfl⟩

theorem World.decays.comp {w1 w2 w3 : World T E} (h12 : World.decays w1 w2)
    (h23 : World.decays w2 w3) : World.decays w1 w3 := by
  intro i f3 h3
  obtain ⟨f2, h2, hs2⟩ := h23 i f3 h3
  obtain ⟨f1, h1, hs1⟩ := h12 i f2 h2
  refine ⟨f1, h1, ?_⟩
  rcases hs2 with hs2 | hs2
  · rcases hs1 with hs1 | hs1
    · exact Or.inl (hs2.trans hs1)
    · exact Or.inr (hs2.trans hs1)
  · exact Or.inr hs2

theorem World.decays.owns {w w2 : World T E} (h : World.decays w w2) {i d : Nat}
    (ho : w2.owns i d) : w.owns i d := by
  obtain ⟨f2, tmp, aw, k, hd, hl, hs, hm⟩ := ho
  obtain ⟨f, hf, hst⟩ := h i f2 hl
  rcases hst with hst | hst
  · exact ⟨f, tmp, aw, k, hd, hf, hst ▸ hs, hm⟩
  · rw [hst] at hs
    cases hs

theorem World.decays.forward {w w2 : World T E} (h : World.decays w w2) (hf : w.forward) :
    w2.forward := by
  intro i f tmp aw k hd hl hs d hm
  obtain ⟨g, tmp2, aw2, k2, hd2, hl2, hs2, hm2⟩ :=
    h.owns (⟨f, tmp, aw, k, hd, hl, hs, hm⟩ : w2.owns i d)
  exact hf i g tmp2 aw2 k2 hd2 hl2 hs2 d hm2

theorem World.decays_set_destroyed (w : World T E) (c : Nat) :
    World.decays w ((w.set_state c .destroyed).record (.destroyed c)) := by
  intro i f2 h2
  rw [World.lookup_record] at h2
  by_cases hic : i = c
  · subst hic
    rw [World.lookup_set_state_self] at h2
    cases hg : w.lookup i with
    | none => rw [hg] at h2; cases h2
    | some g =>
      rw [hg] at h2
      simp only [Option.map_some', Option.some.injEq] at h2
      subst h2
      exact ⟨g, rfl, Or.inr rfl⟩
  · rw [World.lookup_set_state_of_ne _ hic] at h2
    exact ⟨f2, h2, Or.inl rfl⟩

theorem World.set_destroyed_self (w : World T E) (c : Nat) (f : frame T E)
    (h : ((w.set_state c .destroyed).record (.destroyed c)).lookup c = some f) :
    f.state = .destroyed := by
  rw [World.lookup_record, World.lookup_set_state_self] at h
  cases hg : w.lookup c with
  | none => rw [hg] at h; cases h
  | some g =>
    rw [hg] at h
    simp only [Option.map_some', Option.some.injEq] at h
    subst h
    rfl

/-- What `destroy` does along the chain of ownership that starts at `c`: it logs the
destruction of the frames of a list `ds` without repetition, each of them `c` or a frame that
was owned by another frame of the list, and each of them ends destroyed; all other frames
keep their state. -/
theorem World.destroy_aux_chain (fuel : Nat) (w : World T E) (c : Nat) (h : w.forward) :
    ∃ ds : List Nat,
      (World.destroy_aux fuel w c).log = w.log ++ ds.map event.destroyed ∧
      ds.Nodup ∧ (∀ d, d ∈ ds → c ≤ d) ∧
      (∀ d, d ∈ ds → d = c ∨ ∃ i, i ∈ ds ∧ w.owns i d) ∧
      (∀ d, d ∈ ds → ∀ f, (World.destroy_aux fuel w c).lookup d = some f →
        f.state = .destroyed) ∧
      World.decays w (World.destroy_aux fuel w c) := by
  induction fuel generalizing w c with
  | zero =>
    refine ⟨[], ?_, List.nodup_nil, ?_, ?_, ?_, World.decays.same w⟩
    · simp [World.destroy_aux]
    · intro d hd; cases hd
    · intro d hd; cases hd
    · intro d hd; cases hd
  | succ fuel ih =>
    have key : ∃ ds : List Nat,
        ((w.set_state c .destroyed).record (.destroyed c)).log
          = w.log ++ ds.map event.destroyed ∧
        ds.Nodup ∧ (∀ d, d ∈ ds → c ≤ d) ∧
        (∀ d, d ∈ ds → d = c ∨ ∃ i, i ∈ ds ∧ w.owns i d) ∧
        (∀ d, d ∈ ds → ∀ f,
          ((w.set_state c .destroyed).record (.destroyed c)).lookup d = some f →
          f.state = .destroyed) ∧
        World.decays w ((w.set_state c .destroyed).record (.destroyed c)) := by
      refine ⟨[c], ?_, List.nodup_singleton c, ?_, ?_, ?_, World.decays_set_destroyed w c⟩
      · rw [World.log_record, World.log_set_state]; rfl
      · intro d hd
        rw [List.mem_singleton] at hd
        exact Nat.le_of_eq hd.symm
      · intro d hd
        rw [List.mem_singleton] at hd
        exact Or.inl hd
      · intro d hd f hf
        rw [List.mem_singleton] at hd
        subst hd
        exact World.set_destroyed_self w d f hf
    unfold World.destroy_aux
    cases hf : w.frames[c]? with
    | none =>
      refine ⟨[c], rfl, List.nodup_singleton c, ?_, ?_, ?_, ?_⟩
      · intro d hd
        rw [List.mem_singleton] at hd
        exact Nat.le_of_eq hd.symm
      · intro d hd
        rw [List.mem_singleton] at hd
        exact Or.inl hd
      · intro d hd f hf2
        rw [List.mem_singleton] at hd
        subst hd
        rw [World.lookup_record] at hf2
        have hf3 : w.frames[d]? = some f := hf2
        rw [hf] at hf3
        cases hf3
      · intro i f2 h2
        rw [World.lookup_record] at h2
        exact ⟨f2, h2, Or.inl rfl⟩
    | some f =>
      simp only []
      cases hst : f.state with
      | awaiting tmp aw k h2 =>
        simp only []
        cases hm : tmp.m_coro with
        | none => exact key
        | some d =>
          have hcd : c < d := h c f tmp aw k h2 hf hst d hm
          have hdec := World.decays_set_destroyed w c
          obtain ⟨ds, hl, hnd, hge, hown, hdes, hdc⟩ := ih _ d (hdec.forward h)
          refine ⟨c :: ds, ?_, ?_, ?_, ?_, ?_, hdec.comp hdc⟩
          · rw [hl, World.log_record, World.log_set_state]
            simp
          · refine List.nodup_cons.mpr ⟨?_, hnd⟩
            intro hc
            exact absurd (hge c hc) (Nat.not_le_of_lt hcd)
          · intro x hx
            rcases List.mem_cons.mp hx with hx | hx
            · exact Nat.le_of_eq hx.symm
            · exact Nat.le_trans (Nat.le_of_lt hcd) (hge x hx)
          · intro x hx
            rcases List.mem_cons.mp hx with hx | hx
            · exact Or.inl hx
            · right
              rcases hown x hx with hxd | ⟨i, hi, hio⟩
              · subst hxd
                exact ⟨c, List.mem_cons_self _ _, f, tmp, aw, k, h2, hf, hst, hm⟩
              · exact ⟨i, List.mem_cons_of_mem _ hi, hdec.owns hio⟩
          · intro x hx g hg
            rcases List.mem_cons.mp hx with hx | hx
            · subst hx
              obtain ⟨g1, hg1, hs1⟩ := hdc x g hg
              have := World.set_destroyed_self w x g1 hg1
              rcases hs1 with hs1 | hs1
              · exact hs1.trans this
              · exact hs1
            · exact hdes x hx g hg
      | _ => exact key

theorem handle_set.apply_move_ctor (o : handle_set T E) (other : Nat) :
    o.apply (.move_ctor other) =
      if other < o.size then
        { o with store := Function.update (Function.update o.store other
                   (task.move_ctor (o.store other)).2) o.size (task.move_ctor (o.store other)).1,
                 size := o.size + 1 }
      else o := rfl

theorem handle_set.apply_move_assign (o : handle_set T E) (a b : Nat) :
    o.apply (.move_assign a b) =
      if a < o.size ∧ b < o.size then { o with store := task.move_assign o.store a b }
      else o := rfl

theorem handle_set.apply_release (o : handle_set T E) (a : Nat) :
    o.apply (.release a) =
      if a < o.size then
        match task.release (o.store a) with
        | .ok r =>
          { o with store := Function.update o.store a r.2,
                   released := o.released ++ r.1.toList }
        | .error _ => o
      else o := rfl

theorem handle_set.apply_dtor (o : handle_set T E) (a : Nat) :
    o.apply (.dtor a) =
      if a < o.size then
        { o with world := (task.dtor o.world (o.store a)).1,
                 store := Function.update o.store a (task.dtor o.world (o.store a)).2 }
      else o := rfl

/-- An operation that keeps the heap and the released handles, and keeps which frames are held,
keeps the state well formed. -/
theorem handle_set.wf.of_same_held {o o2 : handle_set T E} (h : o.wf)
    (hw : o2.world = o.world) (hr : o2.released = o.released)
    (hh : ∀ c, o2.held c ↔ o.held c)
    (hx : ∀ x y c, (o2.store x).m_coro = some c → (o2.store y).m_coro = some c → x = y)
    (hfr : ∀ x, o2.size ≤ x → (o2.store x).m_coro = none) : o2.wf := by
  refine ⟨?_, ?_, hx, ?_, ?_, ?_, ?_, hfr⟩
  · rw [hw]; exact h.forward
  · rw [hw]; exact h.single_owner
  · intro c hc
    rw [hw]
    exact h.top_level c ((hh c).mp hc)
  · intro c hc
    rw [hw] at hc ⊢
    exact ⟨fun hc2 => (h.destroyed_gone c hc).1 ((hh c).mp hc2), (h.destroyed_gone c hc).2⟩
  · rw [hw]; exact h.once
  · intro c hc
    rw [hr] at hc
    rw [hw]
    exact ⟨fun hc2 => (h.released_gone c hc).1 ((hh c).mp hc2), (h.released_gone c hc).2⟩

theorem handle_set.store_move_ctor (o : handle_set T E) (other x c : Nat)
    (hx : ((if x = o.size then ({ m_coro := (o.store other).m_coro } : task)
      else if x = other then { m_coro := none } else o.store x)).m_coro = some c) :
    (x = o.size ∧ (o.store other).m_coro = some c) ∨
    (x ≠ o.size ∧ x ≠ other ∧ (o.store x).m_coro = some c) := by
  by_cases h1 : x = o.size
  · rw [if_pos h1] at hx
    exact Or.inl ⟨h1, hx⟩
  · rw [if_neg h1] at hx
    by_cases h2 : x = other
    · rw [if_pos h2] at hx
      cases hx
    · rw [if_neg h2] at hx
      exact Or.inr ⟨h1, h2, hx⟩

theorem handle_set.held_move_ctor (o : handle_set T E) (other : Nat) (h : o.wf) (c : Nat) :
    (o.apply (.move_ctor other)).held c ↔ o.held c := by
  rw [handle_set.apply_move_ctor]
  split_ifs with hlt
  · simp only [handle_set.held, task.move_ctor, std.exchange, Function.update_apply]
    constructor
    · rintro ⟨x, hx⟩
      rcases handle_set.store_move_ctor o other x c hx with ⟨_, h2⟩ | ⟨_, _, h2⟩
      · exact ⟨other, h2⟩
      · exact ⟨x, h2⟩
    · rintro ⟨x, hx⟩
      by_cases hxo : x = other
      · subst hxo
        exact ⟨o.size, by rw [if_pos rfl]; exact hx⟩
      · have hxs : x ≠ o.size := by
          intro he
          have := h.fresh x (Nat.le_of_eq he.symm)
          rw [this] at hx
          cases hx
        exact ⟨x, by rw [if_neg hxs, if_neg hxo]; exact hx⟩
  · exact Iff.rfl

theorem handle_set.wf_move_ctor (o : handle_set T E) (other : Nat) (h : o.wf) :
    (o.apply (.move_ctor other)).wf := by
  refine h.of_same_held ?_ ?_ (handle_set.held_move_ctor o other h) ?_ ?_
  · rw [handle_set.apply_move_ctor]; split_ifs <;> rfl
  · rw [handle_set.apply_move_ctor]; split_ifs <;> rfl
  · rw [handle_set.apply_move_ctor]
    split_ifs with hlt
    · simp only [task.move_ctor, std.exchange, Function.update_apply]
      intro x y c hx hy
      rcases handle_set.store_move_ctor o other x c hx with ⟨h1, h2⟩ | ⟨h1, h2, h3⟩ <;>
        rcases handle_set.store_move_ctor o other y c hy with ⟨h4, h5⟩ | ⟨h4, h5, h6⟩
      · rw [h1, h4]
      · exact absurd (h.exclusive _ _ _ h6 h2) h5
      · exact absurd (h.exclusive _ _ _ h3 h5) h2
      · exact h.exclusive _ _ _ h3 h6
    · exact h.exclusive
  · rw [handle_set.apply_move_ctor]
    split_ifs with hlt
    · simp only [task.move_ctor, std.exchange, Function.update_apply]
      intro x hx
      have h1 : x ≠ o.size := by intro he; rw [he] at hx; exact Nat.not_succ_le_self _ hx
      have h2 : x ≠ other := by intro he; rw [he] at hx; omega
      rw [if_neg h1, if_neg h2]
      exact h.fresh x (by omega)
    · exact h.fresh

theorem handle_set.store_move_assign (o : handle_set T E) (a b x c : Nat)
    (hx : ((if x = a then ({ m_coro := (o.store b).m_coro } : task)
      else if x = b then { m_coro := (o.store a).m_coro } else o.store x)).m_coro = some c) :
    (x = a ∧ (o.store b).m_coro = some c) ∨
    (x ≠ a ∧ x = b ∧ (o.store a).m_coro = some c) ∨
    (x ≠ a ∧ x ≠ b ∧ (o.store x).m_coro = some c) := by
  by_cases h1 : x = a
  · rw [if_pos h1] at hx
    exact Or.inl ⟨h1, hx⟩
  · rw [if_neg h1] at hx
    by_cases h2 : x = b
    · rw [if_pos h2] at hx
      exact Or.inr (Or.inl ⟨h1, h2, hx⟩)
    · rw [if_neg h2] at hx
      exact Or.inr (Or.inr ⟨h1, h2, hx⟩)

theorem handle_set.held_move_assign (o : handle_set T E) (a b : Nat) (c : Nat) :
    (o.apply (.move_assign a b)).held c ↔ o.held c := by
  rw [handle_set.apply_move_assign]
  split_ifs with hlt
  · simp only [handle_set.held, task.move_assign, std.exchange, Function.update_apply]
    constructor
    · rintro ⟨x, hx⟩
      rcases handle_set.store_move_assign o a b x c hx with ⟨_, h2⟩ | ⟨_, _, h2⟩ | ⟨_, _, h2⟩
      · exact ⟨b, h2⟩
      · exact ⟨a, h2⟩
      · exact ⟨x, h2⟩
    · rintro ⟨x, hx⟩
      by_cases hxb : x = b
      · subst hxb
        exact ⟨a, by rw [if_pos rfl]; exact hx⟩
      · by_cases hxa : x = a
        · subst hxa
          by_cases hab : b = x
          · exact absurd hab.symm hxb
          · exact ⟨b, by rw [if_neg hab, if_pos rfl]; exact hx⟩
        · exact ⟨x, by rw [if_neg hxa, if_neg hxb]; exact hx⟩
  · exact Iff.rfl

theorem handle_set.wf_move_assign (o : handle_set T E) (a b : Nat) (h : o.wf) :
    (o.apply (.move_assign a b)).wf := by
  refine h.of_same_held ?_ ?_ (handle_set.held_move_assign o a b) ?_ ?_
  · rw [handle_set.apply_move_assign]; split_ifs <;> rfl
  · rw [handle_set.apply_move_assign]; split_ifs <;> rfl
  · rw [handle_set.apply_move_assign]
    split_ifs with hlt
    · simp only [task.move_assign, std.exchange, Function.update_apply]
      intro x y c hx hy
      rcases handle_set.store_move_assign o a b x c hx with
        ⟨h1, h2⟩ | ⟨h1, h2, h3⟩ | ⟨h1, h2, h3⟩ <;>
      rcases handle_set.store_move_assign o a b y c hy with
        ⟨h4, h5⟩ | ⟨h4, h5, h6⟩ | ⟨h4, h5, h6⟩
      · rw [h1, h4]
      · have := h.exclusive _ _ _ h2 h6
        rw [h1, h5, this]
      · exact absurd (h.exclusive _ _ _ h6 h2) h5
      · have := h.exclusive _ _ _ h3 h5
        rw [h2, h4, this]
      · rw [h2, h5]
      · exact absurd (h.exclusive _ _ _ h6 h3) h4
      · exact absurd (h.exclusive _ _ _ h3 h5) h2
      · exact absurd (h.exclusive _ _ _ h3 h6) h1
      · exact h.exclusive _ _ _ h3 h6
    · exact h.exclusive
  · rw [handle_set.apply_move_assign]
    split_ifs with hlt
    · simp only [task.move_assign, std.exchange, Function.update_apply]
      intro x hx
      have h1 : x ≠ a := by intro he; rw [he] at hx; omega
      have h2 : x ≠ b := by intro he; rw [he] at hx; omega
      rw [if_neg h1, if_neg h2]
      exact h.fresh x hx
    · exact h.fresh

/-- Emptying the object that holds frame `c` leaves every other frame held as before. -/
theorem handle_set.held_update_none (s : task_store) (a c : Nat)
    (hx : ∀ x y c, (s x).m_coro = some c → (s y).m_coro = some c → x = y)
    (ha : (s a).m_coro = some c) (c2 : Nat) :
    (∃ x, (Function.update s a { m_coro := none } x).m_coro = some c2) ↔
      (∃ x, (s x).m_coro = some c2) ∧ c2 ≠ c := by
  simp only [Function.update_apply]
  constructor
  · rintro ⟨x, h⟩
    by_cases h1 : x = a
    · rw [if_pos h1] at h
      cases h
    · rw [if_neg h1] at h
      refine ⟨⟨x, h⟩, ?_⟩
      intro he
      subst he
      exact h1 (hx _ _ _ h ha)
  · rintro ⟨⟨x, h⟩, hne⟩
    have h1 : x ≠ a := by
      intro he
      subst he
      rw [ha] at h
      exact hne (Option.some.inj h).symm
    exact ⟨x, by rw [if_neg h1]; exact h⟩

theorem handle_set.exclusive_update_none (s : task_store) (a : Nat)
    (hx : ∀ x y c, (s x).m_coro = some c → (s y).m_coro = some c → x = y) :
    ∀ x y c, (Function.update s a { m_coro := none } x).m_coro = some c →
      (Function.update s a { m_coro := none } y).m_coro = some c → x = y := by
  simp only [Function.update_apply]
  intro x y c h1 h2
  by_cases hxa : x = a
  · rw [if_pos hxa] at h1
    cases h1
  · by_cases hya : y = a
    · rw [if_pos hya] at h2
      cases h2
    · rw [if_neg hxa] at h1
      rw [if_neg hya] at h2
      exact hx _ _ _ h1 h2

theorem handle_set.fresh_update_none (s : task_store) (a n : Nat)
    (hf : ∀ x, n ≤ x → (s x).m_coro = none) :
    ∀ x, n ≤ x → (Function.update s a { m_coro := none } x).m_coro = none := by
  simp only [Function.update_apply]
  intro x hx
  by_cases hxa : x = a
  · rw [if_pos hxa]
  · rw [if_neg hxa]
    exact hf x hx

/-- Emptying an object that was empty keeps which frames are held. -/
theorem handle_set.held_update_empty (s : task_store) (a : Nat) (ha : (s a).m_coro = none)
    (c2 : Nat) :
    (∃ x, (Function.update s a { m_coro := none } x).m_coro = some c2) ↔
      (∃ x, (s x).m_coro = some c2) := by
  simp only [Function.update_apply]
  constructor
  · rintro ⟨x, h⟩
    by_cases h1 : x = a
    · rw [if_pos h1] at h
      cases h
    · rw [if_neg h1] at h
      exact ⟨x, h⟩
  · rintro ⟨x, h⟩
    have h1 : x ≠ a := by
      intro he
      subst he
      rw [ha] at h
      cases h
    exact ⟨x, by rw [if_neg h1]; exact h⟩

theorem handle_set.apply_release_some (o : handle_set T E) (a c : Nat) (hlt : a < o.size)
    (ha : (o.store a).m_coro = some c) :
    o.apply (.release a) =
      { o with store := Function.update o.store a { m_coro := none },
               released := o.released ++ [c] } := by
  rw [handle_set.apply_release, if_pos hlt]
  simp only [task.release, ha, std.exchange, Option.toList]

theorem handle_set.apply_release_none (o : handle_set T E) (a : Nat)
    (ha : (o.store a).m_coro = none) : o.apply (.release a) = o := by
  rw [handle_set.apply_release]
  split_ifs
  · simp only [task.release, ha]
  · rfl

theorem handle_set.wf_release (o : handle_set T E) (a : Nat) (h : o.wf) :
    (o.apply (.release a)).wf := by
  by_cases hlt : a < o.size
  · cases ha : (o.store a).m_coro with
    | none => rw [handle_set.apply_release_none o a ha]; exact h
    | some c =>
      rw [handle_set.apply_release_some o a c hlt ha]
      have hh := handle_set.held_update_none o.store a c h.exclusive ha
      refine ⟨h.forward, h.single_owner, handle_set.exclusive_update_none _ a h.exclusive,
        ?_, ?_, h.once, ?_, handle_set.fresh_update_none _ a _ h.fresh⟩
      · intro c2 hc2
        exact h.top_level c2 ((hh c2).mp hc2).1
      · intro c2 hc2
        exact ⟨fun hd => (h.destroyed_gone c2 hc2).1 ((hh c2).mp hd).1,
          (h.destroyed_gone c2 hc2).2⟩
      · intro c2 hc2
        rcases List.mem_append.mp hc2 with hc2 | hc2
        · exact ⟨fun hd => (h.released_gone c2 hc2).1 ((hh c2).mp hd).1,
            (h.released_gone c2 hc2).2⟩
        · rw [List.mem_singleton] at hc2
          subst hc2
          refine ⟨fun hd => ((hh c2).mp hd).2 rfl, h.top_level c2 ⟨a, ha⟩, ?_⟩
          intro hd
          exact (h.destroyed_gone c2 hd).1 ⟨a, ha⟩
  · rw [handle_set.apply_release, if_neg hlt]
    exact h

theorem handle_set.apply_dtor_none (o : handle_set T E) (a : Nat) (hlt : a < o.size)
    (ha : (o.store a).m_coro = none) :
    o.apply (.dtor a) = { o with store := Function.update o.store a { m_coro := none } } := by
  rw [handle_set.apply_dtor, if_pos hlt]
  simp only [task.dtor, ha]

theorem handle_set.apply_dtor_some (o : handle_set T E) (a c : Nat) (hlt : a < o.size)
    (ha : (o.store a).m_coro = some c) :
    o.apply (.dtor a) =
      { o with world := World.destroy_aux (o.world.frames.length + 1) o.world c,
               store := Function.update o.store a { m_coro := none } } := by
  rw [handle_set.apply_dtor, if_pos hlt]
  simp only [task.dtor, ha, World.destroy]

theorem handle_set.wf_dtor (o : handle_set T E) (a : Nat) (h : o.wf) :
    (o.apply (.dtor a)).wf := by
  by_cases hlt : a < o.size
  · cases ha : (o.store a).m_coro with
    | none =>
      rw [handle_set.apply_dtor_none o a hlt ha]
      exact h.of_same_held rfl rfl (handle_set.held_update_empty o.store a ha)
        (handle_set.exclusive_update_none _ a h.exclusive)
        (handle_set.fresh_update_none _ a _ h.fresh)
    | some c =>
      rw [handle_set.apply_dtor_some o a c hlt ha]
      have hh := handle_set.held_update_none o.store a c h.exclusive ha
      obtain ⟨ds, hl, hnd, _, hown, hdes, hdec⟩ :=
        World.destroy_aux_chain (o.world.frames.length + 1) o.world c h.forward
      have hds : ∀ d, d ∈ ds → o.held d ∨ ∃ i, o.world.owns i d := by
        intro d hd
        rcases hown d hd with hdc | ⟨i, _, hi⟩
        · exact Or.inl (hdc ▸ ⟨a, ha⟩)
        · exact Or.inr ⟨i, hi⟩
      have hold : ∀ d, event.destroyed d ∈ o.world.log → d ∉ ds := by
        intro d hd hmem
        rcases hds d hmem with hheld | ⟨i, hi⟩
        · exact (h.destroyed_gone d hd).1 hheld
        · exact (h.destroyed_gone d hd).2 i hi
      have hmem : ∀ d, event.destroyed d ∈ ds.map event.destroyed → d ∈ ds := by
        intro d hd
        obtain ⟨x, hx, he⟩ := List.mem_map.mp hd
        cases he
        exact hx
      refine ⟨hdec.forward h.forward, ?_, handle_set.exclusive_update_none _ a h.exclusive,
        ?_, ?_, ?_, ?_, handle_set.fresh_update_none _ a _ h.fresh⟩
      · intro i j d hi hj
        exact h.single_owner i j d (hdec.owns hi) (hdec.owns hj)
      · intro c2 hc2 i hi
        exact h.top_level c2 ((hh c2).mp hc2).1 i (hdec.owns hi)
      · intro c2 hc2
        have hc3 : event.destroyed c2 ∈ o.world.log ++ ds.map event.destroyed := hl ▸ hc2
        rcases List.mem_append.mp hc3 with hc3 | hc3
        · exact ⟨fun hd => (h.destroyed_gone c2 hc3).1 ((hh c2).mp hd).1,
            fun i hi => (h.destroyed_gone c2 hc3).2 i (hdec.owns hi)⟩
        · have hc4 := hmem c2 hc3
          rcases hown c2 hc4 with hcc | ⟨i, hi, hio⟩
          · subst hcc
            exact ⟨fun hd => ((hh c2).mp hd).2 rfl,
              fun i hi => h.top_level c2 ⟨a, ha⟩ i (hdec.owns hi)⟩
          · refine ⟨fun hd => h.top_level c2 ((hh c2).mp hd).1 i hio, ?_⟩
            intro j hj
            have hji : j = i := h.single_owner j i c2 (hdec.owns hj) hio
            subst hji
            obtain ⟨f, tmp, aw, k, hd, hlk, hs, _⟩ := hj
            have := hdes j hi f hlk
            rw [this] at hs
            cases hs
      · intro c2
        have hc3 : (World.destroy_aux (o.world.frames.length + 1) o.world c).log
            = o.world.log ++ ds.map event.destroyed := hl
        show List.count (event.destroyed c2)
          (World.destroy_aux (o.world.frames.length + 1) o.world c).log ≤ 1
        rw [hc3, List.count_append]
        by_cases hin : event.destroyed c2 ∈ o.world.log
        · have : List.count (event.destroyed c2) (ds.map event.destroyed) = 0 :=
            List.count_eq_zero.mpr (fun hm => hold c2 hin (hmem c2 hm))
          rw [this]
          exact h.once c2
        · have h0 : List.count (event.destroyed c2) o.world.log = 0 :=
            List.count_eq_zero.mpr hin
          rw [h0, Nat.zero_add]
          have hnd2 : (ds.map event.destroyed).Nodup :=
            hnd.map (fun x y hxy => by cases hxy; rfl)
          exact List.nodup_iff_count_le_one.mp hnd2 _
      · intro c2 hc2
        refine ⟨fun hd => (h.released_gone c2 hc2).1 ((hh c2).mp hd).1,
          fun i hi => (h.released_gone c2 hc2).2.1 i (hdec.owns hi), ?_⟩
        intro hd
        have hc3 : event.destroyed c2 ∈ o.world.log ++ ds.map event.destroyed := hl ▸ hd
        rcases List.mem_append.mp hc3 with hc3 | hc3
        · exact (h.released_gone c2 hc2).2.2 hc3
        · rcases hds c2 (hmem c2 hc3) with hheld | ⟨i, hi⟩
          · exact (h.released_gone c2 hc2).1 hheld
          · exact (h.released_gone c2 hc2).2.1 i hi
  · rw [handle_set.apply_dtor, if_neg hlt]
    exact h

/-- Every operation keeps the state well formed. -/
theorem handle_set.wf_apply (o : handle_set T E) (op : handle_op) (h : o.wf) :
    (o.apply op).wf := by
  cases op with
  | move_ctor other => exact handle_set.wf_move_ctor o other h
  | move_assign a b => exact handle_set.wf_move_assign o a b h
  | release a => exact handle_set.wf_release o a h
  | dtor a => exact handle_set.wf_dtor o a h

theorem handle_set.wf_run (o : handle_set T E) (ops : List handle_op) (h : o.wf) :
    (o.run ops).wf := by
  induction ops generalizing o with
  | nil => exact h
  | cons op ops ih => exact ih (o.apply op) (handle_set.wf_apply o op h)

/-- No operation loses track of a frame. -/
theorem handle_set.accounted_apply (o : handle_set T E) (op : handle_op) (h : o.wf) (c : Nat)
    (hc : o.accounted c) : (o.apply op).accounted c := by
  cases op with
  | move_ctor other =>
    rcases hc with hc | hc | hc
    · exact Or.inl ((handle_set.held_move_ctor o other h c).mpr hc)
    · right; left
      rw [handle_set.apply_move_ctor]; split_ifs <;> exact hc
    · right; right
      rw [handle_set.apply_move_ctor]; split_ifs <;> exact hc
  | move_assign a b =>
    rcases hc with hc | hc | hc
    · exact Or.inl ((handle_set.held_move_assign o a b c).mpr hc)
    · right; left
      rw [handle_set.apply_move_assign]; split_ifs <;> exact hc
    · right; right
      rw [handle_set.apply_move_assign]; split_ifs <;> exact hc
  | release a =>
    by_cases hlt : a < o.size
    · cases ha : (o.store a).m_coro with
      | none => rw [handle_set.apply_release_none o a ha]; exact hc
      | some c0 =>
        rw [handle_set.apply_release_some o a c0 hlt ha]
        rcases hc with hc | hc | hc
        · by_cases hcc : c = c0
          · right; right
            exact List.mem_append.mpr (Or.inr (by rw [hcc]; exact List.mem_singleton_self _))
          · exact Or.inl
              ((handle_set.held_update_none o.store a c0 h.exclusive ha c).mpr ⟨hc, hcc⟩)
        · exact Or.inr (Or.inl hc)
        · exact Or.inr (Or.inr (List.mem_append.mpr (Or.inl hc)))
    · rw [handle_set.apply_release, if_neg hlt]
      exact hc
  | dtor a =>
    by_cases hlt : a < o.size
    · cases ha : (o.store a).m_coro with
      | none =>
        rw [handle_set.apply_dtor_none o a hlt ha]
        rcases hc with hc | hc | hc
        · exact Or.inl ((handle_set.held_update_empty o.store a ha c).mpr hc)
        · exact Or.inr (Or.inl hc)
        · exact Or.inr (Or.inr hc)
      | some c0 =>
        rw [handle_set.apply_dtor_some o a c0 hlt ha]
        obtain ⟨l, hl, _, _⟩ :=
          World.destroy_aux_log_once o.world.frames.length o.world c0 h.forward
        rcases hc with hc | hc | hc
        · by_cases hcc : c = c0
          · right; left
            show event.destroyed c ∈
              (World.destroy_aux (o.world.frames.length + 1) o.world c0).log
            rw [hl, hcc]
            exact List.mem_append.mpr (Or.inr (List.mem_cons_self _ _))
          · exact Or.inl
              ((handle_set.held_update_none o.store a c0 h.exclusive ha c).mpr ⟨hc, hcc⟩)
        · right; left
          show event.destroyed c ∈
            (World.destroy_aux (o.world.frames.length + 1) o.world c0).log
          rw [hl]
          exact List.mem_append.mpr (Or.inl hc)
        · exact Or.inr (Or.inr hc)
    · rw [handle_set.apply_dtor, if_neg hlt]
      exact hc

theorem handle_set.accounted_run (o : handle_set T E) (ops : List handle_op) (h : o.wf)
    (c : Nat) (hc : o.accounted c) : (o.run ops).accounted c := by
  induction ops generalizing o with
  | nil => exact hc
  | cons op ops ih =>
    exact ih (o.apply op) (handle_set.wf_apply o op h) (handle_set.accounted_apply o op h c hc)

theorem World.decays_destroy_aux (fuel : Nat) (w : World T E) (c : Nat) :
    World.decays w (World.destroy_aux fuel w c) := by
  induction fuel generalizing w c with
  | zero => exact World.decays.same w
  | succ fuel ih =>
    have key := World.decays_set_destroyed w c
    unfold World.destroy_aux
    cases hf : w.frames[c]? with
    | none => exact fun i f2 h2 => ⟨f2, h2, Or.inl rfl⟩
    | some f =>
      simp only []
      cases hst : f.state with
      | awaiting tmp aw k handler =>
        simp only []
        cases hm : tmp.m_coro with
        | none => exact key
        | some d => exact key.comp (ih _ d)
      | _ => exact key

theorem World.decays_dtor (w : World T E) (t : task) : World.decays w (task.dtor w t).1 := by
  unfold task.dtor
  cases t.m_coro with
  | none => exact World.decays.same w
  | some c => exact World.decays_destroy_aux _ w c

theorem World.forward_empty : (World.empty : World T E).forward := by
  intro i f tmp aw k h hf
  cases hf

theorem World.forward.with_set_state {w : World T E} (h : w.forward) (c : Nat)
    (s : coro_state T E)
    (hs : ∀ tmp aw k handler d, s = .awaiting tmp aw k handler → tmp.m_coro = some d →
      c < w.frames.length → c < d) :
    (w.set_state c s).forward := by
  intro i f tmp aw k h2 hf hst d hd
  by_cases hic : i = c
  · subst hic
    rw [World.lookup_set_state_self] at hf
    cases hg : w.lookup i with
    | none => rw [hg] at hf; cases hf
    | some g =>
      rw [hg] at hf
      simp only [Option.map_some', Option.some.injEq] at hf
      subst hf
      exact hs tmp aw k h2 d hst hd (World.lookup_lt hg)
  · rw [World.lookup_set_state_of_ne _ hic] at hf
    exact h i f tmp aw k h2 hf hst d hd

theorem World.forward.with_set_promise {w : World T E} (h : w.forward) (c : Nat)
    (p : task_promise T (exception E)) : (w.set_promise c p).forward := by
  intro i f tmp aw k h2 hf hst d hd
  by_cases hic : i = c
  · subst hic
    rw [World.lookup_set_promise_self] at hf
    cases hg : w.lookup i with
    | none => rw [hg] at hf; cases hf
    | some g =>
      rw [hg] at hf
      simp only [Option.map_some', Option.some.injEq] at hf
      subst hf
      exact h i g tmp aw k h2 hg hst d hd
  · rw [World.lookup_set_promise_of_ne _ hic] at hf
    exact h i f tmp aw k h2 hf hst d hd

theorem World.forward.with_record {w : World T E} (h : w.forward) (e : event) :
    (w.record e).forward := h

theorem World.forward.with_call {w : World T E} (h : w.forward) (kind : frame_kind)
    (body : Body T E) : (w.call kind body).1.forward := by
  intro i f tmp aw k h2 hf hst d hd
  rw [World.lookup_call] at hf
  by_cases h1 : i < w.frames.length
  · rw [if_pos h1] at hf
    exact h i f tmp aw k h2 hf hst d hd
  · rw [if_neg h1] at hf
    by_cases h3 : i = w.frames.length
    · rw [if_pos h3] at hf
      cases hf
      cases hst
    · rw [if_neg h3] at hf
      cases hf

theorem Machine.forward_final_suspend {w : World T E} (h : w.forward) (b : Nat) :
    (Machine.final_suspend w b).world.forward := by
  unfold Machine.final_suspend
  cases hf : w.frames[b]? with
  | none => exact h
  | some f =>
    simp only []
    have key : (w.set_state b .final).forward :=
      h.with_set_state b .final (fun _ _ _ _ _ e => by cases e)
    cases f.kind with
    | driver => exact key
    | task =>
      simp only [final_suspend.awaiter.await_ready, Bool.false_eq_true, if_false]
      cases final_suspend.awaiter.await_suspend (w.set_state b .final) (some b) with
      | error e => exact key
      | ok next => exact key.with_record _

theorem Machine.forward_finish_await [Movable T] {w : World T E} (h : w.forward) (b : Nat)
    (tmp : task) (aw : task.awaiter) (k : T → Body T E) (handler : exception E → Body T E) :
    (Machine.finish_await w b tmp aw k handler).world.forward := by
  unfold Machine.finish_await
  cases hr : aw.await_resume w with
  | error e => exact h
  | ok r =>
    have h2 : r.2.forward := by
      unfold task.awaiter.await_resume at hr
      cases hm : aw.m_coro with
      | none => simp [hm] at hr
      | some c =>
        cases hp : w.promise c with
        | none => simp [hm, hp] at hr
        | some p =>
          simp only [hm, hp, Except.ok.injEq] at hr
          rw [← hr]
          exact h.with_set_promise c _
    have h3 : (task.dtor r.2 tmp).1.forward := (World.decays_dtor _ _).forward h2
    simp only []
    cases r.1 with
    | returned v => exact h3
    | thrown e => exact h3
    | bad_variant_access => exact h3

theorem Machine.forward_enter [Movable T] {w : World T E} (h : w.forward) (b : Nat) :
    (Machine.enter w b).world.forward := by
  unfold Machine.enter
  cases hf : w.frames[b]? with
  | none => exact h
  | some f =>
    simp only []
    have hw : ((w.set_state b .running).record (.resumed b)).forward :=
      (h.with_set_state b .running (fun _ _ _ _ _ e => by cases e)).with_record _
    cases hst : f.state with
    | initial body => exact hw
    | suspended k => exact hw
    | awaiting tmp aw k handler => exact Machine.forward_finish_await hw b _ _ _ _
    | running => exact h
    | final => exact h
    | destroyed => exact h

theorem Machine.forward_exec [Movable T] {w : World T E} (h : w.forward) (b : Nat)
    (hb : b < w.frames.length) (code : Body T E) : (Machine.exec w b code).world.forward := by
  cases code with
  | effect k => exact h
  | suspend k => exact h.with_set_state b _ (fun _ _ _ _ _ e => by cases e)
  | co_return v =>
    unfold Machine.exec
    cases hp : w.promise b with
    | none => exact h
    | some p => exact Machine.forward_final_suspend (h.with_set_promise b _) b
  | throw e =>
    unfold Machine.exec
    cases hp : w.promise b with
    | none => exact h
    | some p => exact Machine.forward_final_suspend (h.with_set_promise b _) b
  | co_await callee k handler =>
    rw [Machine.exec_co_await]
    refine World.forward.with_set_promise (World.forward.with_set_state (h.with_call .task callee) b _ ?_) _ _
    intro tmp aw k2 h2 d e hd _
    cases e
    cases hd
    exact hb

theorem World.length_destroy_aux (fuel : Nat) (w : World T E) (c : Nat) :
    (World.destroy_aux fuel w c).frames.length = w.frames.length := by
  induction fuel generalizing w c with
  | zero => rfl
  | succ fuel ih =>
    have key : ((w.set_state c .destroyed).record (.destroyed c)).frames.length
        = w.frames.length := by
      rw [World.length_record, World.length_set_state]
    unfold World.destroy_aux
    cases hf : w.frames[c]? with
    | none => rfl
    | some f =>
      simp only []
      cases hst : f.state with
      | awaiting tmp aw k handler =>
        simp only []
        cases hm : tmp.m_coro with
        | none => exact key
        | some d => rw [ih, key]
      | _ => exact key

theorem World.length_dtor (w : World T E) (t : task) :
    (task.dtor w t).1.frames.length = w.frames.length := by
  unfold task.dtor
  cases t.m_coro with
  | none => rfl
  | some c => exact World.length_destroy_aux _ w c

theorem Machine.final_suspend_not_running (w : World T E) (a b : Nat) (code : Body T E) :
    (Machine.final_suspend w a).ctl ≠ .running b code := by
  unfold Machine.final_suspend
  cases hf : w.frames[a]? with
  | none => exact fun e => by cases e
  | some f =>
    simp only []
    cases f.kind with
    | driver => exact fun e => by cases e
    | task =>
      simp only [final_suspend.awaiter.await_ready, Bool.false_eq_true, if_false]
      cases final_suspend.awaiter.await_suspend (w.set_state a .final) (some a) with
      | error e => exact fun e => by cases e
      | ok next => exact fun e => by cases e

theorem Machine.running_lt_finish_await [Movable T] {w : World T E} {a : Nat}
    (ha : a < w.frames.length) (tmp : task) (aw : task.awaiter) (k : T → Body T E)
    (handler : exception E → Body T E) (b : Nat) (code : Body T E)
    (h : (Machine.finish_await w a tmp aw k handler).ctl = .running b code) :
    b < (Machine.finish_await w a tmp aw k handler).world.frames.length := by
  unfold Machine.finish_await at h ⊢
  cases hr : aw.await_resume w with
  | error e => rw [hr] at h; cases h
  | ok r =>
    have h2 : r.2.frames.length = w.frames.length := by
      unfold task.awaiter.await_resume at hr
      cases hm : aw.m_coro with
      | none => simp [hm] at hr
      | some c =>
        cases hp : w.promise c with
        | none => simp [hm, hp] at hr
        | some p =>
          simp only [hm, hp, Except.ok.injEq] at hr
          rw [← hr]
          exact World.length_set_promise _ _ _
    rw [hr] at h
    simp only [] at h ⊢
    cases hr1 : r.1 with
    | returned v =>
      rw [hr1] at h
      simp only [] at h ⊢
      cases h
      rw [World.length_dtor, h2]
      exact ha
    | thrown e =>
      rw [hr1] at h
      simp only [] at h ⊢
      cases h
      rw [World.length_dtor, h2]
      exact ha
    | bad_variant_access =>
      rw [hr1] at h
      simp only [] at h ⊢
      cases h
      rw [World.length_dtor, h2]
      exact ha

/-- The frame that executes exists, after every step. -/
theorem Machine.running_lt_step [Movable T] {m : Machine T E}
    (hb : ∀ b code, m.ctl = .running b code → b < m.world.frames.length) :
    ∀ b code, m.step.ctl = .running b code → b < m.step.world.frames.length := by
  obtain ⟨w, ctl⟩ := m
  cases ctl with
  | idle => exact hb
  | aborted f => exact hb
  | resuming h2 =>
    cases h2 with
    | none => exact fun _ _ e => by cases e
    | some a =>
      intro b code h
      show b < (Machine.enter w a).world.frames.length
      have h1 : (Machine.enter w a).ctl = .running b code := h
      unfold Machine.enter at h1 ⊢
      cases hf : w.frames[a]? with
      | none => rw [hf] at h1; cases h1
      | some f =>
        have ha : a < w.frames.length := World.lookup_lt (show w.lookup a = some f from hf)
        have hl : ((w.set_state a .running).record (.resumed a)).frames.length
            = w.frames.length := by
          rw [World.length_record, World.length_set_state]
        rw [hf] at h1
        simp only [] at h1 ⊢
        cases hst : f.state with
        | initial body =>
          rw [hst] at h1
          simp only [] at h1 ⊢
          cases h1
          rw [hl]
          exact ha
        | suspended k =>
          rw [hst] at h1
          simp only [] at h1 ⊢
          cases h1
          rw [hl]
          exact ha
        | awaiting tmp aw k handler =>
          rw [hst] at h1
          simp only [] at h1 ⊢
          exact Machine.running_lt_finish_await (by rw [hl]; exact ha) _ _ _ _ b code h1
        | running => rw [hst] at h1; cases h1
        | final => rw [hst] at h1; cases h1
        | destroyed => rw [hst] at h1; cases h1
  | running a code0 =>
    intro b code h
    have ha : a < w.frames.length := hb a code0 rfl
    show b < (Machine.exec w a code0).world.frames.length
    have h1 : (Machine.exec w a code0).ctl = .running b code := h
    cases code0 with
    | effect k =>
      cases h1
      exact ha
    | suspend k => cases h1
    | co_return v =>
      unfold Machine.exec at h1
      cases hp : w.promise a with
      | none => rw [hp] at h1; cases h1
      | some p =>
        rw [hp] at h1
        exact absurd h1 (Machine.final_suspend_not_running _ _ _ _)
    | throw e =>
      unfold Machine.exec at h1
      cases hp : w.promise a with
      | none => rw [hp] at h1; cases h1
      | some p =>
        rw [hp] at h1
        exact absurd h1 (Machine.final_suspend_not_running _ _ _ _)
    | co_await callee k handler =>
      rw [Machine.exec_co_await] at h1
      cases h1

/-- Ownership points forward after every step of the machine. -/
theorem Machine.forward_step [Movable T] {m : Machine T E} (h : m.world.forward)
    (hb : ∀ b code, m.ctl = .running b code → b < m.world.frames.length) :
    m.step.world.forward := by
  obtain ⟨w, ctl⟩ := m
  cases ctl with
  | idle => exact h
  | aborted f => exact h
  | resuming h2 =>
    cases h2 with
    | none => exact h
    | some b => exact Machine.forward_enter h b
  | running b code => exact Machine.forward_exec h b (hb b code rfl) code

/-- Ownership points forward in every world the machine reaches from one where it does and
where the frame that executes, if any, exists. -/
theorem Machine.forward_play [Movable T] {m : Machine T E} (h : m.world.forward)
    (hb : ∀ b code, m.ctl = .running b code → b < m.world.frames.length)
    (acts : List action) :
    (Machine.play m acts).world.forward ∧
    ∀ b code, (Machine.play m acts).ctl = .running b code →
      b < (Machine.play m acts).world.frames.length := by
  induction acts using List.reverseRecOn with
  | nil => exact ⟨h, hb⟩
  | append_singleton l x ih =>
    rw [Machine.play_append]
    cases x with
    | tick => exact ⟨Machine.forward_step ih.1 ih.2, Machine.running_lt_step ih.2⟩
    | resume b =>
      unfold Machine.act
      by_cases hi : (Machine.play m l).is_idle
      · simp only [hi, if_true]
        exact ⟨ih.1, fun _ _ e => by cases e⟩
      · simp only [hi]
        exact ih

end protocol

/-! ## The claims -/

section claims

variable {T E : Type}

/-- Claim C1, value round-trip. Let `c` be a live task frame and `a` a caller frame. When the
body of `c` completes with `return_value(v)`, the task awaiter's `await_resume()` (that is
`promise.get()`) returns exactly `v`; and a caller that executes `co_await` on a task whose
body is `co_return v` goes on, four machine steps later, with exactly `v`. -/
theorem value_round_trip [Movable T] (w : World T E) (c a : Nat)
    (p : task_promise T (exception E)) (f : frame T E) (v : T)
    (k : T → Body T E) (handler : exception E → Body T E)
    (hp : w.promise c = some p) (ha : w.frames[a]? = some f) :
    ((task.awaiter.mk (some c)).await_resume
        (w.set_promise c (task_promise.return_value p v))).map Prod.fst
      = .ok (.returned v) ∧
    (Machine.run 4 { world := w, ctl := .running a (.co_await (.co_return v) k handler) }).ctl
      = .running a (k v) := by
  constructor
  · have hq := World.promise_set_promise hp (task_promise.return_value p v)
    simp only [task.awaiter.await_resume, hq]
    simp [task_promise.get, task_promise_base.rethrow_if_exception,
      task_promise.return_value, variant.holds_exception_ptr, Except.map]
  · obtain ⟨w', h, _⟩ := (Machine.run_await_co_return w a f v k handler ha).2
    rw [h]

/-- Instance of `value_round_trip`: a task returning `42`, awaited from frame 0. -/
theorem value_round_trip_witness :
    demo_world.promise 0 = some task_promise_base.ctor ∧
    demo_world.frames[0]? = some demo_frame ∧
    ((task.awaiter.mk (some 0)).await_resume
        (demo_world.set_promise 0
          (task_promise.return_value task_promise_base.ctor 42))).map Prod.fst
      = .ok (.returned 42) ∧
    (Machine.run 4
      { world := demo_world
        ctl := .running 0
          (.co_await (.co_return 42) (fun r => .co_return r) (fun e => .throw e)) }).ctl
      = .running 0 (.co_return 42) :=
  ⟨rfl, rfl, value_round_trip demo_world 0 0 task_promise_base.ctor demo_frame 42
    (fun r => .co_return r) (fun e => .throw e) rfl rfl⟩

/-- Claim C2, error round-trip. When the body of a live task frame `c` raises `e`, so that
`unhandled_exception()` stores it, the task awaiter's `await_resume()` rethrows `e` and yields
no value; `task_promise<void>::get()` rethrows it as well; and a caller that executes
`co_await` on a task whose body throws `e` goes on, four machine steps later, in the code that
handles `e`. -/
theorem error_round_trip [Movable T] (w : World T E) (c a : Nat)
    (p : task_promise T (exception E)) (q : task_promise_void (exception E)) (f : frame T E)
    (e : exception E) (k : T → Body T E) (handler : exception E → Body T E)
    (hp : w.promise c = some p) (ha : w.frames[a]? = some f) :
    ((task.awaiter.mk (some c)).await_resume
        (w.set_promise c (task_promise_base.unhandled_exception p e))).map Prod.fst
      = .ok (.thrown e) ∧
    (task_promise_void.get (task_promise_base.unhandled_exception q e)).1 = .thrown e ∧
    (Machine.run 4 { world := w, ctl := .running a (.co_await (.throw e) k handler) }).ctl
      = .running a (handler e) := by
  refine ⟨?_, ?_, ?_⟩
  · have hq := World.promise_set_promise hp (task_promise_base.unhandled_exception p e)
    simp only [task.awaiter.await_resume, hq]
    simp [task_promise.get, task_promise_base.rethrow_if_exception,
      task_promise_base.unhandled_exception, variant.holds_exception_ptr, Except.map]
  · simp [task_promise_void.get, task_promise_base.rethrow_if_exception,
      task_promise_base.unhandled_exception, variant.holds_exception_ptr]
  · obtain ⟨w', h, _⟩ := (Machine.run_await_throw w a f e k handler ha).2
    rw [h]

/-- Instance of `error_round_trip`: a task raising "boom", awaited from frame 0. -/
theorem error_round_trip_witness :
    demo_world.promise 0 = some task_promise_base.ctor ∧
    demo_world.frames[0]? = some demo_frame ∧
    ((task.awaiter.mk (some 0)).await_resume
        (demo_world.set_promise 0
          (task_promise_base.unhandled_exception task_promise_base.ctor
            (.user "boom")))).map Prod.fst
      = .ok (.thrown (.user "boom")) ∧
    (task_promise_void.get
        (task_promise_base.unhandled_exception
          (task_promise_base.ctor : task_promise_void (exception String))
          (.user "boom"))).1 = .thrown (.user "boom") ∧
    (Machine.run 4
      { world := demo_world
        ctl := .running 0
          (.co_await (.throw (.user "boom")) (fun r => .co_return r)
            (fun e => .throw e)) }).ctl
      = .running 0 (.throw (.user "boom")) :=
  ⟨rfl, rfl, error_round_trip demo_world 0 0 task_promise_base.ctor task_promise_base.ctor
    demo_frame (.user "boom") (fun r => .co_return r) (fun e => .throw e) rfl rfl⟩

/-- Claim C3, laziness. Calling a coroutine function leaves the new frame suspended at
`initial_suspend` with its whole body ahead of it, and neither the counter nor the log moves.
From any machine state in which the frame at address `a` has not started, and as long as no
step transfers control into it (the control register is never `resuming (some a)`, which is
what the task awaiter's `await_suspend` result or an explicit `resume()` produces), the frame
still has not started: no statement of its body ran. In particular a handle that is created
and then destroyed runs nothing: the counter is unchanged, the only new event is the
destruction of the frame, and no transfer to a continuation is logged. -/
theorem laziness [Movable T] (w : World T E) (body : Body T E) (m : Machine T E) (a n : Nat)
    (h0 : m.unstarted a body)
    (hn : ∀ i, i < n → (Machine.run i m).ctl ≠ .resuming (some a)) :
    ((w.call .task body).1.frames[w.frames.length]? =
        some ⟨.task, task_promise_base.ctor, .initial body⟩ ∧
      (w.call .task body).2 = some w.frames.length ∧
      (w.call .task body).1.counter = w.counter ∧ (w.call .task body).1.log = w.log) ∧
    (Machine.run n m).unstarted a body ∧
    (task.ctor (w.call .task body).1 (w.call .task body).2 = .ok ⟨some w.frames.length⟩ ∧
      (task.dtor (w.call .task body).1 ⟨some w.frames.length⟩).2 = ⟨none⟩ ∧
      (task.dtor (w.call .task body).1 ⟨some w.frames.length⟩).1.counter = w.counter ∧
      (task.dtor (w.call .task body).1 ⟨some w.frames.length⟩).1.log
        = w.log ++ [.destroyed w.frames.length] ∧
      (task.dtor (w.call .task body).1 ⟨some w.frames.length⟩).1.frames[w.frames.length]?
        = some ⟨.task, task_promise_base.ctor, .destroyed⟩) := by
  have hnew : (w.call .task body).1.lookup w.frames.length =
      some ⟨.task, task_promise_base.ctor, .initial body⟩ := by
    rw [World.lookup_call, if_neg (Nat.lt_irrefl _), if_pos rfl]
  have hd : (task.dtor (w.call .task body).1 ⟨some w.frames.length⟩).1 =
      (((w.call .task body).1.set_state w.frames.length .destroyed).record
        (.destroyed w.frames.length)) :=
    World.destroy_of_not_awaiting _ _ _ hnew (by intro _ _ _ _ h; cases h)
  refine ⟨⟨hnew, rfl, rfl, rfl⟩, Machine.unstarted_run n h0 hn, ?_, rfl, ?_, ?_, ?_⟩
  · have hdone : (w.call .task body).1.done w.frames.length = false := by
      unfold World.lookup at hnew
      unfold World.done
      rw [hnew]
      rfl
    simp [task.ctor, World.call_snd, hdone]
  · rw [hd, World.counter_record, World.counter_set_state, World.counter_call]
  · rw [hd, World.log_record, World.log_set_state, World.log_call]
  · rw [hd]
    show (((w.call .task body).1.set_state w.frames.length .destroyed).record
        (.destroyed w.frames.length)).lookup w.frames.length = _
    rw [World.lookup_record, World.lookup_set_state, if_pos rfl, hnew]
    rfl

/-- Instance of `laziness`: while the driver of `demo_lazy_world` awaits another task to
completion, the task at address 1 that nobody awaited does not start. -/
theorem laziness_witness :
    (Machine.mk demo_lazy_world (.resuming (some 0))).unstarted 1 (.effect (.co_return 1)) ∧
    (∀ i, i < 6 →
      (Machine.run i (Machine.mk demo_lazy_world (.resuming (some 0)))).ctl
        ≠ .resuming (some 1)) ∧
    (Machine.run 6 (Machine.mk demo_lazy_world (.resuming (some 0)))).unstarted 1
      (.effect (.co_return 1)) :=
  have h0 : (Machine.mk demo_lazy_world (.resuming (some 0))).unstarted 1
      (.effect (.co_return 1)) :=
    ⟨⟨_, rfl, Or.inl rfl⟩, fun _ h => by cases h⟩
  have hn : ∀ i, i < 6 →
      (Machine.run i (Machine.mk demo_lazy_world (.resuming (some 0)))).ctl
        ≠ .resuming (some 1) := by
    intro i hi h
    interval_cases i <;> cases h
  ⟨h0, hn, (laziness demo_lazy_world (.effect (.co_return 1)) _ 1 6 h0 hn).2.1⟩

/-- Claim C4, await handshake. For a valid task owning the live frame `c` and a non-null caller
handle `some a`: `operator co_await` yields an awaiter bound to `c`, `await_ready()` is false,
and `await_suspend(some a)` succeeds, returns the task's own handle `some c` as the frame to
run next, stores `some a` in the continuation link of `c`, leaves `m_value` of `c` as it was,
and changes no other frame, nor the counter, nor the log. -/
theorem await_handshake (w : World T E) (c a : Nat) (p : task_promise T (exception E))
    (hp : w.promise c = some p) :
    task.operator_co_await { m_coro := some c } = .ok { m_coro := some c } ∧
    (task.awaiter.mk (some c)).await_ready = false ∧
    ∃ w', (task.awaiter.mk (some c)).await_suspend w (some a) = .ok (some c, w') ∧
      w'.promise c = some { m_continuation := some a, m_value := p.m_value } ∧
      (∀ b, b ≠ c → w'.frames[b]? = w.frames[b]?) ∧
      w'.counter = w.counter ∧ w'.log = w.log := by
  refine ⟨rfl, rfl, w.set_promise c { p with m_continuation := some a }, ?_, ?_, ?_, ?_, ?_⟩
  · simp [task.awaiter.await_suspend, hp]
  · exact World.promise_set_promise hp _
  · intro b hb
    exact World.lookup_set_promise_of_ne w hb _
  · exact World.counter_set_promise _ _ _
  · exact World.log_set_promise _ _ _

/-- Instance of `await_handshake`: frame 0 of `demo_world` awaited by a caller at address 3. -/
theorem await_handshake_witness :
    demo_world.promise 0 = some task_promise_base.ctor ∧
    task.operator_co_await { m_coro := some 0 } = .ok { m_coro := some 0 } ∧
    (task.awaiter.mk (some 0)).await_ready = false ∧
    ∃ w', (task.awaiter.mk (some 0)).await_suspend demo_world (some 3) = .ok (some 0, w') ∧
      w'.promise 0 = some { m_continuation := some 3, m_value := .monostate } ∧
      (∀ b, b ≠ 0 → w'.frames[b]? = demo_world.frames[b]?) ∧
      w'.counter = demo_world.counter ∧ w'.log = demo_world.log :=
  ⟨rfl, await_handshake demo_world 0 3 task_promise_base.ctor rfl⟩

/-- Claim C5, completion hand-back. After the task awaiter's `await_suspend(some a)` on the
live frame `c`, whether the body then completes through `return_value(v)` or through
`unhandled_exception()`, the final awaiter's `await_suspend` returns exactly `some a`; and in
the machine, three steps after a caller `a` executes `co_await` on a task that returns or
throws at once, the handle about to be resumed is `some a`. -/
theorem completion_hand_back [Movable T] (w : World T E) (c a : Nat)
    (p : task_promise T (exception E)) (f : frame T E) (v : T) (e : exception E)
    (k : T → Body T E) (handler : exception E → Body T E)
    (hp : w.promise c = some p) (ha : w.frames[a]? = some f) :
    (∃ w1 p1, (task.awaiter.mk (some c)).await_suspend w (some a) = .ok (some c, w1) ∧
      w1.promise c = some p1 ∧
      final_suspend.awaiter.await_suspend
        (w1.set_promise c (task_promise.return_value p1 v)) (some c) = .ok (some a) ∧
      final_suspend.awaiter.await_suspend
        (w1.set_promise c (task_promise_base.unhandled_exception p1 e)) (some c)
        = .ok (some a)) ∧
    (Machine.run 3 { world := w, ctl := .running a (.co_await (.co_return v) k handler) }).ctl
      = .resuming (some a) ∧
    (Machine.run 3 { world := w, ctl := .running a (.co_await (.throw e) k handler) }).ctl
      = .resuming (some a) := by
  refine ⟨⟨w.set_promise c { p with m_continuation := some a },
    { p with m_continuation := some a }, ?_, World.promise_set_promise hp _, ?_, ?_⟩,
    (Machine.run_await_co_return w a f v k handler ha).1,
    (Machine.run_await_throw w a f e k handler ha).1⟩
  · simp [task.awaiter.await_suspend, hp]
  · have h1 := World.promise_set_promise hp { p with m_continuation := some a }
    have h2 := World.promise_set_promise h1
      (task_promise.return_value { p with m_continuation := some a } v)
    simp only [final_suspend.awaiter.await_suspend, h2]
    simp [task_promise.return_value]
  · have h1 := World.promise_set_promise hp { p with m_continuation := some a }
    have h2 := World.promise_set_promise h1
      (task_promise_base.unhandled_exception { p with m_continuation := some a } e)
    simp only [final_suspend.awaiter.await_suspend, h2]
    simp [task_promise_base.unhandled_exception]

/-- Instance of `completion_hand_back`: frame 0 of `demo_world` awaits and is handed control
back. -/
theorem completion_hand_back_witness :
    demo_world.promise 0 = some task_promise_base.ctor ∧
    demo_world.frames[0]? = some demo_frame ∧
    (∃ w1 p1, (task.awaiter.mk (some 0)).await_suspend demo_world (some 0) = .ok (some 0, w1) ∧
      w1.promise 0 = some p1 ∧
      final_suspend.awaiter.await_suspend
        (w1.set_promise 0 (task_promise.return_value p1 42)) (some 0) = .ok (some 0) ∧
      final_suspend.awaiter.await_suspend
        (w1.set_promise 0 (task_promise_base.unhandled_exception p1 (.user "boom"))) (some 0)
        = .ok (some 0)) ∧
    (Machine.run 3
      { world := demo_world
        ctl := .running 0
          (.co_await (.co_return 42) (fun r => .co_return r) (fun e => .throw e)) }).ctl
      = .resuming (some 0) ∧
    (Machine.run 3
      { world := demo_world
        ctl := .running 0
          (.co_await (.throw (.user "boom")) (fun r => .co_return r)
            (fun e => .throw e)) }).ctl
      = .resuming (some 0) :=
  ⟨rfl, rfl, completion_hand_back demo_world 0 0 task_promise_base.ctor demo_frame 42
    (.user "boom") (fun r => .co_return r) (fun e => .throw e) rfl rfl⟩

/-- Claim C6, sequential composition. Task A awaits task B and returns `f` of B's result, B
returns `v`: a caller that executes `co_await` on A goes on, eight machine steps later, with
exactly `f v` (with `v = 7` and `f r = r + 1` it goes on with `8`). -/
theorem sequential_composition [Movable T] (w : World T E) (a : Nat) (fr : frame T E)
    (v : T) (f : T → T) (k : T → Body T E) (handler : exception E → Body T E)
    (ha : w.frames[a]? = some fr) :
    (Machine.run 8
      { world := w
        ctl := .running a
          (.co_await
            (.co_await (.co_return v) (fun r => .co_return (f r)) (fun e => .throw e))
            k handler) }).ctl
      = .running a (k (f v)) := by
  have ha' : w.lookup a = some fr := ha
  have hlt : a < w.frames.length := World.lookup_lt ha'
  have e1 : w.frames.length ≠ a := by omega
  have e3 : a ≠ w.frames.length := by omega
  have e4 : a ≠ w.frames.length + 1 := by omega
  rw [show (8 : Nat) = 2 + (4 + 2) from rfl, Machine.run_add, Machine.run_add]
  have h12 : ∃ w2, Machine.run 2
      { world := w
        ctl := .running a
          (.co_await
            (.co_await (.co_return v) (fun r => .co_return (f r)) (fun e => .throw e))
            k handler) } =
      { world := w2
        ctl := .running w.frames.length
          (.co_await (.co_return v) (fun r => .co_return (f r)) (fun e => .throw e)) } ∧
      w2.lookup w.frames.length = some ⟨.task, ⟨some a, .monostate⟩, .running⟩ ∧
      w2.lookup a = some ⟨fr.kind, fr.promise,
        .awaiting ⟨some w.frames.length⟩ ⟨some w.frames.length⟩ k handler⟩ ∧
      w2.frames.length = w.frames.length + 1 := by
    simp only [Machine.run]
    rw [Machine.step_co_await w a fr _ k handler ha']
    rw [Machine.step_enter_initial _ w.frames.length ⟨.task, ⟨some a, .monostate⟩,
      .initial (.co_await (.co_return v) (fun r => .co_return (f r)) (fun e => .throw e))⟩ _
      (by simp [World.lookup_set_state, World.lookup_set_promise, World.lookup_call, e1,
            task_promise_base.ctor]) rfl]
    refine ⟨_, rfl, ?_, ?_, ?_⟩
    · simp [World.lookup_set_state, World.lookup_set_promise, World.lookup_call,
        World.lookup_record, e1, task_promise_base.ctor]
    · simp [World.lookup_set_state, World.lookup_set_promise, World.lookup_call,
        World.lookup_record, e1, e3, hlt, ha']
    · simp [World.length_set_state, World.length_set_promise, World.length_call,
        World.length_record]
  obtain ⟨w2, h2, hn2, ha2, hl2⟩ := h12
  rw [h2]
  obtain ⟨w6, h6, hn6, ho6, hl6⟩ := (Machine.run_await_co_return w2 w.frames.length
    ⟨.task, ⟨some a, .monostate⟩, .running⟩ v (fun r => .co_return (f r))
    (fun e => .throw e) hn2).2
  rw [h6]
  have ha6 : w6.lookup a =
      some ⟨fr.kind, fr.promise,
        .awaiting ⟨some w.frames.length⟩ ⟨some w.frames.length⟩ k handler⟩ := by
    rw [ho6 a e3 (by omega), ha2]
  simp only [Machine.run]
  rw [Machine.step_co_return w6 w.frames.length _ (f v) hn6 rfl rfl]
  simp only []
  rw [Machine.step_enter_awaiting _ a w.frames.length
    ⟨fr.kind, fr.promise, .awaiting ⟨some w.frames.length⟩ ⟨some w.frames.length⟩ k handler⟩
    ⟨.task, ⟨some a, .value (f v)⟩, .final⟩ ⟨some w.frames.length⟩ k handler
    (by simp [World.lookup_set_state, World.lookup_set_promise, World.lookup_record, e3,
          ha6]) rfl
    (by simp [World.lookup_set_state, World.lookup_set_promise, World.lookup_record, hn6,
          task_promise.return_value]) rfl e3]
  rfl

/-- Instance of `sequential_composition`: B returns `7`, A returns B's result plus one, the
caller at frame 0 goes on with `8`. -/
theorem sequential_composition_witness :
    demo_world.frames[0]? = some demo_frame ∧
    (Machine.run 8
      { world := demo_world
        ctl := .running 0
          (.co_await
            (.co_await (.co_return 7) (fun r => .co_return (r + 1)) (fun e => .throw e))
            (fun r => .co_return r) (fun e => .throw e)) }).ctl
      = .running 0 (.co_return 8) :=
  ⟨rfl, sequential_composition demo_world 0 demo_frame 7 (fun r => r + 1)
    (fun r => .co_return r) (fun e => .throw e) rfl⟩

/-- Claim C7, move construction. For every handle `src`, valid or empty, `task(task&& other)`
gives the new object exactly the handle `src` held, leaves `src` empty (`operator bool` is
false), and the destructor of the moved-from `src` leaves the world of frames as it is, so the
execution state is not destroyed by it. -/
theorem move_construction (w : World T E) (src : task) :
    (task.move_ctor src).1.m_coro = src.m_coro ∧
    (task.move_ctor src).2.operator_bool = false ∧
    task.dtor w (task.move_ctor src).2 = (w, { m_coro := none }) :=
  ⟨rfl, rfl, rfl⟩

/-- Claim C8 as amended. Move assignment exchanges the two handles: after
`dst = std::move(src)` the object `dst` holds what `src` held, `src` holds what `dst` held, and
no other task object changes; so `src` is empty afterwards exactly when `dst` was empty
before (a self-assignment changes nothing). -/
theorem move_assignment_swaps (s : task_store) (dst src : Nat) :
    (task.move_assign s dst src) dst = s src ∧
    (task.move_assign s dst src) src = s dst ∧
    (∀ x, x ≠ dst → x ≠ src → (task.move_assign s dst src) x = s x) ∧
    ((task.move_assign s dst src) src).operator_bool = (s dst).operator_bool := by
  have h1 : (task.move_assign s dst src) dst = s src := by
    simp [task.move_assign, std.exchange]
  have h2 : (task.move_assign s dst src) src = s dst := by
    by_cases h : src = dst
    · subst h; simp [task.move_assign, std.exchange]
    · simp [task.move_assign, std.exchange, Function.update_noteq h]
  refine ⟨h1, h2, ?_, by rw [h2]⟩
  intro x hd hs
  simp [task.move_assign, Function.update_noteq hd, Function.update_noteq hs]

/-- Claim C8 as stated fails. With `dst` owning frame 5 and `src` owning frame 7, after
`dst = std::move(src)` the source is not empty: `operator bool` of `src` is true and `src`
owns frame 5 (`dst` owns frame 7). -/
theorem move_assignment_source_not_empty :
    (demo_store 0).m_coro = some 5 ∧ (demo_store 1).m_coro = some 7 ∧
    ((task.move_assign demo_store 0 1) 1).operator_bool = true ∧
    ((task.move_assign demo_store 0 1) 1).m_coro = some 5 ∧
    ((task.move_assign demo_store 0 1) 0).m_coro = some 7 := by
  decide

/-- Claim C9, `release()`. For every valid handle owning frame `c`, `release()` returns exactly
`some c` and leaves the handle empty (`operator bool` is false); `release()` has no access to
the frames, so it neither destroys nor resumes the state; and the destructor of the emptied
handle leaves the world of frames as it is. -/
theorem release_hands_over (w : World T E) (t : task) (c : Nat) (h : t.m_coro = some c) :
    ∃ t', t.release = .ok (some c, t') ∧ t'.operator_bool = false ∧
      task.dtor w t' = (w, { m_coro := none }) := by
  refine ⟨{ m_coro := none }, ?_, rfl, rfl⟩
  simp [task.release, h, std.exchange]

/-- Instance of `release_hands_over`: the task that owns frame 0 of `demo_world`. -/
theorem release_hands_over_witness :
    (task.mk (some 0)).m_coro = some 0 ∧
    ∃ t', (task.mk (some 0)).release = .ok (some 0, t') ∧ t'.operator_bool = false ∧
      task.dtor demo_world t' = (demo_world, { m_coro := none }) :=
  ⟨rfl, release_hands_over demo_world (task.mk (some 0)) 0 rfl⟩

/-- Claim C10 as amended. A task is called in world `w` (its frame is at address
`w.frames.length`). In one run the task is released and the raw handle is resumed by hand; in
the other a caller frame `a` executes `co_await` on it. Both runs then go through the same
actions `acts` of the code outside the coroutines (machine steps, and further `resume()` calls
on frames that the task created). Either the two runs end in lockstep (same control, same result
channel of the task, same counter, same log), or the released run has stopped with the failed
assertion of the final awaiter (no continuation was recorded), which happened at the action at
which the awaited run handed control back to the caller `a`; the result channel left by the
released run then holds exactly the value, or the error, that the awaiter delivers to the
caller in the next step of the awaited run. -/
theorem release_resume_equivalence [Movable T] (w : World T E) (a : Nat) (fr : frame T E)
    (body : Body T E) (k : T → Body T E) (handler : exception E → Body T E)
    (acts : List action)
    (ha : w.frames[a]? = some fr)
    (hacts : ∀ b, action.resume b ∈ acts → w.frames.length ≤ b) :
    ∃ R, Machine.release_and_resume acts w body = .ok R ∧
      ((R.ctl = (Machine.play (Machine.awaiting w a body k handler) (.tick :: acts)).ctl ∧
        R.world.result w.frames.length =
          (Machine.play (Machine.awaiting w a body k handler) (.tick :: acts)).world.result
            w.frames.length ∧
        R.world.counter =
          (Machine.play (Machine.awaiting w a body k handler) (.tick :: acts)).world.counter ∧
        R.world.log =
          (Machine.play (Machine.awaiting w a body k handler) (.tick :: acts)).world.log) ∨
       (R.ctl = .aborted .assertion_failed ∧
        ∃ j, j ≤ acts.length ∧
          (Machine.play (Machine.awaiting w a body k handler) (.tick :: acts.take j)).ctl
            = .resuming (some a) ∧
          R.world.counter =
            (Machine.play (Machine.awaiting w a body k handler)
              (.tick :: acts.take j)).world.counter ∧
          ((∃ v, R.world.result w.frames.length = some (.value v) ∧
              (Machine.play (Machine.awaiting w a body k handler)
                (.tick :: acts.take j)).step.ctl = .running a (k v)) ∨
           (∃ e, R.world.result w.frames.length = some (.exception_ptr e) ∧
              (Machine.play (Machine.awaiting w a body k handler)
                (.tick :: acts.take j)).step.ctl = .running a (handler e))))) := by
  have hnew : (w.call .task body).1.lookup w.frames.length =
      some { kind := .task, promise := task_promise_base.ctor, state := .initial body } := by
    rw [World.lookup_call, if_neg (Nat.lt_irrefl _), if_pos rfl]
  have hdone : (w.call .task body).1.done w.frames.length = false := by
    unfold World.lookup at hnew
    unfold World.done
    rw [hnew]
    rfl
  have hrel : Machine.release_and_resume acts w body =
      .ok (Machine.play
        { world := (w.call .task body).1, ctl := .resuming (some w.frames.length) } acts) := by
    simp [Machine.release_and_resume, World.call_snd, task.ctor, hdone, task.release,
      std.exchange]
  refine ⟨_, hrel, ?_⟩
  have hA : ∀ l, Machine.play (Machine.awaiting w a body k handler) (.tick :: l) =
      Machine.play (Machine.awaiting w a body k handler).step l := fun _ => rfl
  rcases Machine.sim_play (Machine.sim_start w a fr body k handler ha) acts hacts with
    hs | ⟨j, hj, hd⟩
  · left
    rw [hA acts]
    exact ⟨hs.1, hs.2.2.result_eq, hs.2.2.counter, hs.2.2.log⟩
  · right
    obtain ⟨h1, h2, h3, _, h5⟩ := hd
    rw [← hA] at h2 h3 h5
    exact ⟨h1, j, hj, h2, h3, h5⟩

/-- Instance of `release_resume_equivalence`: a task returning `42`, called in `demo_world`,
released and resumed, against frame 0 awaiting it, for three machine steps. -/
theorem release_resume_equivalence_witness :
    demo_world.frames[0]? = some demo_frame ∧
    (∀ b, action.resume b ∈ [action.tick, .tick, .tick] → demo_world.frames.length ≤ b) ∧
    ∃ R, Machine.release_and_resume [.tick, .tick, .tick] demo_world (.co_return 42)
        = .ok R ∧
      ((R.ctl = (Machine.play (Machine.awaiting demo_world 0 (.co_return 42)
            (fun r => .co_return r) (fun e => .throw e))
            (.tick :: [.tick, .tick, .tick])).ctl ∧
        R.world.result demo_world.frames.length =
          (Machine.play (Machine.awaiting demo_world 0 (.co_return 42)
            (fun r => .co_return r) (fun e => .throw e))
            (.tick :: [.tick, .tick, .tick])).world.result demo_world.frames.length ∧
        R.world.counter =
          (Machine.play (Machine.awaiting demo_world 0 (.co_return 42)
            (fun r => .co_return r) (fun e => .throw e))
            (.tick :: [.tick, .tick, .tick])).world.counter ∧
        R.world.log =
          (Machine.play (Machine.awaiting demo_world 0 (.co_return 42)
            (fun r => .co_return r) (fun e => .throw e))
            (.tick :: [.tick, .tick, .tick])).world.log) ∨
       (R.ctl = .aborted .assertion_failed ∧
        ∃ j, j ≤ [action.tick, .tick, .tick].length ∧
          (Machine.play (Machine.awaiting demo_world 0 (.co_return 42)
            (fun r => .co_return r) (fun e => .throw e))
            (.tick :: [action.tick, .tick, .tick].take j)).ctl
            = .resuming (some 0) ∧
          R.world.counter =
            (Machine.play (Machine.awaiting demo_world 0 (.co_return 42)
              (fun r => .co_return r) (fun e => .throw e))
              (.tick :: [action.tick, .tick, .tick].take j)).world.counter ∧
          ((∃ v, R.world.result demo_world.frames.length = some (.value v) ∧
              (Machine.play (Machine.awaiting demo_world 0 (.co_return 42)
                (fun r => .co_return r) (fun e => .throw e))
                (.tick :: [action.tick, .tick, .tick].take j)).step.ctl
                = .running 0 ((fun r => .co_return r) v)) ∨
           (∃ e, R.world.result demo_world.frames.length = some (.exception_ptr e) ∧
              (Machine.play (Machine.awaiting demo_world 0 (.co_return 42)
                (fun r => .co_return r) (fun e => .throw e))
                (.tick :: [action.tick, .tick, .tick].take j)).step.ctl
                = .running 0 ((fun e => .throw e) e))))) :=
  have hacts : ∀ b, action.resume b ∈ [action.tick, .tick, .tick] →
      demo_world.frames.length ≤ b := by
    intro b hb
    simp at hb
  ⟨rfl, hacts, release_resume_equivalence demo_world 0 demo_frame (.co_return 42)
    (fun r => .co_return r) (fun e => .throw e) [.tick, .tick, .tick] rfl hacts⟩

/-- Claim C10 as stated fails. A task whose body is `co_return 42` is called, released and
resumed by hand: the run stops in the failed assertion of the final awaiter, with `42` in the
result channel; awaiting the same task from a driver coroutine ends without a fault and
delivers `42`. -/
theorem release_resume_assertion_fails :
    (Machine.release_and_resume [.tick, .tick] (World.empty : World Nat String)
        (.co_return 42)).map Machine.fault = .ok (some fault.assertion_failed) ∧
    (Machine.release_and_resume [.tick, .tick] (World.empty : World Nat String)
        (.co_return 42)).map (fun m => m.world.result 0) = .ok (some (.value 42)) ∧
    (Machine.await 10 (World.empty : World Nat String) (.co_return 42)).fault = none ∧
    (Machine.await 10 (World.empty : World Nat String) (.co_return 42)).is_idle = true ∧
    (Machine.await 10 (World.empty : World Nat String) (.co_return 42)).world.result 0
      = some (.value 42) :=
  ⟨rfl, rfl, rfl, rfl, rfl⟩

/-- Claim C13 as amended. When the result channel holds `Value(v)`, `get()` returns `v` and
leaves the channel in the value alternative, now holding the moved-from residue of `v`: the
channel is not empty afterwards, and a second `get()` returns that residue. The same holds
through the task awaiter's `await_resume()` on a live frame. -/
theorem read_moves_value_out [Movable T] (w : World T E) (c : Nat)
    (p : task_promise T (exception E)) (v : T)
    (hp : w.promise c = some p) (hv : p.m_value = .value v) :
    task_promise.get p = (.returned v, { p with m_value := .value (Movable.moved_from v) }) ∧
    (task_promise.get p).2.m_value.holds_value = true ∧
    (task_promise.get p).2.m_value.holds_monostate = false ∧
    (task_promise.get (task_promise.get p).2).1 = .returned (Movable.moved_from v) ∧
    ∃ w', (task.awaiter.mk (some c)).await_resume w = .ok (.returned v, w') ∧
      w'.promise c = some { p with m_value := .value (Movable.moved_from v) } := by
  have h1 : task_promise.get p =
      (.returned v, { p with m_value := .value (Movable.moved_from v) }) := by
    simp [task_promise.get, task_promise_base.rethrow_if_exception, hv,
      variant.holds_exception_ptr]
  refine ⟨h1, ?_, ?_, ?_, ?_⟩
  · rw [h1]; rfl
  · rw [h1]; rfl
  · rw [h1]
    simp [task_promise.get, task_promise_base.rethrow_if_exception,
      variant.holds_exception_ptr]
  · refine ⟨w.set_promise c { p with m_value := .value (Movable.moved_from v) }, ?_,
      World.promise_set_promise hp _⟩
    simp only [task.awaiter.await_resume, hp, h1]

/-- Instance of `read_moves_value_out`: the frame of `demo_value_world` holds `42`. -/
theorem read_moves_value_out_witness :
    demo_value_world.promise 0 = some { m_continuation := none, m_value := .value 42 } ∧
    task_promise.get
        ({ m_continuation := none, m_value := .value 42 } : task_promise Nat (exception String))
      = (.returned 42, { m_continuation := none, m_value := .value 42 }) ∧
    ∃ w', (task.awaiter.mk (some 0)).await_resume demo_value_world = .ok (.returned 42, w') ∧
      w'.promise 0 = some { m_continuation := none, m_value := .value 42 } :=
  have h := read_moves_value_out demo_value_world 0
    { m_continuation := none, m_value := .value 42 } 42 rfl rfl
  ⟨rfl, h.1, h.2.2.2.2⟩

/-- Claim C13 as stated fails. After `get()` has returned `42` from a `task<int>` promise, the
result channel is not empty: it still holds the value alternative with `42`, and a second
`get()` returns `42` again. -/
theorem read_does_not_empty_channel :
    (task_promise.get
        ({ m_continuation := none, m_value := .value 42 }
          : task_promise Nat (exception String))).1 = .returned 42 ∧
    (task_promise.get
        ({ m_continuation := none, m_value := .value 42 }
          : task_promise Nat (exception String))).2.m_value = .value 42 ∧
    (task_promise.get
        ({ m_continuation := none, m_value := .value 42 }
          : task_promise Nat (exception String))).2.m_value.holds_monostate = false ∧
    (task_promise.get (task_promise.get
        ({ m_continuation := none, m_value := .value 42 }
          : task_promise Nat (exception String))).2).1 = .returned 42 := by
  decide

/-- Claim C15 as amended. For `task<void>`, `return_void()` stores the marker, a value state
distinct from the empty one; `get()` rethrows `e` exactly when the channel holds the error
`e`; when the channel holds the marker `get()` completes normally, yields nothing and leaves
the promise as it is; when the channel is empty `get()` throws `std::bad_variant_access`. -/
theorem no_value_form (q : task_promise_void E) :
    (task_promise_void.return_void q).m_value = .value returned.mk ∧
    (task_promise_void.return_void q).m_value.holds_monostate = false ∧
    (task_promise_void.get (task_promise_void.return_void q)).1 = .returned () ∧
    (∀ e, (task_promise_void.get q).1 = .thrown e ↔ q.m_value = .exception_ptr e) ∧
    ((task_promise_void.get q).1 = .returned () ↔ q.m_value = .value returned.mk) ∧
    (q.m_value = .value returned.mk → (task_promise_void.get q).2 = q) ∧
    ((task_promise_void.get q).1 = .bad_variant_access ↔ q.m_value = .monostate) := by
  obtain ⟨c, m⟩ := q
  cases m with
  | monostate =>
    simp [task_promise_void.get, task_promise_void.return_void,
      task_promise_base.rethrow_if_exception, variant.holds_exception_ptr,
      variant.holds_monostate, Movable.moved_from]
  | value v =>
    cases v
    simp [task_promise_void.get, task_promise_void.return_void,
      task_promise_base.rethrow_if_exception, variant.holds_exception_ptr,
      variant.holds_monostate, Movable.moved_from]
  | exception_ptr e =>
    simp [task_promise_void.get, task_promise_void.return_void,
      task_promise_base.rethrow_if_exception, variant.holds_exception_ptr,
      variant.holds_monostate, Movable.moved_from]

/-- Claim C15 as stated fails. On a `task<void>` promise whose channel is empty (it holds no
error), `get()` does not complete normally: it throws `std::bad_variant_access`. -/
theorem no_value_get_on_empty_throws :
    (task_promise_base.ctor : task_promise_void (exception String)).m_value.holds_exception_ptr
      = false ∧
    (task_promise_void.get
      (task_promise_base.ctor : task_promise_void (exception String))).1
      = .bad_variant_access := by
  decide

/-- Claim C20, reading an error does not consume it. When the result channel holds
`Error(e)`, `rethrow_if_exception()`, `task_promise<T>::get()` and `task_promise<void>::get()`
rethrow `e` and leave the promise exactly as it was; hence after any number `n` of calls the
promise is unchanged and the next `get()` rethrows the same `e`. -/
theorem error_read_keeps_error [Movable T] (c : coroutine_handle) (e : E) (n : Nat) :
    task_promise_base.rethrow_if_exception
        ({ m_continuation := c, m_value := .exception_ptr e } : task_promise_base T E)
      = (.thrown e, { m_continuation := c, m_value := .exception_ptr e }) ∧
    task_promise.get ({ m_continuation := c, m_value := .exception_ptr e } : task_promise T E)
      = (.thrown e, { m_continuation := c, m_value := .exception_ptr e }) ∧
    task_promise_void.get
        ({ m_continuation := c, m_value := .exception_ptr e } : task_promise_void E)
      = (.thrown e, { m_continuation := c, m_value := .exception_ptr e }) ∧
    (fun p : task_promise T E => (task_promise.get p).2)^[n]
        { m_continuation := c, m_value := .exception_ptr e }
      = { m_continuation := c, m_value := .exception_ptr e } ∧
    (task_promise.get
      ((fun p : task_promise T E => (task_promise.get p).2)^[n]
        { m_continuation := c, m_value := .exception_ptr e })).1 = .thrown e ∧
    (task_promise_void.get
      ((fun p : task_promise_void E => (task_promise_void.get p).2)^[n]
        { m_continuation := c, m_value := .exception_ptr e })).1 = .thrown e := by
  have h1 : task_promise.get
      ({ m_continuation := c, m_value := .exception_ptr e } : task_promise T E)
      = (.thrown e, { m_continuation := c, m_value := .exception_ptr e }) := rfl
  have h2 : task_promise_void.get
      ({ m_continuation := c, m_value := .exception_ptr e } : task_promise_void E)
      = (.thrown e, { m_continuation := c, m_value := .exception_ptr e }) := rfl
  have h3 : (fun p : task_promise T E => (task_promise.get p).2)^[n]
      { m_continuation := c, m_value := .exception_ptr e }
      = { m_continuation := c, m_value := .exception_ptr e } :=
    Function.iterate_fixed (by rw [h1]) n
  have h4 : (fun p : task_promise_void E => (task_promise_void.get p).2)^[n]
      { m_continuation := c, m_value := .exception_ptr e }
      = { m_continuation := c, m_value := .exception_ptr e } :=
    Function.iterate_fixed (by rw [h2]) n
  exact ⟨rfl, h1, h2, h3, by rw [h3, h1], by rw [h4, h2]⟩

/-- Claim C14 as amended. The continuation link is assigned by the task awaiter's
`await_suspend` and by nothing else: `return_value`, `unhandled_exception` and `get()` leave it
as it is, and in the machine, where every `co_await` awaits the task it has just called, the
link of a frame that exists is the same after any sequence of steps and `resume()` calls.
`await_suspend` itself has no guard: on a live frame `c`, a second `await_suspend`, through a
second awaiter of the same handle, replaces the recorded continuation by the new one. -/
theorem continuation_link_writers [Movable T] (m : Machine T E) (acts : List action)
    (i c a1 a2 : Nat) (f : frame T E) (p : task_promise T (exception E)) (v : T)
    (e : exception E)
    (hf : m.world.frames[i]? = some f) (hp : m.world.promise c = some p) :
    (∃ f2, (Machine.play m acts).world.frames[i]? = some f2 ∧
      f2.promise.m_continuation = f.promise.m_continuation) ∧
    (task_promise.return_value p v).m_continuation = p.m_continuation ∧
    (task_promise_base.unhandled_exception p e).m_continuation = p.m_continuation ∧
    (task_promise.get p).2.m_continuation = p.m_continuation ∧
    (∃ w1 w2, (task.awaiter.mk (some c)).await_suspend m.world (some a1) = .ok (some c, w1) ∧
      w1.promise c = some { m_continuation := some a1, m_value := p.m_value } ∧
      (task.awaiter.mk (some c)).await_suspend w1 (some a2) = .ok (some c, w2) ∧
      w2.promise c = some { m_continuation := some a2, m_value := p.m_value }) := by
  refine ⟨?_, rfl, rfl, (variant.index_get p).1, ?_⟩
  · obtain ⟨f2, h2, _, hc2⟩ := Machine.link_play m acts i f hf
    exact ⟨f2, h2, hc2⟩
  · have h1 := World.promise_set_promise hp { p with m_continuation := some a1 }
    refine ⟨m.world.set_promise c { p with m_continuation := some a1 },
      (m.world.set_promise c { p with m_continuation := some a1 }).set_promise c
        { m_continuation := some a2, m_value := p.m_value }, ?_, h1, ?_,
      World.promise_set_promise h1 _⟩
    · simp [task.awaiter.await_suspend, hp]
    · simp [task.awaiter.await_suspend, h1]

/-- Instance of `continuation_link_writers`: frame 0 of `demo_world`, over three steps of the
machine that resumes it. -/
theorem continuation_link_writers_witness :
    demo_world.frames[0]? = some demo_frame ∧
    demo_world.promise 0 = some task_promise_base.ctor ∧
    (∃ f2, (Machine.play (Machine.mk demo_world (.resuming (some 0)))
        [.tick, .tick, .tick]).world.frames[0]? = some f2 ∧
      f2.promise.m_continuation = demo_frame.promise.m_continuation) ∧
    (∃ w1 w2, (task.awaiter.mk (some 0)).await_suspend demo_world (some 1) = .ok (some 0, w1) ∧
      w1.promise 0 = some { m_continuation := some 1, m_value := .monostate } ∧
      (task.awaiter.mk (some 0)).await_suspend w1 (some 2) = .ok (some 0, w2) ∧
      w2.promise 0 = some { m_continuation := some 2, m_value := .monostate }) :=
  have h := continuation_link_writers (Machine.mk demo_world (.resuming (some 0)))
    [.tick, .tick, .tick] 0 0 1 2 demo_frame task_promise_base.ctor 7 (.user "boom") rfl rfl
  ⟨rfl, rfl, h.1, h.2.2.2.2⟩

/-- Claim C14 as stated fails. Two awaiters are obtained from the task that owns frame 0 of
`demo_world`; the first records the caller at address 1, the second the caller at address 2:
the link recorded first is replaced, the frame's continuation is `some 2`. -/
theorem continuation_link_replaced :
    task.operator_co_await { m_coro := some 0 } = .ok { m_coro := some 0 } ∧
    ((task.awaiter.mk (some 0)).await_suspend demo_world (some 1)).map
        (fun r => r.2.continuation 0) = .ok (some (some 1)) ∧
    (((task.awaiter.mk (some 0)).await_suspend demo_world (some 1)).bind
        (fun r => (task.awaiter.mk (some 0)).await_suspend r.2 (some 2))).map
        (fun r => r.2.continuation 0) = .ok (some (some 2)) :=
  ⟨rfl, rfl, rfl⟩

/-- Claim C11 as amended. When a caller `b` executes `co_await` on a task, the continuation
link of the new frame is set to `some b` before the frame is resumed, its body not yet
started. A frame `c` whose link is `some a` keeps that link through every sequence of steps
and `resume()` calls; so whenever its body later reaches the completion step, the link is
set, and for a live task frame the final awaiter hands control to `some a` instead of failing
its assertion. -/
theorem continuation_set_before_completion [Movable T] (w : World T E) (b : Nat)
    (fb : frame T E) (body : Body T E) (k : T → Body T E) (handler : exception E → Body T E)
    (m : Machine T E) (acts : List action) (c a : Nat) (f : frame T E)
    (hb : w.frames[b]? = some fb)
    (hc : m.world.frames[c]? = some f) (ha : f.promise.m_continuation = some a) :
    ((Machine.awaiting w b body k handler).step.ctl = .resuming (some w.frames.length) ∧
      (Machine.awaiting w b body k handler).step.world.frames[w.frames.length]? =
        some { kind := .task, promise := { m_continuation := some b, m_value := .monostate },
               state := .initial body }) ∧
    ∃ f2, (Machine.play m acts).world.frames[c]? = some f2 ∧
      f2.promise.m_continuation = some a ∧
      (f2.kind = .task → f2.state.is_destroyed = false →
        (∀ v, (Machine.play m acts).ctl = .running c (.co_return v) →
          (Machine.play m acts).step.ctl = .resuming (some a)) ∧
        (∀ e, (Machine.play m acts).ctl = .running c (.throw e) →
          (Machine.play m acts).step.ctl = .resuming (some a))) := by
  constructor
  · have hb2 : w.lookup b = some fb := hb
    have hne : w.frames.length ≠ b := Nat.ne_of_gt (World.lookup_lt hb2)
    show (Machine.exec w b (.co_await body k handler)).ctl = _ ∧
      (Machine.exec w b (.co_await body k handler)).world.lookup _ = _
    rw [Machine.exec_co_await]
    refine ⟨rfl, ?_⟩
    rw [World.lookup_set_promise_self, World.lookup_set_state_of_ne _ hne, World.lookup_call,
      if_neg (Nat.lt_irrefl _), if_pos rfl]
    rfl
  · obtain ⟨f2, h2, _, hc2⟩ := Machine.link_play m acts c f hc
    refine ⟨f2, h2, hc2.trans ha, fun hk hl => ⟨fun v hv => ?_, fun e he => ?_⟩⟩
    · have hs := Machine.step_co_return (Machine.play m acts).world c f2 v h2 hk hl
      rw [hc2, ha] at hs
      have hm : Machine.play m acts =
          { world := (Machine.play m acts).world, ctl := .running c (.co_return v) } := by
        rw [← hv]
      rw [hm, hs]
    · have hs := Machine.step_throw (Machine.play m acts).world c f2 e h2 hk hl
      rw [hc2, ha] at hs
      have hm : Machine.play m acts =
          { world := (Machine.play m acts).world, ctl := .running c (.throw e) } := by
        rw [← he]
      rw [hm, hs]

/-- Instance of `continuation_set_before_completion`: frame 0 of `demo_world` awaits a task
returning `42`; one step later the task is at its completion step with the link set. -/
theorem continuation_set_before_completion_witness :
    demo_world.frames[0]? = some demo_frame ∧
    demo_awaited.world.frames[1]? =
      some { kind := .task, promise := { m_continuation := some 0, m_value := .monostate },
             state := .initial (.co_return 42) } ∧
    ∃ f2, (Machine.play demo_awaited [.tick]).world.frames[1]? = some f2 ∧
      f2.promise.m_continuation = some 0 ∧
      (f2.kind = .task → f2.state.is_destroyed = false →
        (∀ v, (Machine.play demo_awaited [.tick]).ctl = .running 1 (.co_return v) →
          (Machine.play demo_awaited [.tick]).step.ctl = .resuming (some 0)) ∧
        (∀ e, (Machine.play demo_awaited [.tick]).ctl = .running 1 (.throw e) →
          (Machine.play demo_awaited [.tick]).step.ctl = .resuming (some 0))) :=
  ⟨rfl, rfl, (continuation_set_before_completion demo_world 0 demo_frame (.co_return 42)
    (fun r => .co_return r) (fun e => .throw e) demo_awaited [.tick] 1 0
    { kind := .task, promise := { m_continuation := some 0, m_value := .monostate },
      state := .initial (.co_return 42) } rfl rfl rfl).2⟩

/-- Claim C11 as stated fails. A task whose body is `co_return 42` is called, released, and
its handle is resumed by hand. One step later the body is at its completion step and the
continuation link is still null; the next step is the failed assertion of the final
awaiter. -/
theorem completion_without_continuation :
    (Machine.release_and_resume [.tick] (World.empty : World Nat String) (.co_return 42)).map
        (fun m => m.ctl.completing) = .ok (some 0) ∧
    (Machine.release_and_resume [.tick] (World.empty : World Nat String) (.co_return 42)).map
        (fun m => m.world.continuation 0) = .ok (some none) ∧
    (Machine.release_and_resume [.tick] (World.empty : World Nat String) (.co_return 42)).map
        (fun m => m.step.fault) = .ok (some fault.assertion_failed) :=
  ⟨rfl, rfl, rfl⟩

/-- Claim C18, the result is written before it is read. Let the caller `a` be suspended in
`co_await` on the live task frame `c`, whose continuation link is `some a`. When the body of
`c` completes with `co_return v`, the value is stored before `final_suspend` reads the link:
the world handed to `final_suspend` already holds `Value(v)`; the step ends with control
handed to `a` and `Value(v)` in the channel; and the next step, in which `await_resume()` calls
`get()`, gives the caller `v`, not `std::bad_variant_access`. The same holds with `Error(e)`
when the body lets `e` escape. -/
theorem result_written_before_read [Movable T] (w : World T E) (a c : Nat)
    (fa fc : frame T E) (tmp : task) (k : T → Body T E) (handler : exception E → Body T E)
    (v : T) (e : exception E)
    (ha : w.frames[a]? = some fa)
    (hs : fa.state = .awaiting tmp { m_coro := some c } k handler)
    (hc : w.frames[c]? = some fc) (hk : fc.kind = .task)
    (hl : fc.state.is_destroyed = false) (hlink : fc.promise.m_continuation = some a)
    (hac : a ≠ c) :
    (Machine.step { world := w, ctl := .running c (.co_return v) } =
        Machine.final_suspend (w.set_promise c (task_promise.return_value fc.promise v)) c ∧
      (w.set_promise c (task_promise.return_value fc.promise v)).result c
        = some (.value v) ∧
      (Machine.step { world := w, ctl := .running c (.co_return v) }).ctl
        = .resuming (some a) ∧
      (Machine.step { world := w, ctl := .running c (.co_return v) }).world.result c
        = some (.value v) ∧
      (Machine.step { world := w, ctl := .running c (.co_return v) }).step.ctl
        = .running a (k v)) ∧
    (Machine.step { world := w, ctl := .running c (.throw e) } =
        Machine.final_suspend
          (w.set_promise c (task_promise_base.unhandled_exception fc.promise e)) c ∧
      (w.set_promise c (task_promise_base.unhandled_exception fc.promise e)).result c
        = some (.exception_ptr e) ∧
      (Machine.step { world := w, ctl := .running c (.throw e) }).ctl
        = .resuming (some a) ∧
      (Machine.step { world := w, ctl := .running c (.throw e) }).world.result c
        = some (.exception_ptr e) ∧
      (Machine.step { world := w, ctl := .running c (.throw e) }).step.ctl
        = .running a (handler e)) := by
  have ha' : w.lookup a = some fa := ha
  have hc' : w.lookup c = some fc := hc
  have hp := World.promise_of_live hc' hl
  constructor
  · have h1 : (w.set_promise c (task_promise.return_value fc.promise v)).lookup c =
        some { fc with promise := task_promise.return_value fc.promise v } := by
      rw [World.lookup_set_promise_self, hc']; rfl
    have hstep := Machine.step_co_return w c fc v hc' hk hl
    rw [hlink] at hstep
    simp only [] at hstep
    have hA : (((w.set_promise c (task_promise.return_value fc.promise v)).set_state c
        .final).record (.final_transfer c (some a))).lookup a = some fa := by
      rw [World.lookup_record, World.lookup_set_state_of_ne _ hac,
        World.lookup_set_promise_of_ne _ hac, ha']
    have hC : (((w.set_promise c (task_promise.return_value fc.promise v)).set_state c
        .final).record (.final_transfer c (some a))).lookup c =
        some { kind := fc.kind, promise := task_promise.return_value fc.promise v,
               state := .final } := by
      rw [World.lookup_record, World.lookup_set_state_self, h1]; rfl
    refine ⟨?_, World.result_of_lookup h1, ?_, ?_, ?_⟩
    · show Machine.exec w c (.co_return v) = _
      simp only [Machine.exec, hp]
    · rw [hstep]
    · rw [hstep]
      exact World.result_of_lookup hC
    · rw [hstep, Machine.step_enter_awaiting _ a c fa _ tmp k handler hA hs hC rfl hac]
      rfl
  · have h1 : (w.set_promise c (task_promise_base.unhandled_exception fc.promise e)).lookup c =
        some { fc with promise := task_promise_base.unhandled_exception fc.promise e } := by
      rw [World.lookup_set_promise_self, hc']; rfl
    have hstep := Machine.step_throw w c fc e hc' hk hl
    rw [hlink] at hstep
    simp only [] at hstep
    have hA : (((w.set_promise c (task_promise_base.unhandled_exception fc.promise e)).set_state
        c .final).record (.final_transfer c (some a))).lookup a = some fa := by
      rw [World.lookup_record, World.lookup_set_state_of_ne _ hac,
        World.lookup_set_promise_of_ne _ hac, ha']
    have hC : (((w.set_promise c (task_promise_base.unhandled_exception fc.promise e)).set_state
        c .final).record (.final_transfer c (some a))).lookup c =
        some { kind := fc.kind, promise := task_promise_base.unhandled_exception fc.promise e,
               state := .final } := by
      rw [World.lookup_record, World.lookup_set_state_self, h1]; rfl
    refine ⟨?_, World.result_of_lookup h1, ?_, ?_, ?_⟩
    · show Machine.exec w c (.throw e) = _
      simp only [Machine.exec, hp]
    · rw [hstep]
    · rw [hstep]
      exact World.result_of_lookup hC
    · rw [hstep, Machine.step_enter_awaiting _ a c fa _ tmp k handler hA hs hC rfl hac]
      rfl

/-- Instance of `result_written_before_read`: in `demo_completing` the caller at address 0
awaits the task at address 1, which is about to return `42`. -/
theorem result_written_before_read_witness :
    demo_completing.world.frames[0]? =
      some { kind := .driver, promise := task_promise_base.ctor,
             state := .awaiting { m_coro := some 1 } { m_coro := some 1 }
               (fun r => .co_return r) (fun e => .throw e) } ∧
    demo_completing.world.frames[1]? =
      some { kind := .task, promise := { m_continuation := some 0, m_value := .monostate },
             state := .running } ∧
    (Machine.step { world := demo_completing.world, ctl := .running 1 (.co_return 42) }).ctl
      = .resuming (some 0) ∧
    (Machine.step
      { world := demo_completing.world, ctl := .running 1 (.co_return 42) }).world.result 1
      = some (.value 42) ∧
    (Machine.step
      { world := demo_completing.world, ctl := .running 1 (.co_return 42) }).step.ctl
      = .running 0 (.co_return 42) :=
  have h := (result_written_before_read demo_completing.world 0 1
    { kind := .driver, promise := task_promise_base.ctor,
      state := .awaiting { m_coro := some 1 } { m_coro := some 1 }
        (fun r => .co_return r) (fun e => .throw e) }
    { kind := .task, promise := { m_continuation := some 0, m_value := .monostate },
      state := .running }
    { m_coro := some 1 } (fun r => .co_return r) (fun e => .throw e) 42 (.user "boom")
    rfl rfl rfl rfl rfl rfl (by decide)).1
  ⟨rfl, rfl, h.2.2.1, h.2.2.2.1, h.2.2.2.2⟩

/-- Claim C12 as amended. `get()` never changes which alternative the result channel holds.
`return_value`, `return_void` and `unhandled_exception` store their alternative whatever the
channel held before: the promise has no write-once guard. Under the coroutine protocol the
channel is written once: in a machine in which no unfinished frame has a result yet (as in the
empty world, and as after every call of a coroutine function), this stays so after every
sequence of steps and `resume()` calls, and a channel that holds a value or an error holds
the same alternative ever after; so each channel changes state at most once, from empty to
value or from empty to error. -/
theorem result_channel_write_once [Movable T] (m : Machine T E) (acts : List action)
    (i : Nat) (f : frame T E) (p : task_promise T (exception E)) (q : task_promise_void E)
    (v : T) (e : exception E) (kind : frame_kind) (body : Body T E)
    (hm : m.unwritten) (hf : m.world.frames[i]? = some f)
    (hw : f.promise.m_value.index ≠ 0) :
    ((task_promise.get p).2.m_value.index = p.m_value.index ∧
      (task_promise_void.get q).2.m_value.index = q.m_value.index) ∧
    ((task_promise.return_value p v).m_value = .value v ∧
      (task_promise_void.return_void q).m_value = .value returned.mk ∧
      (task_promise_base.unhandled_exception p e).m_value = .exception_ptr e) ∧
    ((Machine.mk (World.empty : World T E) .idle).unwritten ∧
      (Machine.mk (m.world.call kind body).1 m.ctl).unwritten) ∧
    (Machine.play m acts).unwritten ∧
    ∃ f2, (Machine.play m acts).world.frames[i]? = some f2 ∧
      f2.promise.m_value.index = f.promise.m_value.index := by
  refine ⟨⟨(variant.index_get p).2, ?_⟩, ⟨rfl, rfl, rfl⟩, ⟨?_, World.unwritten.after_call hm _ _⟩,
    Machine.unwritten_play hm acts, Machine.written_play hm acts i f hf hw⟩
  · obtain ⟨c, mv⟩ := q
    cases mv <;>
      simp [task_promise_void.get, task_promise_base.rethrow_if_exception,
        variant.holds_exception_ptr, variant.index, Movable.moved_from]
  · exact ⟨fun i f hf => (by cases hf), fun _ _ e => (by cases e)⟩

/-- Instance of `result_channel_write_once`: in `demo_completed` the task at address 1 holds
`42`; two steps later, after the caller has read it, the channel still holds a value. -/
theorem result_channel_write_once_witness :
    demo_completed.unwritten ∧
    demo_completed.world.frames[1]? =
      some { kind := .task, promise := { m_continuation := some 0, m_value := .value 42 },
             state := .final } ∧
    (variant.value 42 : variant Nat (exception String)).index ≠ 0 ∧
    ∃ f2, (Machine.play demo_completed [.tick, .tick]).world.frames[1]? = some f2 ∧
      f2.promise.m_value.index = 1 :=
  have h0 : (Machine.awaiting demo_world 0 (.co_return 42) (fun r => .co_return r)
      (fun e => .throw e)).unwritten := by
    constructor
    · intro i f hf _
      match i, hf with
      | 0, hf => cases hf; rfl
    · intro b f _ hf
      match b, hf with
      | 0, hf => cases hf; rfl
  have h1 : demo_completed.unwritten :=
    Machine.unwritten_play (Machine.unwritten_step h0) [.tick, .tick]
  ⟨h1, rfl, by decide,
    (result_channel_write_once demo_completed [.tick, .tick] 1
      { kind := .task, promise := { m_continuation := some 0, m_value := .value 42 },
        state := .final }
      task_promise_base.ctor task_promise_base.ctor 7 (.user "boom") .task (.co_return 0)
      h1 rfl (by decide)).2.2.2.2⟩

/-- Claim C12 as stated fails. On a fresh `task<int>` promise, `return_value(1)` followed by
`unhandled_exception()` takes the channel from value to error, and `return_value(1)`
followed by `return_value(2)` writes the value a second time. -/
theorem result_channel_overwritten :
    (task_promise.return_value
      (task_promise_base.ctor : task_promise Nat (exception String)) 1).m_value.index = 1 ∧
    (task_promise_base.unhandled_exception
      (task_promise.return_value
        (task_promise_base.ctor : task_promise Nat (exception String)) 1)
      (.user "boom")).m_value = .exception_ptr (.user "boom") ∧
    (task_promise.return_value
      (task_promise.return_value
        (task_promise_base.ctor : task_promise Nat (exception String)) 1) 2).m_value
      = .value 2 := by
  decide

/-- Claim C16, destruction. In a world whose ownership points forward, `~task()` leaves the
handle empty; on an empty handle it changes nothing, so a second teardown has no effect; on a
handle that owns frame `c` it calls `destroy` on `c` once: the log gains the destruction of
`c`, followed only by destructions of frames created later (the temporaries unwound with
it), the frame `c` ends destroyed, and nothing is resumed and no control is transferred: the
log gains no other kind of event, the counter does not move, and the destructor returns a
world, not a frame to run. -/
theorem destruction (w : World T E) (t : task) (hfw : w.forward) :
    (task.dtor w t).2 = { m_coro := none } ∧
    (t.m_coro = none → (task.dtor w t).1 = w) ∧
    task.dtor (task.dtor w t).1 (task.dtor w t).2 = ((task.dtor w t).1, { m_coro := none }) ∧
    (∀ c, t.m_coro = some c →
      (∃ l, (task.dtor w t).1.log = w.log ++ .destroyed c :: l ∧
        ∀ e, e ∈ l → ∃ d, e = .destroyed d ∧ c < d) ∧
      (task.dtor w t).1.counter = w.counter ∧
      (∀ f, w.frames[c]? = some f →
        (task.dtor w t).1.frames[c]? = some { f with state := .destroyed })) := by
  have h1 : (task.dtor w t).2 = { m_coro := none } := by
    unfold task.dtor
    cases t.m_coro <;> rfl
  refine ⟨h1, ?_, ?_, ?_⟩
  · intro hn
    simp [task.dtor, hn]
  · rw [h1]
    rfl
  · intro c hc
    have hd : (task.dtor w t).1 = World.destroy_aux (w.frames.length + 1) w c := by
      simp [task.dtor, hc, World.destroy]
    rw [hd]
    obtain ⟨l, hl, hall, hcnt⟩ := World.destroy_aux_log_once w.frames.length w c hfw
    exact ⟨⟨l, hl, hall⟩, hcnt, fun f hf => World.destroy_aux_self _ w c f hf⟩

/-- Instance of `destruction`: in `demo_owning_world` the driver at address 0 is suspended in
a `co_await` whose temporary owns the task at address 1. Tearing down a handle on frame 0
logs the destruction of 0 and then of 1, nothing else, and leaves the handle empty. -/
theorem destruction_witness :
    demo_owning_world.forward ∧
    (task.dtor demo_owning_world { m_coro := some 0 }).2 = { m_coro := none } ∧
    (task.dtor demo_owning_world { m_coro := some 0 }).1.log =
      [.destroyed 0, .destroyed 1] ∧
    (∃ l, (task.dtor demo_owning_world { m_coro := some 0 }).1.log =
        demo_owning_world.log ++ .destroyed 0 :: l ∧
      ∀ e, e ∈ l → ∃ d, e = .destroyed d ∧ 0 < d) :=
  have h0 : demo_owning_world.forward := by
    intro i f tmp aw k h hf hs d hd
    match i, hf with
    | 0, hf =>
      cases hf
      cases hs
      cases hd
      exact Nat.zero_lt_one
    | 1, hf =>
      cases hf
      cases hs
  ⟨h0, (destruction demo_owning_world { m_coro := some 0 } h0).1, rfl,
    ((destruction demo_owning_world { m_coro := some 0 } h0).2.2.2 0 rfl).1⟩

/-- Claim C19, ownership. From any well-formed set of task objects, after any sequence of
move constructions, move assignments, `release()` calls and destructions: no frame is held by
two task objects; every frame that was held at the start is still held, or was destroyed, or
was returned by `release()`; no frame was destroyed twice; a frame that is still held was
neither destroyed nor released, and a released frame was not destroyed. A self-assignment
changes nothing. -/
theorem ownership_conserved_and_exclusive (o : handle_set T E) (ops : List handle_op)
    (h : o.wf) :
    (∀ x y c, ((o.run ops).store x).m_coro = some c →
      ((o.run ops).store y).m_coro = some c → x = y) ∧
    (∀ c, o.held c →
      (o.run ops).held c ∨ event.destroyed c ∈ (o.run ops).world.log ∨
        c ∈ (o.run ops).released) ∧
    (∀ c, (o.run ops).world.log.count (event.destroyed c) ≤ 1) ∧
    (∀ c, (o.run ops).held c →
      event.destroyed c ∉ (o.run ops).world.log ∧ c ∉ (o.run ops).released) ∧
    (∀ c, c ∈ (o.run ops).released → event.destroyed c ∉ (o.run ops).world.log) ∧
    (∀ x, o.apply (.move_assign x x) = o) := by
  have hw := handle_set.wf_run o ops h
  refine ⟨hw.exclusive, ?_, hw.once, ?_, ?_, ?_⟩
  · intro c hc
    exact handle_set.accounted_run o ops h c (Or.inl hc)
  · intro c hc
    exact ⟨fun hd => (hw.destroyed_gone c hd).1 hc, fun hr => (hw.released_gone c hr).1 hc⟩
  · intro c hc
    exact (hw.released_gone c hc).2.2
  · intro x
    rw [handle_set.apply_move_assign]
    split_ifs
    · have hs : task.move_assign o.store x x = o.store := by
        funext y
        simp only [task.move_assign, std.exchange, Function.update_apply]
        by_cases hy : y = x
        · rw [if_pos hy, hy]
        · rw [if_neg hy, if_neg hy]
      rw [hs]
    · rfl

/-- Instance of `ownership_conserved_and_exclusive` on `demo_handles`: the handle of frame 0
is moved into a new object, assigned back, self-assigned, and its object destroyed; an empty
object is destroyed and `release()` is tried on an empty object. At the end no object holds
a frame and the log shows one destruction of frame 0 and one of the frame it owned. -/
theorem ownership_conserved_and_exclusive_witness :
    demo_handles.wf ∧
    (demo_handles.run [.move_ctor 0, .move_assign 0 2, .move_assign 0 0, .dtor 2, .dtor 0,
      .release 1]).world.log = [.destroyed 0, .destroyed 1] ∧
    (∀ c, (demo_handles.run [.move_ctor 0, .move_assign 0 2, .move_assign 0 0, .dtor 2,
      .dtor 0, .release 1]).world.log.count (event.destroyed c) ≤ 1) :=
  have h0 : demo_owning_world.forward := by
    intro i f tmp aw k h hf hs d hd
    match i, hf with
    | 0, hf =>
      cases hf
      cases hs
      cases hd
      exact Nat.zero_lt_one
    | 1, hf =>
      cases hf
      cases hs
  have hown : ∀ i d, demo_owning_world.owns i d → i = 0 ∧ d = 1 := by
    rintro i d ⟨f, tmp, aw, k, h, hf, hs, hd⟩
    match i, hf with
    | 0, hf =>
      cases hf
      cases hs
      cases hd
      exact ⟨rfl, rfl⟩
    | 1, hf =>
      cases hf
      cases hs
  have hst : ∀ x c, (demo_handles.store x).m_coro = some c → x = 0 ∧ c = 0 := by
    intro x c hx
    by_cases h1 : x = 0
    · subst h1
      cases hx
      exact ⟨rfl, rfl⟩
    · simp only [demo_handles, if_neg h1] at hx
      cases hx
  have hwf : demo_handles.wf :=
    { forward := h0
      single_owner := fun i j d hi hj => (hown i d hi).1.trans (hown j d hj).1.symm
      exclusive := fun x y c hx hy => (hst x c hx).1.trans (hst y c hy).1.symm
      top_level := fun c hc i hi => by
        obtain ⟨x, hx⟩ := hc
        have h1 := (hst x c hx).2
        have h2 := (hown i c hi).2
        omega
      destroyed_gone := fun c hc => by cases hc
      once := fun c => Nat.zero_le _
      released_gone := fun c hc => by cases hc
      fresh := fun x hx => by
        have h2 : 2 ≤ x := hx
        have h1 : x ≠ 0 := by omega
        simp only [demo_handles, if_neg h1] }
  ⟨hwf, rfl,
    (ownership_conserved_and_exclusive demo_handles
      [.move_ctor 0, .move_assign 0 2, .move_assign 0 0, .dtor 2, .dtor 0, .release 1]
      hwf).2.2.1⟩

end claims

end asyncpp
